import Mathlib

/-!
# Smartnode: the bond-reduction task and four smaller commands

A shallow embedding of `rocketpool-daemon/node/reduce-bonds.go`, followed by
those of `rocketpool-cli/commands/pdao/proposals.go` (the state filter of the
proposal list), `rocketpool-daemon/node/collectors/beacon-collector.go`,
`rocketpool/api/auction/status.go` and `shared/config/utils.go`.

* Go `float64` values are embedded exactly as sign, mantissa and binary
  exponent (`F64`); `eth.WeiToEth` is embedded with the two roundings that
  `big.Float.Quo` and `big.Float.Float64` perform, in integer arithmetic.
* `time.Time` values built by `time.Unix(sec, 0)` are embedded as their Unix
  second; `time.Duration` is an `Int` number of nanoseconds in the `int64`
  range, with wrapping addition and the saturating `Time.Sub`.
* Calls that leave the process (execution client, wallet, gas oracle,
  transaction submission) are answered by an `Env` record; every function
  returns the list of such calls it made, in order, next to its result.
* Log output is not part of the embedding.
-/

namespace Smartnode

/-! ## Go numeric helpers -/

/-- Number of bits of `n` by halving; `fuel` bounds the number of halvings. -/
def bitLenFuel : Nat → Nat → Nat
  | 0, _ => 0
  | fuel + 1, n => if n = 0 then 0 else bitLenFuel fuel (n / 2) + 1

/-- The bit length of a natural number (`big.Int.BitLen`). -/
def bitLen (n : Nat) : Nat := bitLenFuel n n

/-- Reinterpret an integer as a two's-complement `int64`. -/
def wrap64 (x : Int) : Int := (x + 2 ^ 63) % 2 ^ 64 - 2 ^ 63

/-- Go `float64`: a finite value `(-1)^neg * mant * 2^exp`, an infinity, or NaN. -/
inductive F64 where
  | finite (neg : Bool) (mant : Nat) (exp : Int)
  | inf (neg : Bool)
  | nan
  deriving DecidableEq, Repr

/-- The `float64` of a small natural constant such as `0` or `16`. -/
def F64.ofNat (n : Nat) : F64 := F64.finite false n 0

/-- Go `==` on `float64`: NaN equals nothing, the two zeros are equal. -/
def F64.eq : F64 → F64 → Bool
  | .finite n1 m1 e1, .finite n2 m2 e2 =>
    if m1 = 0 ∨ m2 = 0 then m1 == m2
    else n1 == n2 &&
      (m1 * 2 ^ (e1 - min e1 e2).toNat == m2 * 2 ^ (e2 - min e1 e2).toNat)
  | .inf a, .inf b => a == b
  | _, _ => false

/-- Round the positive rational `n / d` to `prec` mantissa bits, to nearest with
ties to even: the result `(m, e)` stands for `m * 2^e` with
`2^(prec-1) ≤ m < 2^prec`. -/
def roundNearestEven (n d prec : Nat) : Nat × Int :=
  let k : Int := (bitLen n : Int) - (bitLen d : Int)
  let e0 : Int := k - (prec : Int)
  let e : Int :=
    if d * 2 ^ e0.toNat * 2 ^ prec ≤ n * 2 ^ (-e0).toNat then e0 + 1 else e0
  let num := n * 2 ^ (-e).toNat
  let den := d * 2 ^ e.toNat
  let q := num / den
  let r := num % den
  let m := if den < 2 * r ∨ (2 * r = den ∧ q % 2 = 1) then q + 1 else q
  if m = 2 ^ prec then (2 ^ (prec - 1), e + 1) else (m, e)

/-- Conversion factor `eth.WeiPerEth`. -/
def WeiPerEth : Nat := 10 ^ 18

/-- `eth.WeiToEth` of node-manager-core on a non-negative amount:
`weiFloat.SetInt(wei)` (exact, precision `max(BitLen, 64)`),
`eth.Quo(&weiFloat, big.NewFloat(WeiPerEth))` (rounded to that precision) and
`eth.Float64()` (rounded to 53 bits; beyond the largest exponent the result is
`+Inf`). A positive amount of wei is at least `10^-18` ETH, so the subnormal
range is never reached. -/
def WeiToEth (wei : Nat) : F64 :=
  if wei = 0 then F64.ofNat 0
  else
    let quo := roundNearestEven wei WeiPerEth (max (bitLen wei) 64)
    let r := roundNearestEven (quo.1 * 2 ^ quo.2.toNat) (2 ^ (-quo.2).toNat) 53
    if 1023 < r.2 + 52 then F64.inf false else F64.finite false r.1 r.2

/-! ## Time -/

/-- `time.Second` in nanoseconds. -/
def Second : Int := 1000000000

/-- Largest `time.Duration`. -/
def maxDuration : Int := 2 ^ 63 - 1

/-- Smallest `time.Duration`. -/
def minDuration : Int := -(2 ^ 63)

/-- `Time.Sub` on two instants given as Unix seconds: the difference in
nanoseconds, or the largest (smallest) duration when it does not fit. -/
def timeSub (t u : Int) : Int :=
  let d := (t - u) * Second
  if maxDuration < d then maxDuration
  else if d < minDuration then minDuration
  else d

/-- Addition of two `time.Duration` values (`int64`, wrapping). -/
def durAdd (a b : Int) : Int := wrap64 (a + b)

/-! ## Data model -/

/-- An execution-layer address. -/
abbrev Address := Nat

/-- The lifecycle status `types.MinipoolStatus`. -/
inductive MinipoolStatus where
  | Initialized
  | Prelaunch
  | Staking
  | Withdrawable
  | Dissolved
  deriving DecidableEq, Repr

/-- The fields of `rpstate.NativeMinipoolDetails` that the task reads. -/
structure NativeMinipoolDetails where
  MinipoolAddress : Address
  Version : Nat
  NodeDepositBalance : Nat
  Status : MinipoolStatus
  deriving DecidableEq, Repr

/-- A `minipool.MinipoolV3` binding after the batched query filled it:
`ReduceBondTime` is the Unix second of `ReduceBondTime.Formatted()`. -/
structure MinipoolV3 where
  Address : Address
  ReduceBondTime : Int
  IsBondReduceCancelled : Bool
  deriving DecidableEq, Repr

/-- A minipool binding as `NewMinipoolFromVersion` returns it. -/
inductive IMinipool where
  | v2 (address : Address)
  | v3 (address : Address)
  deriving DecidableEq, Repr

/-- How a call ends when it does not return normally: with a Go `error`, or
with the runtime panic of a nil-pointer dereference. -/
inductive Fault where
  | error (msg : String)
  | nilPointer
  deriving DecidableEq, Repr

/-- `bind.CallOpts`: the block a read is evaluated at (`none` is Go `nil`, the
latest block). -/
structure CallOpts where
  BlockNumber : Option Nat
  deriving DecidableEq, Repr

/-- `eth.SimulationResult`. -/
structure SimulationResult where
  EstimatedGasLimit : Nat
  SafeGasLimit : Nat
  SimulationError : String
  deriving DecidableEq, Repr

/-- `eth.TransactionInfo`. -/
structure TransactionInfo where
  To : Address
  SimulationResult : SimulationResult
  deriving DecidableEq, Repr

/-- `eth.TransactionSubmission`. -/
structure TransactionSubmission where
  TxInfo : TransactionInfo
  GasLimit : Nat
  deriving DecidableEq, Repr

/-- The fields of `bind.TransactOpts` that the task sets. -/
structure TransactOpts where
  GasFeeCap : Option Nat
  GasTipCap : Option Nat
  GasLimit : Nat
  deriving DecidableEq, Repr

/-- The fields of `rpstate.NativeNodeDetails` that the task reads. -/
structure NativeNodeDetails where
  FeeDistributorAddress : Address
  deriving DecidableEq, Repr

/-- The fields of `state.NetworkState` that the task reads. A Go map lookup
that misses yields no minipools (`[]`) or a nil node record (`none`). -/
structure NetworkState where
  ElBlockNumber : Nat
  BondReductionWindowStart : Int
  BondReductionWindowLength : Int
  MinipoolDetailsByNode : Address → List NativeMinipoolDetails
  NodeDetailsByAddress : Address → Option NativeNodeDetails

/-- A completion callback built by `reduceBonds`, as the data its closure
holds: the minipool whose address it reads when it is invoked. -/
structure Callback where
  address : Address
  deriving DecidableEq, Repr

/-- The call `alerting.AlertMinipoolBondReduced(cfg, address, success)`. -/
structure Alert where
  address : Address
  success : Bool
  deriving DecidableEq, Repr

/-- Invoking a completion callback with the error `err` (`none` is `nil`). -/
def Callback.invoke (cb : Callback) (err : Option String) : Alert :=
  { address := cb.address, success := err.isNone }

/-- The two places that ask the network for the current max fee. -/
inductive FeeSite where
  | feeDistribution
  | bondReduction
  deriving DecidableEq, Repr

/-- A call that leaves the task. -/
inductive Event where
  | headerByNumber (block : Option Nat)
  | batchQuery (count : Nat) (block : Option Nat)
  | balanceAt (address : Address) (block : Option Nat)
  | queryNodeShare (address : Address) (block : Option Nat)
  | simulateDistribute (address : Address)
  | simulateReduceBond (address : Address)
  | getMaxFeeWeiForDaemon (site : FeeSite)
  | gasCheck (sim : SimulationResult) (threshold : F64) (maxFee : Nat)
      (gasLimit : Nat) (approved : Bool)
  | gasCheckBatch (submissions : List TransactionSubmission) (threshold : F64)
      (maxFee : Nat) (approved : Bool)
  | submitTx (txInfo : TransactionInfo) (opts : TransactOpts)
  | submitBatch (submissions : List TransactionSubmission)
      (callbacks : List Callback) (opts : TransactOpts)
  deriving DecidableEq, Repr

/-- The task's configuration and the answers of everything outside it. -/
structure Env where
  /-- `t.w.GetAddress()`. -/
  nodeAddress : Address
  /-- `t.cfg.AutoTxGasThreshold.Value`. -/
  AutoTxGasThreshold : F64
  /-- The first result of `getAutoTxInfo` (`none` is `nil`). -/
  maxFee : Option Nat
  /-- The second result of `getAutoTxInfo`. -/
  maxPriorityFee : Option Nat
  /-- Whether a `for ... range` loop has a fresh variable per iteration
  (Go 1.22 and later) or one variable for the whole loop. -/
  loopVarPerIteration : Bool
  /-- `t.rp.Client.HeaderByNumber`: the header's `Time`. -/
  HeaderByNumber : Option Nat → Except String Nat
  /-- `minipool.NewMinipoolManager` (`some e` is the error `e`). -/
  NewMinipoolManager : Option String
  /-- Whether the binding for a contract version can be made, and if so
  whether it is a `MinipoolV3` (`true`) or an older one (`false`). -/
  bindingIsV3 : Address → Nat → Except String Bool
  /-- `t.rp.BatchQuery` over `count` bindings at `opts`. -/
  BatchQuery : Nat → CallOpts → Option String
  /-- The chain value of `ReduceBondTime.Formatted()` as a Unix second. -/
  ReduceBondTime : Option Nat → Address → Int
  /-- The chain value of `IsBondReduceCancelled.Get()`. -/
  IsBondReduceCancelled : Option Nat → Address → Bool
  /-- `node.NewNodeDistributor`. -/
  NewNodeDistributor : Address → Address → Option String
  /-- `t.rp.Client.BalanceAt`. -/
  BalanceAt : Address → Option Nat → Except String Nat
  /-- `t.rp.Query(nil, nil, distributor.NodeShare)` and `NodeShare.Get()`. -/
  NodeShare : Address → Option Nat → Except String Nat
  /-- Which of the two parallel reads of `forceFeeDistribution` reports its
  error first when both fail. -/
  balanceFailsFirst : Bool
  /-- `t.w.GetTransactor()`. -/
  GetTransactor : Except String TransactOpts
  /-- `distributor.Distribute(opts)`. -/
  Distribute : Address → TransactOpts → Except String TransactionInfo
  /-- `mpv3.ReduceBondAmount(opts)`. -/
  ReduceBondAmount : Address → TransactOpts → Except String TransactionInfo
  /-- `gas.GetMaxFeeWeiForDaemon`, per call site. -/
  GetMaxFeeWeiForDaemon : FeeSite → Except String Nat
  /-- `gas.PrintAndCheckGasInfo`. -/
  PrintAndCheckGasInfo : SimulationResult → Bool → F64 → Nat → Nat → Bool
  /-- `gas.PrintAndCheckGasInfoForBatch`. -/
  PrintAndCheckGasInfoForBatch :
    List TransactionSubmission → Bool → F64 → Nat → Bool
  /-- `tx.PrintAndWaitForTransaction`. -/
  PrintAndWaitForTransaction : TransactionInfo → TransactOpts → Option String
  /-- `tx.PrintAndWaitForTransactionBatch`. -/
  PrintAndWaitForTransactionBatch :
    List TransactionSubmission → List Callback → TransactOpts → Option String

deriving instance DecidableEq for Except

/-- The result of a function of the task next to the calls it made. -/
abbrev Outcome (α : Type) := Except Fault α × List Event

/-- Put the calls `tr`, made earlier, in front of the calls of `x`. -/
def after {α : Type} (tr : List Event) (x : Outcome α) : Outcome α :=
  (x.1, tr ++ x.2)

/-- Rendering of `common.Address.Hex()` inside messages (digits only). -/
def Hex (a : Address) : String := "0x" ++ String.mk (Nat.toDigits 16 a)

/-! ## The task -/

/-- `MinipoolManager.NewMinipoolFromVersion(address, version)`: the binding is
made for the address that was asked for. -/
def NewMinipoolFromVersion (env : Env) (address : Address) (version : Nat) :
    Except String IMinipool :=
  match env.bindingIsV3 address version with
  | .error e => .error e
  | .ok true => .ok (.v3 address)
  | .ok false => .ok (.v2 address)

/-- `minipool.GetMinipoolAsV3(mp)`: the address of the v3 binding, or `none`
for Go's `(nil, false)`. -/
def GetMinipoolAsV3 : IMinipool → Option Address
  | .v3 address => some address
  | .v2 _ => none

/-- A v3 binding with the two fields that the batched query of
`getReduceableMinipools` (lines 261-267) reads at `opts`. -/
def queriedBinding (env : Env) (opts : CallOpts) (address : Address) :
    MinipoolV3 :=
  { Address := address
    ReduceBondTime := env.ReduceBondTime opts.BlockNumber address
    IsBondReduceCancelled := env.IsBondReduceCancelled opts.BlockNumber address }

/-- The first loop of `getReduceableMinipools` (lines 247-258): per minipool,
in order, its entry in `mpMap` (`none` when the loop skipped it), or the error
of a binding that cannot be made. The map is keyed by the pointers of the
slice, embedded as positions in the list. -/
def bindMinipools (env : Env) (opts : CallOpts) :
    List NativeMinipoolDetails → Except Fault (List (Option MinipoolV3))
  | [] => .ok []
  | mpd :: rest =>
    match NewMinipoolFromVersion env mpd.MinipoolAddress mpd.Version with
    | .error e =>
      .error (.error
        ("error creating minipool " ++ Hex mpd.MinipoolAddress ++ " binding: " ++ e))
    | .ok mp =>
      match bindMinipools env opts rest with
      | .error f => .error f
      | .ok bs => .ok ((GetMinipoolAsV3 mp).map (queriedBinding env opts) :: bs)

/-- The condition under which the filter loop appends a minipool (lines 280-284). -/
def isReduceable (windowStart windowLength latestBlockTime : Int)
    (mpd : NativeMinipoolDetails) (mpv3 : MinipoolV3) : Bool :=
  let depositBalance := WeiToEth mpd.NodeDepositBalance
  let timeSinceReductionStart := timeSub latestBlockTime mpv3.ReduceBondTime
  (F64.eq depositBalance (F64.ofNat 16) &&
    decide (timeSinceReductionStart < durAdd windowStart windowLength) &&
    !mpv3.IsBondReduceCancelled &&
    decide (mpd.Status = MinipoolStatus.Staking)) &&
  decide (windowStart < timeSinceReductionStart)

/-- The filter loop of `getReduceableMinipools` (lines 273-292) over the
minipools paired with their `mpMap` entries. Reading a field of a nil entry
panics. -/
def filterMinipools (windowStart windowLength latestBlockTime : Int) :
    List (NativeMinipoolDetails × Option MinipoolV3) →
      Except Fault (List NativeMinipoolDetails × List MinipoolV3)
  | [] => .ok ([], [])
  | (_, none) :: _ => .error .nilPointer
  | (mpd, some mpv3) :: rest =>
    match filterMinipools windowStart windowLength latestBlockTime rest with
    | .error f => .error f
    | .ok (ms, bs) =>
      if isReduceable windowStart windowLength latestBlockTime mpd mpv3 then
        .ok (mpd :: ms, mpv3 :: bs)
      else .ok (ms, bs)

/-- `ReduceBonds.getReduceableMinipools`. -/
def getReduceableMinipools (env : Env) (nodeAddress : Address)
    (windowStart windowLength latestBlockTime : Int) (state : NetworkState)
    (opts : CallOpts) :
    Outcome (List NativeMinipoolDetails × List MinipoolV3) :=
  let details := state.MinipoolDetailsByNode nodeAddress
  match bindMinipools env opts details with
  | .error f => (.error f, [])
  | .ok entries =>
    let mps := entries.filterMap id
    match env.BatchQuery mps.length opts with
    | some e =>
      (.error (.error
        ("error retrieving minipool bond reduction details: " ++ e)),
        [.batchQuery mps.length opts.BlockNumber])
    | none =>
      (filterMinipools windowStart windowLength latestBlockTime
        (details.zip entries), [.batchQuery mps.length opts.BlockNumber])

/-- `eth.CreateTxSubmissionFromInfo(txInfo, err)` of node-manager-core. -/
def CreateTxSubmissionFromInfo (txInfo : TransactionInfo) (err : Option String) :
    Except String TransactionSubmission :=
  match err with
  | some e => .error e
  | none => .ok { TxInfo := txInfo, GasLimit := txInfo.SimulationResult.SafeGasLimit }

/-- `ReduceBonds.createReduceBondTx`. -/
def createReduceBondTx (env : Env) (mpd : NativeMinipoolDetails) :
    Outcome TransactionSubmission :=
  match env.GetTransactor with
  | .error e => (.error (.error e), [])
  | .ok opts =>
    match NewMinipoolFromVersion env mpd.MinipoolAddress mpd.Version with
    | .error e =>
      (.error (.error
        ("error creating minipool " ++ Hex mpd.MinipoolAddress ++ " binding: " ++ e)), [])
    | .ok mpBinding =>
      match GetMinipoolAsV3 mpBinding with
      | none =>
        (.error (.error
          ("cannot reduce bond for minipool " ++ Hex mpd.MinipoolAddress ++
            " because its delegate version is too low (v" ++ toString mpd.Version ++
            "); please update the delegate")), [])
      | some mpv3 =>
        match env.ReduceBondAmount mpv3 opts with
        | .error e =>
          (.error (.error
            ("error getting reduce bond TX info for minipool " ++
              Hex mpd.MinipoolAddress ++ ": " ++ e)), [.simulateReduceBond mpv3])
        | .ok txInfo =>
          if txInfo.SimulationResult.SimulationError ≠ "" then
            (.error (.error
              ("simulating reduce bond TX for minipool " ++ Hex mpd.MinipoolAddress ++
                " failed: " ++ txInfo.SimulationResult.SimulationError)),
              [.simulateReduceBond mpv3])
          else
            match CreateTxSubmissionFromInfo txInfo none with
            | .error e =>
              (.error (.error
                ("error creating distribute tx submission for minipool " ++
                  Hex mpd.MinipoolAddress ++ ": " ++ e)), [.simulateReduceBond mpv3])
            | .ok submission => (.ok submission, [.simulateReduceBond mpv3])

/-- The loop of `Run` that fills `txSubmissions` (lines 128-135): it stops at
the first minipool whose submission cannot be prepared and hands that error on. -/
def createReduceBondTxs (env : Env) :
    List NativeMinipoolDetails → Outcome (List TransactionSubmission)
  | [] => (.ok [], [])
  | mpd :: rest =>
    match createReduceBondTx env mpd with
    | (.error f, tr) => (.error f, tr)
    | (.ok submission, tr) =>
      match createReduceBondTxs env rest with
      | (.error f, tr2) => (.error f, tr ++ tr2)
      | (.ok submissions, tr2) => (.ok (submission :: submissions), tr ++ tr2)

/-- The max fee of a transaction (lines 214-220 and 344-350): the configured
one, or the network's when none is configured or its `Uint64()` is zero. -/
def getMaxFee (env : Env) (site : FeeSite) : Outcome Nat :=
  match env.maxFee with
  | some fee =>
    if fee % 2 ^ 64 = 0 then
      match env.GetMaxFeeWeiForDaemon site with
      | .error e => (.error (.error e), [.getMaxFeeWeiForDaemon site])
      | .ok fee2 => (.ok fee2, [.getMaxFeeWeiForDaemon site])
    else (.ok fee, [])
  | none =>
    match env.GetMaxFeeWeiForDaemon site with
    | .error e => (.error (.error e), [.getMaxFeeWeiForDaemon site])
    | .ok fee2 => (.ok fee2, [.getMaxFeeWeiForDaemon site])

/-- The completion callbacks that `reduceBonds` builds (lines 365-370), one per
binding: each closure reads the loop variable `mp` when it is invoked, after
the loop. -/
def makeCallbacks (env : Env) (minipools : List MinipoolV3) : List Callback :=
  if env.loopVarPerIteration then
    minipools.map (fun mp => { address := mp.Address })
  else
    minipools.map (fun _ =>
      { address := (minipools.getLast?.map (fun mp => mp.Address)).getD 0 })

/-- `ReduceBonds.reduceBonds`. -/
def reduceBonds (env : Env) (submissions : List TransactionSubmission)
    (minipools : List MinipoolV3) (_windowDuration : Int) (_latestBlockTime : Int) :
    Outcome Unit :=
  match env.GetTransactor with
  | .error e => (.error (.error e), [])
  | .ok opts0 =>
    match getMaxFee env .bondReduction with
    | (.error f, tr) => (.error f, tr)
    | (.ok maxFee, tr) =>
      let opts : TransactOpts :=
        { opts0 with GasFeeCap := some maxFee, GasTipCap := env.maxPriorityFee }
      if !env.PrintAndCheckGasInfoForBatch submissions true env.AutoTxGasThreshold maxFee then
        (.ok (), tr ++ [.gasCheckBatch submissions env.AutoTxGasThreshold maxFee false])
      else
        let callbacks := makeCallbacks env minipools
        let tr2 := tr ++ [.gasCheckBatch submissions env.AutoTxGasThreshold maxFee true,
          .submitBatch submissions callbacks opts]
        match env.PrintAndWaitForTransactionBatch submissions callbacks opts with
        | some e => (.error (.error e), tr2)
        | none => (.ok (), tr2)

/-- The two parallel reads of `forceFeeDistribution` (lines 160-184): the
distributor's balance and the node's share, both at `nil` (the latest block).
`wg.Wait()` hands on the error that was reported first. -/
def readDistributor (env : Env) (distributorAddress : Address) : Outcome (Nat × Nat) :=
  let tr : List Event :=
    [.balanceAt distributorAddress none, .queryNodeShare distributorAddress none]
  let shareError := fun (e : String) =>
    "error getting node share for distributor " ++ Hex distributorAddress ++ ": " ++ e
  match env.BalanceAt distributorAddress none, env.NodeShare distributorAddress none with
  | .error e1, .error e2 =>
    (.error (.error (if env.balanceFailsFirst then e1 else shareError e2)), tr)
  | .error e1, .ok _ => (.error (.error e1), tr)
  | .ok _, .error e2 => (.error (.error (shareError e2)), tr)
  | .ok balanceRaw, .ok nodeShare => (.ok (balanceRaw, nodeShare), tr)

/-- `ReduceBonds.forceFeeDistribution`. -/
def forceFeeDistribution (env : Env) (state : NetworkState) : Outcome Bool :=
  match state.NodeDetailsByAddress env.nodeAddress with
  | none => (.error .nilPointer, [])
  | some nodeDetails =>
    let distributorAddress := nodeDetails.FeeDistributorAddress
    match env.NewNodeDistributor env.nodeAddress distributorAddress with
    | some e =>
      (.error (.error
        ("error creating fee distributor binding for node " ++ Hex env.nodeAddress ++
          ": " ++ e)), [])
    | none =>
      match readDistributor env distributorAddress with
      | (.error f, tr) => (.error f, tr)
      | (.ok (balanceRaw, _), tr) =>
        if F64.eq (WeiToEth balanceRaw) (F64.ofNat 0) then (.ok true, tr)
        else
          match env.GetTransactor with
          | .error e => (.error (.error e), tr)
          | .ok opts0 =>
            match env.Distribute distributorAddress opts0 with
            | .error e =>
              (.error (.error
                ("could not get TX info for distributing node fees: " ++ e)),
                tr ++ [.simulateDistribute distributorAddress])
            | .ok txInfo =>
              if txInfo.SimulationResult.SimulationError ≠ "" then
                (.error (.error
                  ("simulating distribute node fees failed: " ++
                    txInfo.SimulationResult.SimulationError)),
                  tr ++ [.simulateDistribute distributorAddress])
              else
                match getMaxFee env .feeDistribution with
                | (.error f, tr2) =>
                  (.error f, tr ++ [.simulateDistribute distributorAddress] ++ tr2)
                | (.ok maxFee, tr2) =>
                  let sim := txInfo.SimulationResult
                  let tr3 := tr ++ [.simulateDistribute distributorAddress] ++ tr2
                  if !env.PrintAndCheckGasInfo sim true env.AutoTxGasThreshold maxFee
                      sim.SafeGasLimit then
                    (.ok false, tr3 ++
                      [.gasCheck sim env.AutoTxGasThreshold maxFee sim.SafeGasLimit false])
                  else
                    let opts : TransactOpts :=
                      { GasFeeCap := some maxFee, GasTipCap := env.maxPriorityFee,
                        GasLimit := sim.SafeGasLimit }
                    let tr4 := tr3 ++
                      [.gasCheck sim env.AutoTxGasThreshold maxFee sim.SafeGasLimit true,
                        .submitTx txInfo opts]
                    match env.PrintAndWaitForTransaction txInfo opts with
                    | some e => (.error (.error e), tr4)
                    | none => (.ok true, tr4)

/-- The part of `ReduceBonds.Run` after the minipool manager was made (lines
106-144). -/
def runSelected (env : Env) (state : NetworkState) (opts : CallOpts)
    (latestBlockTime : Int) : Outcome Unit :=
  let windowStart := state.BondReductionWindowStart
  let windowLength := state.BondReductionWindowLength
  match getReduceableMinipools env env.nodeAddress windowStart windowLength
      latestBlockTime state opts with
  | (.error f, tr1) => (.error f, tr1)
  | (.ok (minipools, mpBindings), tr1) =>
    if minipools.length = 0 then (.ok (), tr1)
    else
      match forceFeeDistribution env state with
      | (.error f, tr2) => (.error f, tr1 ++ tr2)
      | (.ok false, tr2) => (.ok (), tr1 ++ tr2)
      | (.ok true, tr2) =>
        match createReduceBondTxs env minipools with
        | (.error f, tr3) => (.error f, tr1 ++ tr2 ++ tr3)
        | (.ok txSubmissions, tr3) =>
          match reduceBonds env txSubmissions mpBindings
              (durAdd windowStart windowLength) latestBlockTime with
          | (.error (.error e), tr4) =>
            (.error (.error ("error reducing minipool bonds: " ++ e)),
              tr1 ++ tr2 ++ tr3 ++ tr4)
          | (.error .nilPointer, tr4) => (.error .nilPointer, tr1 ++ tr2 ++ tr3 ++ tr4)
          | (.ok (), tr4) => (.ok (), tr1 ++ tr2 ++ tr3 ++ tr4)

/-- `ReduceBonds.Run`: `.ok ()` is the return value `nil`. -/
def Run (env : Env) (state : NetworkState) : Outcome Unit :=
  if F64.eq env.AutoTxGasThreshold (F64.ofNat 0) then (.ok (), [])
  else
    let opts : CallOpts := { BlockNumber := some state.ElBlockNumber }
    match env.HeaderByNumber opts.BlockNumber with
    | .error e =>
      (.error (.error ("can't get the latest block time: " ++ e)),
        [.headerByNumber opts.BlockNumber])
    | .ok time =>
      let latestBlockTime := wrap64 time
      match env.NewMinipoolManager with
      | some e =>
        (.error (.error ("error creating minipool manager: " ++ e)),
          [.headerByNumber opts.BlockNumber])
      | none =>
        after [.headerByNumber opts.BlockNumber]
          (runSelected env state opts latestBlockTime)

/-- The step of `Run` that makes a call. -/
inductive Stage where
  | header
  | select
  | feeDistribution
  | prepare
  | reduce
  deriving DecidableEq, Repr

/-- The step of `Run` a call belongs to: reading the header, selecting the
minipools (`getReduceableMinipools`), `forceFeeDistribution`, preparing the
submissions (`createReduceBondTx`), or `reduceBonds`. -/
def Event.stage : Event → Stage
  | .headerByNumber _ => .header
  | .batchQuery _ _ => .select
  | .balanceAt _ _ => .feeDistribution
  | .queryNodeShare _ _ => .feeDistribution
  | .simulateDistribute _ => .feeDistribution
  | .gasCheck _ _ _ _ _ => .feeDistribution
  | .submitTx _ _ => .feeDistribution
  | .getMaxFeeWeiForDaemon .feeDistribution => .feeDistribution
  | .getMaxFeeWeiForDaemon .bondReduction => .reduce
  | .simulateReduceBond _ => .prepare
  | .gasCheckBatch _ _ _ _ => .reduce
  | .submitBatch _ _ _ => .reduce

/-- Whether a call hands a transaction to the network. -/
def Event.isSubmission : Event → Bool
  | .submitTx _ _ => true
  | .submitBatch _ _ _ => true
  | _ => false

/-! ## Concrete scenarios -/

/-- One day as a `time.Duration`. -/
def day : Int := 86400 * Second

/-- The wei amount of 16 ETH. -/
def sixteenEth : Nat := 16 * 10 ^ 18

/-- A simulation that succeeded. -/
def okSimulation : SimulationResult :=
  { EstimatedGasLimit := 100000, SafeGasLimit := 150000, SimulationError := "" }

/-- A scenario: the latest block has time `now`; the chain holds `requestedAt`
and `cancelled` per minipool; contract version 3 gives a v3 binding, older
ones a v2 binding; the simulation of reducing the bond of minipool `a` ends
with the message `revert a` (empty when it succeeds); `gasOk` is the verdict
of both gas checks; the fee distributor holds `distributorBalance` wei. -/
def scenario (now : Nat) (requestedAt : Address → Int) (cancelled : Address → Bool)
    (revert : Address → String) (gasOk : Bool) (distributorBalance : Nat) : Env :=
  { nodeAddress := 1
    AutoTxGasThreshold := F64.ofNat 100
    maxFee := some 20000000000
    maxPriorityFee := some 2000000000
    loopVarPerIteration := true
    HeaderByNumber := fun _ => .ok now
    NewMinipoolManager := none
    bindingIsV3 := fun _ version =>
      if version = 3 then .ok true
      else if version = 1 ∨ version = 2 then .ok false
      else .error "unexpected minipool contract version"
    BatchQuery := fun _ _ => none
    ReduceBondTime := fun _ a => requestedAt a
    IsBondReduceCancelled := fun _ a => cancelled a
    NewNodeDistributor := fun _ _ => none
    BalanceAt := fun _ _ => .ok distributorBalance
    NodeShare := fun _ _ => .ok 0
    balanceFailsFirst := true
    GetTransactor := .ok { GasFeeCap := none, GasTipCap := none, GasLimit := 0 }
    Distribute := fun a _ => .ok { To := a, SimulationResult := okSimulation }
    ReduceBondAmount := fun a _ =>
      .ok { To := a, SimulationResult := { okSimulation with SimulationError := revert a } }
    GetMaxFeeWeiForDaemon := fun _ => .ok 30000000000
    PrintAndCheckGasInfo := fun _ _ _ _ _ => gasOk
    PrintAndCheckGasInfoForBatch := fun _ _ _ _ => gasOk
    PrintAndWaitForTransaction := fun _ _ => none
    PrintAndWaitForTransactionBatch := fun _ _ _ => none }

/-- A snapshot at block 500 with a window that opens after `windowStart` and
lasts `windowLength`, in which node 1 owns `minipools`. -/
def snapshot (windowStart windowLength : Int) (minipools : List NativeMinipoolDetails) :
    NetworkState :=
  { ElBlockNumber := 500
    BondReductionWindowStart := windowStart
    BondReductionWindowLength := windowLength
    MinipoolDetailsByNode := fun a => if a = 1 then minipools else []
    NodeDetailsByAddress := fun a =>
      if a = 1 then some { FeeDistributorAddress := 77 } else none }

/-- A staking v3 minipool at `address` with a deposit of `deposit` wei. -/
def stakingMinipool (address : Address) (deposit : Nat) : NativeMinipoolDetails :=
  { MinipoolAddress := address, Version := 3, NodeDepositBalance := deposit,
    Status := MinipoolStatus.Staking }

/-- The instant `T` at which the bond reduction of the scenarios was requested. -/
def requestTime : Nat := 1700000000

/-- The scenario of the window example: every bond reduction was requested at
`requestTime`, none is cancelled, and the latest block is `elapsed` seconds
later. -/
def windowEnv (elapsed : Nat) : Env :=
  scenario (requestTime + elapsed) (fun _ => requestTime) (fun _ => false)
    (fun _ => "") true 0

/-- The snapshot of the window example: `windowStart = 7d`, `windowLength = 2d`,
one staking minipool at address 10 with a deposit of `deposit` wei. -/
def windowState (deposit : Nat) : NetworkState :=
  snapshot (7 * day) (2 * day) [stakingMinipool 10 deposit]

/-- The call options pinned to the block of the snapshots. -/
def pinned : CallOpts := { BlockNumber := some 500 }

/-- Two minipools whose reductions were requested at `requestTime`, one day
into the open window; the reduction of the minipool at address 10 is
cancelled. -/
def cancelledEnv : Env :=
  scenario (requestTime + 8 * 86400) (fun _ => requestTime)
    (fun a => decide (a = 10)) (fun _ => "") true 0

/-- The latest block is exactly `7d` after the request of the minipool at
address 10; the minipool at address 11 was requested one day earlier. -/
def boundaryEnv : Env :=
  scenario (requestTime + 7 * 86400)
    (fun a => if a = 11 then (requestTime : Int) - 86400 else requestTime)
    (fun _ => false) (fun _ => "") true 0

/-- The latest block is at `requestTime`; the minipool at address 11 was
requested eight days earlier, the one at address 10 never (zero timestamp). -/
def unrequestedEnv : Env :=
  scenario requestTime
    (fun a => if a = 11 then (requestTime : Int) - 8 * 86400 else 0)
    (fun _ => false) (fun _ => "") true 0

/-- A scenario in which no bond reduction was ever requested (the chain holds
the zero timestamp) and the latest block is eight days after the Unix epoch. -/
def notRequestedEnv : Env :=
  scenario (8 * 86400) (fun _ => 0) (fun _ => false) (fun _ => "") true 0

/-- The window example with the automatic-transaction gas threshold set to `0`. -/
def disabledEnv : Env :=
  { windowEnv (8 * 86400) with AutoTxGasThreshold := F64.ofNat 0 }

/-- A snapshot with two staking 16 ETH minipools, at addresses 10 and 11. -/
def twoMinipools : NetworkState :=
  snapshot (7 * day) (2 * day) [stakingMinipool 10 sixteenEth, stakingMinipool 11 sixteenEth]

/-- One day into the open window of both minipools; the simulation for the
minipool at address 11 reverts, the other one succeeds; the gas checks approve
and the fee distributor is empty. -/
def revertEnv : Env :=
  scenario (requestTime + 8 * 86400) (fun _ => requestTime) (fun _ => false)
    (fun a => if a = 11 then "execution reverted" else "") true 0

/-- One day into the open window; the gas checks reject; the fee distributor
holds `distributorBalance` wei. -/
def deferEnv (distributorBalance : Nat) : Env :=
  scenario (requestTime + 8 * 86400) (fun _ => requestTime) (fun _ => false)
    (fun _ => "") false distributorBalance

/-! ## What a run fixes about its calls -/

/-- The fee settings of a call: a gas check uses the configured threshold and
the max fee that its own function determined (`getMaxFee` at its site); a
submission carries the configured priority fee as tip cap and that max fee as
fee cap. -/
def usesFeeSettings (env : Env) : Event → Prop
  | .gasCheck _ threshold maxFee _ _ =>
    threshold = env.AutoTxGasThreshold ∧
      (getMaxFee env FeeSite.feeDistribution).1 = .ok maxFee
  | .submitTx _ opts =>
    opts.GasTipCap = env.maxPriorityFee ∧
      ∃ maxFee, (getMaxFee env FeeSite.feeDistribution).1 = .ok maxFee ∧
        opts.GasFeeCap = some maxFee
  | .gasCheckBatch _ threshold maxFee _ =>
    threshold = env.AutoTxGasThreshold ∧
      (getMaxFee env FeeSite.bondReduction).1 = .ok maxFee
  | .submitBatch _ _ opts =>
    opts.GasTipCap = env.maxPriorityFee ∧
      ∃ maxFee, (getMaxFee env FeeSite.bondReduction).1 = .ok maxFee ∧
        opts.GasFeeCap = some maxFee
  | _ => True

/-- The block of a read: the header and the batched minipool query are read at
the block of the snapshot, the balance and the node share of the fee
distributor at `nil`, the latest block. -/
def readsAtHeight (state : NetworkState) : Event → Prop
  | .headerByNumber block => block = some state.ElBlockNumber
  | .batchQuery _ block => block = some state.ElBlockNumber
  | .balanceAt _ block => block = none
  | .queryNodeShare _ block => block = none
  | _ => True

/-- One day into the open window of both minipools; no max fee is configured,
and the network's max fee is 30 gwei when the fee distribution asks for it and
40 gwei when the bond reduction does; the fee distributor holds 5 wei. -/
def feeDriftEnv : Env :=
  { scenario (requestTime + 8 * 86400) (fun _ => requestTime) (fun _ => false)
      (fun _ => "") true 5 with
    maxFee := none
    GetMaxFeeWeiForDaemon := fun site =>
      match site with
      | .feeDistribution => .ok 30000000000
      | .bondReduction => .ok 40000000000 }

/-- One day into the open window of both minipools, with one loop variable for
the whole loop (Go before 1.22). -/
def sharedLoopEnv : Env :=
  { scenario (requestTime + 8 * 86400) (fun _ => requestTime) (fun _ => false)
      (fun _ => "") true 0 with
    loopVarPerIteration := false }

/-- One day into the open window of both minipools; the gas checks approve and
the fee distributor is empty. -/
def approveEnv : Env :=
  scenario (requestTime + 8 * 86400) (fun _ => requestTime) (fun _ => false)
    (fun _ => "") true 0

/-! ## The Protocol DAO proposal list (`rocketpool-cli/commands/pdao/proposals.go`) -/

/-- The state names that the usage text of `proposalsListStatesFlag` documents. -/
def documentedStates : List String :=
  ["pending", "active", "succeeded", "executed", "cancelled", "defeated", "expired"]

/-- The parts of a string between the occurrences of the character `sep`, as
lists of characters. -/
def splitChars (sep : Char) : List Char → List (List Char)
  | [] => [[]]
  | c :: cs =>
    if c = sep then [] :: splitChars sep cs
    else
      match splitChars sep cs with
      | [] => [[c]]
      | p :: ps => (c :: p) :: ps

/-- Go `strings.Split(s, sep)` for a separator of one ASCII character: the
substrings of `s` between the separators, in order (one more than there are
separators). Go compares bytes; in UTF-8 the byte of an ASCII character occurs
only as that character, so splitting by characters gives the same parts. -/
def Split (s : String) (sep : Char) : List String :=
  (splitChars sep s.data).map String.mk

/-- The loop of `filterProposalState` over the parts of the filter (lines 31-35). -/
def filterStatesLoop (state : String) : List String → Bool
  | [] => true
  | fs :: rest => if fs = state then false else filterStatesLoop state rest

/-- The function `filterProposalState`: `true` means "filter this state out". -/
def filterProposalState (state : String) (stateFilter : String) : Bool :=
  if stateFilter = "" then false
  else filterStatesLoop state (Split stateFilter ',')

/-- The print order `proposalStates` of `getProposals`. -/
def proposalStates : List String :=
  ["Pending", "Active (Phase 1)", "Active (Phase 2)", "Succeeded", "Executed",
    "Destroyed", "Vetoed", "Quorum not Met", "Defeated", "Expired"]

/-- The filter names `proposalStateInputs` of `getProposals`, aligned with
`proposalStates`. -/
def proposalStateInputs : List String :=
  ["pending", "phase1", "phase2", "succeeded", "executed", "destroyed", "vetoed",
    "quorum-not-met", "defeated", "expired"]

/-- The fields of `api.ProtocolDaoProposalDetails` that `getProposals` prints,
with the name `types.ProtocolDaoProposalStates[proposal.State]` of its state. -/
structure ProtocolDaoProposalDetails where
  ID : Nat
  Message : String
  ProposerAddress : Address
  StateName : String
  deriving DecidableEq, Repr

/-- The print loop of `getProposals` (lines 66-92) over the state names and
their filter names: the sections it prints, each a state name with the
proposals in that state, in print order. A state without proposals and a state
that the filter rejects are skipped. -/
def printedSections (allProposals : List ProtocolDaoProposalDetails) (stateFilter : String) :
    List (String × String) → List (String × List ProtocolDaoProposalDetails)
  | [] => []
  | (stateName, input) :: rest =>
    let proposals := allProposals.filter (fun p => p.StateName = stateName)
    if proposals = [] then printedSections allProposals stateFilter rest
    else if filterProposalState input stateFilter then
      printedSections allProposals stateFilter rest
    else (stateName, proposals) :: printedSections allProposals stateFilter rest

/-- The function `getProposals` once the proposals were fetched: the sections
it prints and the `count` of proposals listed (when it is `0` the message
"There are no matching Protocol DAO proposals." follows). -/
def getProposals (allProposals : List ProtocolDaoProposalDetails) (stateFilter : String) :
    List (String × List ProtocolDaoProposalDetails) × Nat :=
  let sections := printedSections allProposals stateFilter
    (proposalStates.zip proposalStateInputs)
  (sections, (sections.map (fun s => s.2.length)).sum)

/-! ## The Beacon collector (`rocketpool-daemon/node/collectors/beacon-collector.go`) -/

/-- The `float64` nearest to a natural number, as the natural number it holds:
every natural number up to `2^53` is a `float64`; a larger one is rounded to 53
bits, to nearest with ties to even. -/
def f64OfNat (n : Nat) : Nat :=
  if n ≤ 2 ^ 53 then n
  else (roundNearestEven n 1 53).1 * 2 ^ (roundNearestEven n 1 53).2.toNat

/-- The `float64` sum of two `float64` values that hold natural numbers. -/
def f64Add (a b : Nat) : Nat := f64OfNat (a + b)

/-- A validator public key. -/
abbrev ValidatorPubkey := Nat

/-- The fields of `beacon.ValidatorStatus` that the collector reads. -/
structure ValidatorStatus where
  Exists : Bool
  Index : String
  deriving DecidableEq, Repr

/-- The fields of `state.NetworkState` that the collector reads:
`MinipoolPubkeys a` lists the `Pubkey` of each entry of
`MinipoolDetailsByNode[a]`, and a lookup in `ValidatorDetails` that misses
yields the zero value, which has `Exists = false`. -/
structure CollectorState where
  BeaconSlotNumber : Nat
  SlotsPerEpoch : Nat
  EpochsPerSyncCommitteePeriod : Nat
  MinipoolPubkeys : Address → List ValidatorPubkey
  ValidatorDetails : ValidatorPubkey → ValidatorStatus

/-- The fields of `beacon.BeaconHead` that the collector reads. -/
structure BeaconHead where
  FinalizedEpoch : Nat
  deriving DecidableEq, Repr

/-- The fields of `beacon.BeaconBlockHeader` that the collector reads. -/
structure BeaconBlockHeader where
  ProposerIndex : String
  deriving DecidableEq, Repr

/-- The answers of the Beacon client `beacon.IBeaconClient`. A block header is
asked for by the decimal form of its slot, embedded as the slot itself; `none`
is the result `hasBlock = false`; the duties are the values of the maps that the
client returns. -/
structure BeaconClient where
  GetBeaconHead : Except String BeaconHead
  GetBeaconBlockHeader : Nat → Except String (Option BeaconBlockHeader)
  GetValidatorSyncDuties : List String → Nat → Except String (List Bool)
  GetValidatorProposerDuties : List String → Nat → Except String (List Nat)

/-- The body of the loop of `getProposedBlockCount` for one slot (lines
219-230): the count after the slot was examined. -/
def countSlot (validatorIndices : List String) (bc : BeaconClient) (slot : Nat)
    (proposedBlockCount : Nat) : Nat :=
  match bc.GetBeaconBlockHeader slot with
  | .error _ => proposedBlockCount
  | .ok none => proposedBlockCount
  | .ok (some block) =>
    if block.ProposerIndex ∈ validatorIndices then f64Add proposedBlockCount 1
    else proposedBlockCount

/-- The loop of `getProposedBlockCount` (line 218),
`for slot := latestSlot; slot > bound; slot--`, from the slot it has reached
and the count so far: the final count, and the slots it examined, in order. At
slot `0` the test `slot > bound` fails for every `bound`, so `slot--` never
wraps. -/
def proposedBlockLoop (validatorIndices : List String) (bc : BeaconClient) (bound : Nat) :
    Nat → Nat → Nat × List Nat
  | 0, proposedBlockCount => (proposedBlockCount, [])
  | slot + 1, proposedBlockCount =>
    if bound < slot + 1 then
      let r := proposedBlockLoop validatorIndices bc bound slot
        (countSlot validatorIndices bc (slot + 1) proposedBlockCount)
      (r.1, (slot + 1) :: r.2)
    else (proposedBlockCount, [])

/-- The function `BeaconCollector.getProposedBlockCount`: its two results (the
count as the natural number that the `float64` holds, and the error, which is
always `nil`), and the slots whose header it asked for, in order. The slot
arithmetic is that of `uint64`. -/
def getProposedBlockCount (validatorIndices : List String) (bc : BeaconClient)
    (slotsPerEpoch : Nat) : Except String Nat × List Nat :=
  match bc.GetBeaconHead with
  | .error _ => (.ok 0, [])
  | .ok head =>
    let latestSlot :=
      (head.FinalizedEpoch * slotsPerEpoch % 2 ^ 64 +
        (slotsPerEpoch + 2 ^ 64 - 1) % 2 ^ 64) % 2 ^ 64
    let bound := (latestSlot + 2 ^ 64 - slotsPerEpoch) % 2 ^ 64
    let r := proposedBlockLoop validatorIndices bc bound latestSlot 0
    (.ok r.1, r.2)

/-- What the claim on `getProposedBlockCount` counts: whether a slot has a block
header, fetched without error, whose proposer index is one of the validators. -/
def proposedByNode (validatorIndices : List String) (bc : BeaconClient) (slot : Nat) : Bool :=
  match bc.GetBeaconBlockHeader slot with
  | .ok (some block) => decide (block.ProposerIndex ∈ validatorIndices)
  | _ => false

/-- The four metric descriptions of the collector. -/
inductive MetricDesc where
  | activeSyncCommittee
  | upcomingSyncCommittee
  | upcomingProposals
  | recentProposals
  deriving DecidableEq, Repr

/-- A gauge metric sent to the Prometheus channel; the value is the natural
number that the `float64` holds. -/
structure Metric where
  desc : MetricDesc
  value : Nat
  deriving DecidableEq, Repr

/-- The indices of the validators of the node that exist (lines 92-99). -/
def existingValidatorIndices (state : CollectorState) (nodeAddress : Address)
    (hasNodeAddress : Bool) : List String :=
  if hasNodeAddress then
    (state.MinipoolPubkeys nodeAddress).filterMap (fun pubkey =>
      if (state.ValidatorDetails pubkey).Exists then
        some (state.ValidatorDetails pubkey).Index
      else none)
  else []

/-- The number of `true` duties, counted in a `float64` (lines 110-114). -/
def countDuties (duties : List Bool) : Nat :=
  duties.foldl (fun acc duty => if duty then f64Add acc 1 else acc) 0

/-- The sum of the proposer duties, added up in a `float64` (lines 144-146). -/
def sumDuties (duties : List Nat) : Nat :=
  duties.foldl (fun acc duty => f64Add acc (f64OfNat duty)) 0

/-- The function `BeaconCollector.Collect`: the metrics it sends, in order;
`none` stands for the run-time panic of the division by a `SlotsPerEpoch` of
zero. The four queries of the group run to their end whatever the others do,
and `wg.Wait()` reports whether one of them returned an error. -/
def Collect (state : Option CollectorState) (bc : BeaconClient) (nodeAddress : Address)
    (hasNodeAddress : Bool) : Option (List Metric) :=
  match state with
  | none => some []
  | some state =>
    if state.SlotsPerEpoch = 0 then none
    else
      let epoch := state.BeaconSlotNumber / state.SlotsPerEpoch
      let validatorIndices := existingValidatorIndices state nodeAddress hasNodeAddress
      if 0 < validatorIndices.length then
        match bc.GetValidatorSyncDuties validatorIndices epoch,
          bc.GetValidatorSyncDuties validatorIndices
            ((epoch + state.EpochsPerSyncCommitteePeriod) % 2 ^ 64),
          bc.GetValidatorProposerDuties validatorIndices epoch,
          (getProposedBlockCount validatorIndices bc state.SlotsPerEpoch).1 with
        | .ok active, .ok upcoming, .ok proposals, .ok count =>
          some [⟨.activeSyncCommittee, countDuties active⟩,
            ⟨.upcomingSyncCommittee, countDuties upcoming⟩,
            ⟨.upcomingProposals, sumDuties proposals⟩,
            ⟨.recentProposals, count⟩]
        | _, _, _, _ => some []
      else
        some [⟨.activeSyncCommittee, 0⟩, ⟨.upcomingSyncCommittee, 0⟩,
          ⟨.upcomingProposals, 0⟩, ⟨.recentProposals, 0⟩]

/-! ## The auction status (`rocketpool/api/auction/status.go`) -/

/-- How a call of the API ends when it does not return its value: with a Go
`error`, or with a run-time panic. -/
inductive Failure where
  | error (msg : String)
  | runtimePanic (reason : String)
  deriving DecidableEq, Repr

/-- The type `lotCountDetails`. -/
structure lotCountDetails where
  AddressHasBid : Bool
  Cleared : Bool
  HasRemainingRpl : Bool
  RplRecovered : Bool
  deriving DecidableEq, Repr

/-- The fields of `auction.AuctionLot.Details` that the status reads. -/
structure AuctionLotDetails where
  IsCleared : Bool
  RemainingRplAmount : Int
  RplRecovered : Bool
  deriving DecidableEq, Repr

/-- A lot binding `auction.AuctionLot` with the details that the batched query
read for its index. -/
structure AuctionLot where
  Index : Nat
  Details : AuctionLotDetails
  deriving DecidableEq, Repr

/-- The answers of the chain to the reads of `getAllLotCountDetails`:
`NewAuctionLot i` is the error of making the binding of lot `i` (`none` is
`nil`), `execute` the error of carrying out the batched calls, and the other
fields hold what the contract returns for the lot of an index. -/
structure AuctionChain where
  nodeAddress : Address
  NewAuctionLot : Nat → Option String
  execute : Option String
  LotAddressBidAmount : Nat → Address → Int
  LotIsCleared : Nat → Bool
  LotRemainingRplAmount : Nat → Int
  LotRplRecovered : Nat → Bool

/-- The loop of `BatchQuery` over the indices `i`, `i + 1`, ... (`n` of them):
each call of `query` registers the reads of its index. -/
def queryLoop {σ : Type} (query : Nat → σ → Except String σ) :
    Nat → Nat → σ → Except String σ
  | 0, _, st => .ok st
  | n + 1, i, st =>
    match query i st with
    | .error e => .error e
    | .ok st1 => queryLoop query n (i + 1) st1

/-- The call `rp.BatchQuery(count, batchSize, query, opts)` of rocketpool-go: it
runs `query` for every index below `count` and carries the registered reads
out; it returns the first error of a `query`, or the error of carrying the
reads out. The size of a batch only groups the reads. For a `count` of `0`
there is no batch: nothing is carried out and the call returns `nil`. -/
def BatchQuery {σ : Type} (count : Nat) (query : Nat → σ → Except String σ)
    (execute : Option String) (init : σ) : Except String σ :=
  match queryLoop query count 0 init with
  | .error e => .error e
  | .ok st =>
    if count = 0 then .ok st
    else
      match execute with
      | some e => .error e
      | none => .ok st

/-- The callback that `getAllLotCountDetails` hands to `BatchQuery` (lines
121-133), on the two slices `lots` and `addressBids`: it stores the binding of
lot `i` at index `i` and registers the four reads of that lot, whose results
land in the binding and in `addressBids[i]`. -/
def loadLot (chain : AuctionChain) (i : Nat)
    (st : List (Option AuctionLot) × List (Option Int)) :
    Except String (List (Option AuctionLot) × List (Option Int)) :=
  match chain.NewAuctionLot i with
  | some e => .error ("error creating lot " ++ toString i ++ " binding: " ++ e)
  | none =>
    .ok (st.1.set i (some
          { Index := i
            Details :=
              { IsCleared := chain.LotIsCleared i
                RemainingRplAmount := chain.LotRemainingRplAmount i
                RplRecovered := chain.LotRplRecovered i } }),
      st.2.set i (some (chain.LotAddressBidAmount i chain.nodeAddress)))

/-- The last loop of `getAllLotCountDetails` (lines 139-144) from index `i` on,
for `n` more indices: it writes `details[i]` from `addressBids[i]` and
`lots[i]`; reading through a nil entry panics. -/
def fillDetails (lots : List (Option AuctionLot)) (addressBids : List (Option Int)) :
    Nat → Nat → List lotCountDetails → Except Failure (List lotCountDetails)
  | 0, _, details => .ok details
  | n + 1, i, details =>
    match addressBids.getD i none, lots.getD i none with
    | some bid, some lot =>
      fillDetails lots addressBids n (i + 1)
        (details.set i
          { AddressHasBid := decide (0 < bid)
            Cleared := lot.Details.IsCleared
            HasRemainingRpl := decide (0 < lot.Details.RemainingRplAmount)
            RplRecovered := lot.Details.RplRecovered })
    | _, _ => .error (.runtimePanic "invalid memory address or nil pointer dereference")

/-- The function `auctionStatusContext.getAllLotCountDetails`. A `lotCount` of
`2^63` or more cannot be the length of a slice: `make` panics. -/
def getAllLotCountDetails (chain : AuctionChain) (lotCount : Nat) :
    Except Failure (List lotCountDetails) :=
  if 2 ^ 63 ≤ lotCount then .error (.runtimePanic "makeslice: len out of range")
  else
    let details : List lotCountDetails := List.replicate lotCount ⟨false, false, false, false⟩
    let lots : List (Option AuctionLot) := List.replicate lotCount none
    let addressBids : List (Option Int) := List.replicate lotCount none
    match BatchQuery lotCount (loadLot chain) chain.execute (lots, addressBids) with
    | .error e => .error (.error ("error getting lot count details: " ++ e))
    | .ok (lots, addressBids) => fillDetails lots addressBids lotCount 0 details

/-- The lot counters `LotCounts` of `api.AuctionStatusData` (Go `int`). -/
structure LotCounts where
  ClaimAvailable : Int
  BiddingAvailable : Int
  RplRecoveryAvailable : Int
  deriving DecidableEq, Repr

/-- The type `api.AuctionStatusData`; `none` is a nil `*big.Int`. -/
structure AuctionStatusData where
  TotalRplBalance : Option Int
  AllottedRplBalance : Option Int
  RemainingRplBalance : Option Int
  CanCreateLot : Bool
  LotCounts : LotCounts
  deriving DecidableEq, Repr

/-- The details that `GetState` read into the bindings of the context:
`pSettings.Details.Auction.LotMinimumEthValue`,
`networkPrices.Details.RplPrice.RawValue`, and the balances and the lot count
of `auctionMgr.Details`. -/
structure AuctionDetails where
  LotMinimumEthValue : Int
  RplPrice : Int
  TotalRplBalance : Int
  AllottedRplBalance : Int
  RemainingRplBalance : Int
  LotCount : Nat
  deriving DecidableEq, Repr

/-- What the claim on `getAllLotCountDetails` says entry `i` is: computed from
the reads for lot `i` alone. -/
def lotDetailsOf (chain : AuctionChain) (i : Nat) : lotCountDetails :=
  { AddressHasBid := decide (0 < chain.LotAddressBidAmount i chain.nodeAddress)
    Cleared := chain.LotIsCleared i
    HasRemainingRpl := decide (0 < chain.LotRemainingRplAmount i)
    RplRecovered := chain.LotRplRecovered i }

/-- The value of `eth.EthToWei(1)`. -/
def oneEthInWei : Int := 10 ^ 18

/-- The counting loop of `PrepareData` (lines 95-105); `++` is that of a 64-bit
`int`. -/
def countLots : List lotCountDetails → LotCounts → LotCounts
  | [], counts => counts
  | details :: rest, counts =>
    let c1 : LotCounts :=
      if details.AddressHasBid && details.Cleared then
        { counts with ClaimAvailable := wrap64 (counts.ClaimAvailable + 1) }
      else counts
    let c2 : LotCounts :=
      if !details.Cleared && details.HasRemainingRpl then
        { c1 with BiddingAvailable := wrap64 (c1.BiddingAvailable + 1) }
      else c1
    let c3 : LotCounts :=
      if details.Cleared && details.HasRemainingRpl && !details.RplRecovered then
        { c2 with RplRecoveryAvailable := wrap64 (c2.RplRecoveryAvailable + 1) }
      else c2
    countLots rest c3

/-- The function `auctionStatusContext.PrepareData`: the error it returns, or
the data as it leaves them. `big.Int.Quo` truncates towards zero and panics on a
zero divisor. -/
def PrepareData (chain : AuctionChain) (c : AuctionDetails) (data : AuctionStatusData) :
    Except Failure AuctionStatusData :=
  if c.RplPrice = 0 then .error (.runtimePanic "division by zero")
  else
    let lotMinimumRplAmount := (c.LotMinimumEthValue * oneEthInWei).tdiv c.RplPrice
    let sufficientRemainingRplForLot := decide (lotMinimumRplAmount ≤ c.RemainingRplBalance)
    match getAllLotCountDetails chain c.LotCount with
    | .error (.error e) =>
      .error (.error ("error getting auction lot count details: " ++ e))
    | .error (.runtimePanic r) => .error (.runtimePanic r)
    | .ok lotCountDetails =>
      .ok { TotalRplBalance := some c.TotalRplBalance
            AllottedRplBalance := some c.AllottedRplBalance
            RemainingRplBalance := some c.RemainingRplBalance
            CanCreateLot := sufficientRemainingRplForLot
            LotCounts := countLots lotCountDetails data.LotCounts }

/-! ## The configuration helpers (`shared/config/utils.go`) -/

/-- The fields of `SmartNodeConfig` that the helpers of `utils.go` read. -/
structure SmartNodeConfig where
  UserDataPath : String
  Network : String
  deriving DecidableEq, Repr

/-- Go `copy(dst, src)`: the first `min(len(dst), len(src))` elements of `dst`
are replaced by those of `src`. -/
def copy {α : Type} (dst src : List α) : List α :=
  src.take dst.length ++ dst.drop src.length

/-- The function `SmartNodeConfig.GetVotingSnapshotID`, given the bytes
`[]byte(SnapshotID)` of the constant `SnapshotID`, which is declared in another
file of the package: the 32 bytes of the result. -/
def GetVotingSnapshotID (SnapshotID : List UInt8) (_cfg : SmartNodeConfig) : List UInt8 :=
  let buffer : List UInt8 := List.replicate 32 0
  let idBytes := SnapshotID
  copy buffer idBytes

/-! ## Concrete scenarios of the other commands -/

/-- A Beacon client right after genesis: the finalized epoch is `0`, and every
slot has a block proposed by the validator with index `7`. -/
def genesisBeacon : BeaconClient :=
  { GetBeaconHead := .ok { FinalizedEpoch := 0 }
    GetBeaconBlockHeader := fun _ => .ok (some { ProposerIndex := "7" })
    GetValidatorSyncDuties := fun _ _ => .ok [true]
    GetValidatorProposerDuties := fun _ _ => .ok [1] }

/-- The same chain once epoch `1` is finalized. -/
def laterBeacon : BeaconClient :=
  { genesisBeacon with GetBeaconHead := .ok { FinalizedEpoch := 1 } }

/-- A Beacon client whose proposer duties cannot be fetched. -/
def failingBeacon : BeaconClient :=
  { laterBeacon with GetValidatorProposerDuties := fun _ _ => .error "timeout" }

/-- A state at slot 100 with 32 slots per epoch in which node 1 owns one
minipool, whose validator exists and has index `7`. -/
def collectorState : CollectorState :=
  { BeaconSlotNumber := 100
    SlotsPerEpoch := 32
    EpochsPerSyncCommitteePeriod := 256
    MinipoolPubkeys := fun a => if a = 1 then [1001] else []
    ValidatorDetails := fun k =>
      if k = 1001 then { Exists := true, Index := "7" } else { Exists := false, Index := "" } }

/-- An auction with lots in which the node has bid 5 on lot 1, lot 0 is
cleared, and lot `i` has `i` RPL left. -/
def exampleAuction : AuctionChain :=
  { nodeAddress := 1
    NewAuctionLot := fun _ => none
    execute := none
    LotAddressBidAmount := fun i _ => if i = 1 then 5 else 0
    LotIsCleared := fun i => decide (i = 0)
    LotRemainingRplAmount := fun i => i
    LotRplRecovered := fun _ => false }

/-- Auction details with three lots: a lot must be worth 1 ETH, one RPL costs
0.01 ETH, and 200 RPL remain. -/
def exampleAuctionDetails : AuctionDetails :=
  { LotMinimumEthValue := 10 ^ 18
    RplPrice := 10 ^ 16
    TotalRplBalance := 5 * 10 ^ 20
    AllottedRplBalance := 3 * 10 ^ 20
    RemainingRplBalance := 2 * 10 ^ 20
    LotCount := 3 }

/-- The zero value of `api.AuctionStatusData`. -/
def emptyAuctionData : AuctionStatusData :=
  { TotalRplBalance := none
    AllottedRplBalance := none
    RemainingRplBalance := none
    CanCreateLot := false
    LotCounts := { ClaimAvailable := 0, BiddingAvailable := 0, RplRecoveryAvailable := 0 } }

/-- The values of Go's 64-bit `int`. -/
def fitsInt64 (x : Int) : Prop := -(2 ^ 63) ≤ x ∧ x ≤ 2 ^ 63 - 1

instance (x : Int) : Decidable (fitsInt64 x) := by
  unfold fitsInt64
  infer_instance

/-- A snapshot in which node 1 owns the minipool at address 10, whose contract
is of version 2 so that its binding is not a `MinipoolV3`, and the staking
16 ETH minipool at address 11 on version 3. -/
def mixedVersions : NetworkState :=
  snapshot (7 * day) (2 * day)
    [{ stakingMinipool 10 sixteenEth with Version := 2 }, stakingMinipool 11 sixteenEth]

/-! ## Lemmas on the numeric helpers -/

theorem bitLenFuel_zero (fuel : Nat) : bitLenFuel fuel 0 = 0 := by
  cases fuel <;> simp [bitLenFuel]

theorem bitLenFuel_bounds : ∀ (fuel n : Nat), n ≤ fuel →
    n < 2 ^ bitLenFuel fuel n ∧ (n ≠ 0 → 2 ^ (bitLenFuel fuel n - 1) ≤ n) := by
  intro fuel
  induction fuel with
  | zero =>
    intro n hn
    have : n = 0 := by omega
    subst this
    simp [bitLenFuel]
  | succ fuel ih =>
    intro n hn
    by_cases h0 : n = 0
    · subst h0
      simp [bitLenFuel]
    · have hhalf : n / 2 ≤ fuel := by omega
      obtain ⟨h1, h2⟩ := ih (n / 2) hhalf
      simp only [bitLenFuel, h0, if_false, Nat.add_sub_cancel]
      refine ⟨?_, fun _ => ?_⟩
      · rw [pow_succ]
        omega
      · by_cases hz : n / 2 = 0
        · rw [hz, bitLenFuel_zero]
          simp
          omega
        · have h3 := h2 hz
          have hk : bitLenFuel fuel (n / 2) ≠ 0 := by
            intro hk
            rw [hk] at h1
            simp at h1
            exact hz h1
          obtain ⟨k, hk2⟩ := Nat.exists_eq_succ_of_ne_zero hk
          rw [hk2] at h3 ⊢
          simp only [Nat.succ_sub_one] at h3
          rw [pow_succ]
          omega

/-- The fuel of `bitLen` suffices: `bitLen n` is the number of bits of `n`. -/
theorem bitLen_bounds (n : Nat) :
    n < 2 ^ bitLen n ∧ (n ≠ 0 → 2 ^ (bitLen n - 1) ≤ n) :=
  bitLenFuel_bounds n n (Nat.le_refl n)

/-- Scaling numerator and denominator by the powers of two of an exponent `e`
divides the quotient by `2^e`. -/
theorem scaled_value (n d : Nat) (hd : 0 < d) (e : Int) :
    (n : ℚ) / d = ((n * 2 ^ (-e).toNat : Nat) : ℚ) / ((d * 2 ^ e.toNat : Nat) : ℚ) * 2 ^ e := by
  have hd' : (d : ℚ) ≠ 0 := by exact_mod_cast hd.ne'
  rcases le_or_lt 0 e with he | he
  · obtain ⟨k, rfl⟩ := Int.eq_ofNat_of_zero_le he
    have h1 : (-(k : Int)).toNat = 0 := by omega
    simp only [h1, Int.toNat_ofNat, pow_zero, mul_one, Nat.cast_mul, Nat.cast_pow,
      Nat.cast_ofNat, zpow_natCast]
    field_simp
    ring
  · obtain ⟨k, hk⟩ := Int.exists_eq_neg_ofNat (le_of_lt he)
    subst hk
    have h1 : (-(k : Int)).toNat = 0 := by omega
    simp only [h1, neg_neg, Int.toNat_ofNat, pow_zero, mul_one, Nat.cast_mul, Nat.cast_pow,
      Nat.cast_ofNat, zpow_neg, zpow_natCast]
    field_simp
    ring

/-- The integer that `roundNearestEven` picks for `num / den` is within one half
of it. -/
theorem nearest_integer (num den : Nat) (hden : 0 < den) :
    |(((if den < 2 * (num % den) ∨ (2 * (num % den) = den ∧ num / den % 2 = 1)
        then num / den + 1 else num / den : Nat) : ℚ)) - (num : ℚ) / den| ≤ 1 / 2 := by
  have hden' : (0 : ℚ) < den := by exact_mod_cast hden
  have hdm : (num : ℚ) = den * (num / den : Nat) + (num % den : Nat) := by
    exact_mod_cast (Nat.div_add_mod num den).symm
  have hq : (num : ℚ) / den = (num / den : Nat) + ((num % den : Nat) : ℚ) / den := by
    rw [hdm]
    field_simp
    ring
  rw [hq, abs_le]
  split
  · rename_i hc
    have h2 : (den : ℚ) ≤ 2 * ((num % den : Nat) : ℚ) := by
      rcases hc with h | ⟨h, _⟩
      · exact_mod_cast h.le
      · exact_mod_cast h.ge
    have hlt : ((num % den : Nat) : ℚ) < den := by exact_mod_cast Nat.mod_lt _ hden
    have h3 : (1 : ℚ) / 2 ≤ ((num % den : Nat) : ℚ) / den := by
      rw [div_le_div_iff₀ (by norm_num) hden']
      linarith
    have h4 : ((num % den : Nat) : ℚ) / den < 1 := by
      rw [div_lt_one hden']
      exact hlt
    push_cast
    constructor <;> linarith
  · rename_i hc
    have h2 : 2 * ((num % den : Nat) : ℚ) ≤ den := by
      have : 2 * (num % den) ≤ den := by
        by_contra hcon
        exact hc (Or.inl (by omega))
      exact_mod_cast this
    have h3 : ((num % den : Nat) : ℚ) / den ≤ 1 / 2 := by
      rw [div_le_div_iff₀ hden' (by norm_num)]
      linarith
    have h4 : (0 : ℚ) ≤ ((num % den : Nat) : ℚ) / den := by positivity
    constructor <;> linarith
/-- The value of a positive natural number lies between the powers of two
given by its bit length. -/
theorem bitLen_zpow (n : Nat) (hn : 0 < n) :
    (2 : ℚ) ^ ((bitLen n : Int) - 1) ≤ n ∧ (n : ℚ) < 2 ^ (bitLen n : Int) := by
  obtain ⟨h1, h2⟩ := bitLen_bounds n
  have h2 := h2 hn.ne'
  have hpos : 0 < bitLen n := by
    by_contra hc
    have : bitLen n = 0 := by omega
    rw [this] at h1
    simp at h1
    omega
  constructor
  · have : ((bitLen n : Int) - 1) = ((bitLen n - 1 : Nat) : Int) := by omega
    rw [this, zpow_natCast]
    exact_mod_cast h2
  · rw [zpow_natCast]
    exact_mod_cast h1

/-- The quotient `n / d` scaled by the exponent that `roundNearestEven` picks has
exactly `prec` bits before the binary point. -/
theorem scaled_range (n d prec : Nat) (hn : 0 < n) (hd : 0 < d) :
    let e0 : Int := (bitLen n : Int) - (bitLen d : Int) - (prec : Int)
    let e : Int :=
      if d * 2 ^ e0.toNat * 2 ^ prec ≤ n * 2 ^ (-e0).toNat then e0 + 1 else e0
    (2 : ℚ) ^ ((prec : Int) - 1) ≤ (n : ℚ) / d / 2 ^ e ∧
      (n : ℚ) / d / 2 ^ e < 2 ^ (prec : Int) := by
  intro e0 e
  obtain ⟨hn1, hn2⟩ := bitLen_zpow n hn
  obtain ⟨hd1, hd2⟩ := bitLen_zpow d hd
  have hdq : (0 : ℚ) < d := by exact_mod_cast hd
  have hnq : (0 : ℚ) < n := by exact_mod_cast hn
  have h2 : (0 : ℚ) < 2 := by norm_num
  have hlow : (2 : ℚ) ^ ((bitLen n : Int) - 1 - (bitLen d : Int)) < (n : ℚ) / d := by
    rw [zpow_sub₀ (by norm_num), lt_div_iff₀ hdq, div_mul_eq_mul_div,
      div_lt_iff₀ (zpow_pos h2 _)]
    calc (2 : ℚ) ^ ((bitLen n : Int) - 1) * d < 2 ^ ((bitLen n : Int) - 1) * 2 ^ (bitLen d : Int) :=
          mul_lt_mul_of_pos_left hd2 (zpow_pos h2 _)
      _ ≤ n * 2 ^ (bitLen d : Int) := mul_le_mul_of_nonneg_right hn1 (zpow_nonneg h2.le _)
  have hhigh : (n : ℚ) / d < 2 ^ ((bitLen n : Int) - ((bitLen d : Int) - 1)) := by
    rw [zpow_sub₀ (by norm_num), div_lt_div_iff₀ hdq (zpow_pos h2 _)]
    calc (n : ℚ) * 2 ^ ((bitLen d : Int) - 1) < 2 ^ (bitLen n : Int) * 2 ^ ((bitLen d : Int) - 1) :=
          mul_lt_mul_of_pos_right hn2 (zpow_pos h2 _)
      _ ≤ 2 ^ (bitLen n : Int) * d := mul_le_mul_of_nonneg_left hd1 (zpow_nonneg h2.le _)
  have hy0low : (2 : ℚ) ^ ((prec : Int) - 1) < (n : ℚ) / d / 2 ^ e0 := by
    rw [lt_div_iff₀ (zpow_pos h2 _), ← zpow_add₀ (by norm_num)]
    have : (prec : Int) - 1 + e0 = (bitLen n : Int) - 1 - (bitLen d : Int) := by
      simp only [e0]; ring
    rw [this]
    exact hlow
  have hy0high : (n : ℚ) / d / 2 ^ e0 < 2 ^ ((prec : Int) + 1) := by
    rw [div_lt_iff₀ (zpow_pos h2 _), ← zpow_add₀ (by norm_num)]
    have : (prec : Int) + 1 + e0 = (bitLen n : Int) - ((bitLen d : Int) - 1) := by
      simp only [e0]; ring
    rw [this]
    exact hhigh
  have hcond : (d * 2 ^ e0.toNat * 2 ^ prec ≤ n * 2 ^ (-e0).toNat) ↔
      (2 : ℚ) ^ (prec : Int) ≤ (n : ℚ) / d / 2 ^ e0 := by
    have hv := scaled_value n d hd e0
    have hden : (0 : ℚ) < ((d * 2 ^ e0.toNat : Nat) : ℚ) := by positivity
    rw [hv, mul_div_assoc, div_self (zpow_pos h2 _).ne', mul_one, le_div_iff₀ hden,
      zpow_natCast]
    constructor
    · intro h
      have : ((d * 2 ^ e0.toNat * 2 ^ prec : Nat) : ℚ) ≤ ((n * 2 ^ (-e0).toNat : Nat) : ℚ) := by
        exact_mod_cast h
      calc (2 : ℚ) ^ prec * ((d * 2 ^ e0.toNat : Nat) : ℚ)
          = ((d * 2 ^ e0.toNat * 2 ^ prec : Nat) : ℚ) := by push_cast; ring
        _ ≤ _ := this
    · intro h
      have : ((d * 2 ^ e0.toNat * 2 ^ prec : Nat) : ℚ) ≤ ((n * 2 ^ (-e0).toNat : Nat) : ℚ) := by
        calc ((d * 2 ^ e0.toNat * 2 ^ prec : Nat) : ℚ)
            = (2 : ℚ) ^ prec * ((d * 2 ^ e0.toNat : Nat) : ℚ) := by push_cast; ring
          _ ≤ _ := h
      exact_mod_cast this
  by_cases hc : d * 2 ^ e0.toNat * 2 ^ prec ≤ n * 2 ^ (-e0).toNat
  · have he : e = e0 + 1 := by simp only [e, hc, if_true]
    have hge := hcond.mp hc
    rw [he, zpow_add₀ (by norm_num), zpow_one, ← div_div]
    constructor
    · rw [le_div_iff₀ h2, zpow_sub₀ (by norm_num), zpow_one, div_mul_cancel₀ _ (by norm_num)]
      exact hge
    · rw [div_lt_iff₀ h2]
      calc (n : ℚ) / d / 2 ^ e0 < 2 ^ ((prec : Int) + 1) := hy0high
        _ = 2 ^ (prec : Int) * 2 := by rw [zpow_add₀ (by norm_num), zpow_one]
  · have he : e = e0 := by simp only [e, hc, if_false]
    rw [he]
    refine ⟨hy0low.le, ?_⟩
    by_contra hcon
    exact hc (hcond.mpr (not_lt.mp hcon))

/-- The rounding of `roundNearestEven` is correct: for a positive quotient the
mantissa has exactly `prec` bits, and the result differs from `n / d` by at
most half a unit in the last place. -/
theorem roundNearestEven_correct (n d prec : Nat) (hn : 0 < n) (hd : 0 < d)
    (hp : 0 < prec) :
    2 ^ (prec - 1) ≤ (roundNearestEven n d prec).1 ∧
    (roundNearestEven n d prec).1 < 2 ^ prec ∧
    |((roundNearestEven n d prec).1 : ℚ) * 2 ^ (roundNearestEven n d prec).2 - (n : ℚ) / d| ≤
      2 ^ (roundNearestEven n d prec).2 / 2 := by
  have hrange := scaled_range n d prec hn hd
  simp only at hrange
  unfold roundNearestEven
  simp only
  generalize (if d * 2 ^ ((bitLen n : Int) - (bitLen d : Int) - (prec : Int)).toNat * 2 ^ prec ≤
      n * 2 ^ (-((bitLen n : Int) - (bitLen d : Int) - (prec : Int))).toNat
    then (bitLen n : Int) - (bitLen d : Int) - (prec : Int) + 1
    else (bitLen n : Int) - (bitLen d : Int) - (prec : Int)) = e at hrange ⊢
  have h2 : (0 : ℚ) < 2 := by norm_num
  have hv := scaled_value n d hd e
  have hdenN : 0 < d * 2 ^ e.toNat := by positivity
  have hden : (0 : ℚ) < ((d * 2 ^ e.toNat : Nat) : ℚ) := by exact_mod_cast hdenN
  have hy : (n : ℚ) / d / 2 ^ e =
      ((n * 2 ^ (-e).toNat : Nat) : ℚ) / ((d * 2 ^ e.toNat : Nat) : ℚ) := by
    rw [hv, mul_div_assoc, div_self (zpow_pos h2 _).ne', mul_one]
  rw [hy] at hrange
  obtain ⟨hlo, hhi⟩ := hrange
  have hprec : ((prec : Int) - 1) = ((prec - 1 : Nat) : Int) := by omega
  rw [hprec, zpow_natCast, le_div_iff₀ hden] at hlo
  rw [zpow_natCast, div_lt_iff₀ hden] at hhi
  have hloN : 2 ^ (prec - 1) * (d * 2 ^ e.toNat) ≤ n * 2 ^ (-e).toNat := by exact_mod_cast hlo
  have hhiN : n * 2 ^ (-e).toNat < 2 ^ prec * (d * 2 ^ e.toNat) := by exact_mod_cast hhi
  have hq1 : 2 ^ (prec - 1) ≤ n * 2 ^ (-e).toNat / (d * 2 ^ e.toNat) :=
    (Nat.le_div_iff_mul_le hdenN).mpr hloN
  have hq2 : n * 2 ^ (-e).toNat / (d * 2 ^ e.toNat) < 2 ^ prec :=
    (Nat.div_lt_iff_lt_mul hdenN).mpr hhiN
  have hnear := nearest_integer (n * 2 ^ (-e).toNat) (d * 2 ^ e.toNat) hdenN
  have hpow : 2 ^ prec = 2 * 2 ^ (prec - 1) := by
    obtain ⟨k, hk⟩ := Nat.exists_eq_succ_of_ne_zero hp.ne'
    subst hk
    simp [pow_succ, mul_comm]
  generalize hm : (if d * 2 ^ e.toNat < 2 * (n * 2 ^ (-e).toNat % (d * 2 ^ e.toNat)) ∨
      2 * (n * 2 ^ (-e).toNat % (d * 2 ^ e.toNat)) = d * 2 ^ e.toNat ∧
        n * 2 ^ (-e).toNat / (d * 2 ^ e.toNat) % 2 = 1
    then n * 2 ^ (-e).toNat / (d * 2 ^ e.toNat) + 1
    else n * 2 ^ (-e).toNat / (d * 2 ^ e.toNat)) = m at hnear ⊢
  have hm1 : 2 ^ (prec - 1) ≤ m ∧ m ≤ 2 ^ prec := by
    rw [← hm]
    split <;> omega
  have herr : |(m : ℚ) * 2 ^ e - (n : ℚ) / d| ≤ 2 ^ e / 2 := by
    have : (m : ℚ) * 2 ^ e - (n : ℚ) / d =
        ((m : ℚ) - ((n * 2 ^ (-e).toNat : Nat) : ℚ) / ((d * 2 ^ e.toNat : Nat) : ℚ)) * 2 ^ e := by
      rw [hv]; ring
    rw [this, abs_mul, abs_of_pos (zpow_pos h2 e)]
    calc _ ≤ 1 / 2 * (2 : ℚ) ^ e := mul_le_mul_of_nonneg_right hnear (zpow_pos h2 e).le
      _ = 2 ^ e / 2 := by ring
  by_cases hcarry : m = 2 ^ prec
  · simp only [hcarry, if_true]
    refine ⟨le_refl _, by omega, ?_⟩
    have hval : ((2 ^ (prec - 1) : Nat) : ℚ) * 2 ^ (e + 1) = (m : ℚ) * 2 ^ e := by
      rw [hcarry, hpow, zpow_add₀ (by norm_num), zpow_one]
      push_cast
      ring
    rw [hval]
    calc _ ≤ (2 : ℚ) ^ e / 2 := herr
      _ ≤ 2 ^ (e + 1) / 2 := by
        rw [zpow_add₀ (by norm_num), zpow_one]
        have := (zpow_pos h2 e).le
        linarith
  · simp only [hcarry, if_false]
    exact ⟨hm1.1, by omega, herr⟩


/-! ## Lemmas on `getReduceableMinipools` -/

theorem wrap64_le_self (x : Int) (h : -(2 ^ 63) ≤ x) : wrap64 x ≤ x := by
  unfold wrap64
  omega

theorem wrap64_of_fits (x : Int) (h0 : -(2 ^ 63) ≤ x) (h1 : x ≤ 2 ^ 63 - 1) :
    wrap64 x = x := by
  unfold wrap64
  omega

theorem getMinipoolAsV3_binding (env : Env) (address : Address) (version : Nat)
    (mp : IMinipool) (a : Address)
    (h : NewMinipoolFromVersion env address version = .ok mp)
    (ha : GetMinipoolAsV3 mp = some a) : a = address := by
  unfold NewMinipoolFromVersion at h
  split at h
  · simp at h
  · simp only [Except.ok.injEq] at h
    subst h
    simpa [GetMinipoolAsV3] using ha.symm
  · simp only [Except.ok.injEq] at h
    subst h
    simp [GetMinipoolAsV3] at ha

theorem bindMinipools_zip (env : Env) (opts : CallOpts) :
    ∀ (l : List NativeMinipoolDetails) (es : List (Option MinipoolV3)),
      bindMinipools env opts l = .ok es →
      ∀ mpd b, (mpd, some b) ∈ l.zip es →
        mpd ∈ l ∧ b = queriedBinding env opts mpd.MinipoolAddress := by
  intro l
  induction l with
  | nil => intro es _ mpd b hm; simp at hm
  | cons x rest ih =>
    intro es h mpd b hm
    simp only [bindMinipools] at h
    split at h
    · simp at h
    · rename_i mp hmp
      split at h
      · simp at h
      · rename_i bs hbs
        simp only [Except.ok.injEq] at h
        subst h
        simp only [List.zip_cons_cons, List.mem_cons, Prod.mk.injEq] at hm
        rcases hm with ⟨h1, h2⟩ | hm
        · subst h1
          refine ⟨List.mem_cons_self _ _, ?_⟩
          cases hg : GetMinipoolAsV3 mp with
          | none => simp [hg] at h2
          | some a =>
            have := getMinipoolAsV3_binding env _ _ mp a hmp hg
            subst this
            simp [hg] at h2
            exact h2
        · have := ih bs hbs mpd b hm
          exact ⟨List.mem_cons_of_mem _ this.1, this.2⟩

theorem bindMinipools_allV3 (env : Env) (opts : CallOpts) :
    ∀ (l : List NativeMinipoolDetails),
      (∀ m ∈ l, env.bindingIsV3 m.MinipoolAddress m.Version = .ok true) →
      bindMinipools env opts l =
        .ok (l.map (fun m => some (queriedBinding env opts m.MinipoolAddress))) := by
  intro l
  induction l with
  | nil => intro _; rfl
  | cons x rest ih =>
    intro h
    have hx := h x (List.mem_cons_self _ _)
    have hr := ih (fun m hm => h m (List.mem_cons_of_mem _ hm))
    simp [bindMinipools, NewMinipoolFromVersion, hx, hr, GetMinipoolAsV3]

theorem filterMinipools_sound (ws wl now : Int) :
    ∀ (ps : List (NativeMinipoolDetails × Option MinipoolV3))
      (ms : List NativeMinipoolDetails) (bs : List MinipoolV3),
      filterMinipools ws wl now ps = .ok (ms, bs) →
      ms.length = bs.length ∧
      ∀ mpd b, (mpd, b) ∈ ms.zip bs →
        (mpd, some b) ∈ ps ∧ isReduceable ws wl now mpd b = true := by
  intro ps
  induction ps with
  | nil =>
    intro ms bs h
    simp only [filterMinipools, Except.ok.injEq, Prod.mk.injEq] at h
    obtain ⟨h1, h2⟩ := h
    subst h1; subst h2
    simp
  | cons p rest ih =>
    intro ms bs h
    obtain ⟨mpd0, o⟩ := p
    cases o with
    | none => simp [filterMinipools] at h
    | some b0 =>
      simp only [filterMinipools] at h
      split at h
      · simp at h
      · rename_i ms1 bs1 hrest
        have ih1 := ih ms1 bs1 hrest
        split at h
        · rename_i hred
          simp only [Except.ok.injEq, Prod.mk.injEq] at h
          obtain ⟨h1, h2⟩ := h
          subst h1; subst h2
          refine ⟨by simp [ih1.1], ?_⟩
          intro mpd b hm
          simp only [List.zip_cons_cons, List.mem_cons, Prod.mk.injEq] at hm
          rcases hm with ⟨e1, e2⟩ | hm
          · subst e1; subst e2
            exact ⟨List.mem_cons_self _ _, hred⟩
          · have := ih1.2 mpd b hm
            exact ⟨List.mem_cons_of_mem _ this.1, this.2⟩
        · simp only [Except.ok.injEq, Prod.mk.injEq] at h
          obtain ⟨h1, h2⟩ := h
          subst h1; subst h2
          refine ⟨ih1.1, ?_⟩
          intro mpd b hm
          have := ih1.2 mpd b hm
          exact ⟨List.mem_cons_of_mem _ this.1, this.2⟩

theorem filterMinipools_complete (ws wl now : Int) (g : NativeMinipoolDetails → MinipoolV3) :
    ∀ (l : List NativeMinipoolDetails),
      ∃ ms bs, filterMinipools ws wl now (l.zip (l.map (fun m => some (g m)))) = .ok (ms, bs) ∧
        ∀ mpd ∈ l, isReduceable ws wl now mpd (g mpd) = true → (mpd, g mpd) ∈ ms.zip bs := by
  intro l
  induction l with
  | nil => exact ⟨[], [], rfl, by simp⟩
  | cons x rest ih =>
    obtain ⟨ms, bs, hrest, hmem⟩ := ih
    by_cases hx : isReduceable ws wl now x (g x) = true
    · refine ⟨x :: ms, g x :: bs, ?_, ?_⟩
      · show filterMinipools ws wl now
          ((x, some (g x)) :: rest.zip (rest.map (fun m => some (g m)))) = _
        rw [filterMinipools, hrest]
        simp [hx]
      · intro mpd hm hred
        rcases List.mem_cons.mp hm with e | hm
        · subst e; simp
        · simp only [List.zip_cons_cons, List.mem_cons]
          exact Or.inr (hmem mpd hm hred)
    · refine ⟨ms, bs, ?_, ?_⟩
      · show filterMinipools ws wl now
          ((x, some (g x)) :: rest.zip (rest.map (fun m => some (g m)))) = _
        rw [filterMinipools, hrest]
        simp [hx]
      · intro mpd hm hred
        rcases List.mem_cons.mp hm with e | hm
        · subst e; exact absurd hred hx
        · exact hmem mpd hm hred

theorem mem_zip_of_mem_left {α β : Type} :
    ∀ (ms : List α) (bs : List β), ms.length = bs.length →
      ∀ a ∈ ms, ∃ b, (a, b) ∈ ms.zip bs := by
  intro ms
  induction ms with
  | nil => intro bs _ a ha; simp at ha
  | cons x rest ih =>
    intro bs hlen a ha
    cases bs with
    | nil => simp at hlen
    | cons y bs1 =>
      rcases List.mem_cons.mp ha with e | ha
      · subst e; exact ⟨y, by simp⟩
      · obtain ⟨b, hb⟩ := ih bs1 (by simpa using hlen) a ha
        exact ⟨b, by simp [hb]⟩

/-- What `getReduceableMinipools` returns is sound: the two lists are aligned,
and every returned pair is a minipool of the node with the binding queried for
its own address, on which the filter condition holds. -/
theorem getReduceableMinipools_sound (env : Env) (node : Address) (ws wl now : Int)
    (state : NetworkState) (opts : CallOpts)
    (ms : List NativeMinipoolDetails) (bs : List MinipoolV3)
    (h : (getReduceableMinipools env node ws wl now state opts).1 = .ok (ms, bs)) :
    ms.length = bs.length ∧
    ∀ mpd b, (mpd, b) ∈ ms.zip bs →
      mpd ∈ state.MinipoolDetailsByNode node ∧
      b = queriedBinding env opts mpd.MinipoolAddress ∧
      isReduceable ws wl now mpd b = true := by
  unfold getReduceableMinipools at h
  simp only at h
  split at h
  · simp at h
  · rename_i entries hbind
    split at h
    · simp at h
    · have hs := filterMinipools_sound ws wl now _ ms bs h
      refine ⟨hs.1, ?_⟩
      intro mpd b hm
      have h1 := hs.2 mpd b hm
      have h2 := bindMinipools_zip env opts _ entries hbind mpd b h1.1
      exact ⟨h2.1, h2.2, h1.2⟩

/-- The same for a returned minipool alone. -/
theorem getReduceableMinipools_mem (env : Env) (node : Address) (ws wl now : Int)
    (state : NetworkState) (opts : CallOpts)
    (ms : List NativeMinipoolDetails) (bs : List MinipoolV3)
    (h : (getReduceableMinipools env node ws wl now state opts).1 = .ok (ms, bs))
    (mpd : NativeMinipoolDetails) (hm : mpd ∈ ms) :
    mpd ∈ state.MinipoolDetailsByNode node ∧
    isReduceable ws wl now mpd (queriedBinding env opts mpd.MinipoolAddress) = true := by
  have hs := getReduceableMinipools_sound env node ws wl now state opts ms bs h
  obtain ⟨b, hb⟩ := mem_zip_of_mem_left ms bs hs.1 mpd hm
  have := hs.2 mpd b hb
  obtain ⟨h1, h2, h3⟩ := this
  subst h2
  exact ⟨h1, h3⟩

theorem getReduceableMinipools_trace (env : Env) (node : Address) (ws wl now : Int)
    (state : NetworkState) (opts : CallOpts) :
    ∀ ev ∈ (getReduceableMinipools env node ws wl now state opts).2,
      ∃ n, ev = Event.batchQuery n opts.BlockNumber := by
  intro ev hev
  unfold getReduceableMinipools at hev
  simp only at hev
  split at hev
  · simp at hev
  · split at hev
    · simp only [List.mem_singleton] at hev
      exact ⟨_, hev⟩
    · simp only [List.mem_singleton] at hev
      exact ⟨_, hev⟩

theorem weiToEth_sixteen : F64.eq (WeiToEth (16 * 10 ^ 18)) (F64.ofNat 16) = true := by
  decide

theorem isReduceable_iff (ws wl now : Int) (mpd : NativeMinipoolDetails) (b : MinipoolV3) :
    isReduceable ws wl now mpd b = true ↔
      F64.eq (WeiToEth mpd.NodeDepositBalance) (F64.ofNat 16) = true ∧
      timeSub now b.ReduceBondTime < durAdd ws wl ∧
      b.IsBondReduceCancelled = false ∧
      mpd.Status = MinipoolStatus.Staking ∧
      ws < timeSub now b.ReduceBondTime := by
  simp [isReduceable, and_assoc]

theorem getReduceableMinipools_complete (env : Env) (node : Address) (ws wl now : Int)
    (state : NetworkState) (opts : CallOpts)
    (hv3 : ∀ m ∈ state.MinipoolDetailsByNode node,
      env.bindingIsV3 m.MinipoolAddress m.Version = .ok true)
    (hq : env.BatchQuery (state.MinipoolDetailsByNode node).length opts = none) :
    ∃ ms bs, (getReduceableMinipools env node ws wl now state opts).1 = .ok (ms, bs) ∧
      ∀ mpd ∈ state.MinipoolDetailsByNode node,
        isReduceable ws wl now mpd (queriedBinding env opts mpd.MinipoolAddress) = true →
        (mpd, queriedBinding env opts mpd.MinipoolAddress) ∈ ms.zip bs := by
  obtain ⟨ms, bs, hf, hmem⟩ := filterMinipools_complete ws wl now
    (fun m => queriedBinding env opts m.MinipoolAddress) (state.MinipoolDetailsByNode node)
  refine ⟨ms, bs, ?_, hmem⟩
  have hlen : (List.filterMap id (List.map
      (fun m => some (queriedBinding env opts m.MinipoolAddress))
      (state.MinipoolDetailsByNode node))).length =
      (state.MinipoolDetailsByNode node).length := by
    generalize state.MinipoolDetailsByNode node = l
    induction l with
    | nil => rfl
    | cons x rest ih => simp [List.filterMap_cons, ih]
  unfold getReduceableMinipools
  simp only [bindMinipools_allV3 env opts _ hv3, hlen, hq]
  exact hf

/-! ## The window of `getReduceableMinipools` -/

/-- C1, counterexample: with `windowStart = 7d`, `windowLength = 2d`, a request
at `T` and the latest block at exactly `T + 7d`, the staking, not cancelled
16 ETH minipool is not returned. -/
theorem boundary_not_returned :
    timeSub (requestTime + 7 * 86400)
      ((windowEnv (7 * 86400)).ReduceBondTime pinned.BlockNumber 10) = 7 * day ∧
    (0 : Int) < 2 * day ∧
    (windowEnv (7 * 86400)).IsBondReduceCancelled pinned.BlockNumber 10 = false ∧
    (stakingMinipool 10 sixteenEth).Status = MinipoolStatus.Staking ∧
    (stakingMinipool 10 sixteenEth).NodeDepositBalance = 16 * 10 ^ 18 ∧
    (getReduceableMinipools (windowEnv (7 * 86400)) 1 (7 * day) (2 * day)
      (requestTime + 7 * 86400) (windowState sixteenEth) pinned).1 = .ok ([], []) := by
  set_option maxRecDepth 100000 in decide

/-- C1, as amended: the lower boundary of the window is exclusive. A minipool
whose elapsed time since the reduction request equals `windowStart` exactly is
not among the minipools that `getReduceableMinipools` returns. -/
theorem getReduceableMinipools_boundary_exclusive (env : Env) (node : Address)
    (ws wl now : Int) (state : NetworkState) (opts : CallOpts)
    (ms : List NativeMinipoolDetails) (bs : List MinipoolV3)
    (h : (getReduceableMinipools env node ws wl now state opts).1 = .ok (ms, bs))
    (mpd : NativeMinipoolDetails)
    (he : timeSub now (env.ReduceBondTime opts.BlockNumber mpd.MinipoolAddress) = ws) :
    mpd ∉ ms := by
  intro hm
  have hr := (getReduceableMinipools_mem env node ws wl now state opts ms bs h mpd hm).2
  rw [isReduceable_iff] at hr
  have := hr.2.2.2.2
  simp only [queriedBinding] at this
  omega

theorem getReduceableMinipools_boundary_exclusive_witness :
    stakingMinipool 10 sixteenEth ∉ [stakingMinipool 11 sixteenEth] :=
  getReduceableMinipools_boundary_exclusive boundaryEnv 1 (7 * day) (2 * day)
    (requestTime + 7 * 86400) twoMinipools pinned
    [stakingMinipool 11 sixteenEth] [queriedBinding boundaryEnv pinned 11]
    (by set_option maxRecDepth 100000 in decide) (stakingMinipool 10 sixteenEth)
    (by decide)

/-- C2: every minipool that `getReduceableMinipools` returns has an elapsed time
`e = latestBlockTime - ReduceBondTime` with `windowStart ≤ e` and
`e < windowStart + windowLength` (the sum as the code computes it, and the exact
sum as well unless it underflows), so a pending or expired minipool is never
returned. -/
theorem getReduceableMinipools_within_window (env : Env) (node : Address)
    (ws wl now : Int) (state : NetworkState) (opts : CallOpts)
    (ms : List NativeMinipoolDetails) (bs : List MinipoolV3)
    (h : (getReduceableMinipools env node ws wl now state opts).1 = .ok (ms, bs))
    (mpd : NativeMinipoolDetails) (hm : mpd ∈ ms) :
    ws ≤ timeSub now (env.ReduceBondTime opts.BlockNumber mpd.MinipoolAddress) ∧
    timeSub now (env.ReduceBondTime opts.BlockNumber mpd.MinipoolAddress) < durAdd ws wl ∧
    (minDuration ≤ ws + wl →
      timeSub now (env.ReduceBondTime opts.BlockNumber mpd.MinipoolAddress) < ws + wl) := by
  have hr := (getReduceableMinipools_mem env node ws wl now state opts ms bs h mpd hm).2
  rw [isReduceable_iff] at hr
  obtain ⟨_, h2, _, _, h5⟩ := hr
  simp only [queriedBinding] at h2 h5
  refine ⟨by omega, h2, ?_⟩
  intro hmin
  have := wrap64_le_self (ws + wl) (by unfold minDuration at hmin; exact hmin)
  unfold durAdd at h2
  omega

theorem getReduceableMinipools_within_window_witness :
    7 * day ≤ timeSub (requestTime + (8 * 86400 + 59 * 60))
      ((windowEnv (8 * 86400 + 59 * 60)).ReduceBondTime pinned.BlockNumber 10) ∧
    timeSub (requestTime + (8 * 86400 + 59 * 60))
      ((windowEnv (8 * 86400 + 59 * 60)).ReduceBondTime pinned.BlockNumber 10) <
        durAdd (7 * day) (2 * day) ∧
    (minDuration ≤ 7 * day + 2 * day →
      timeSub (requestTime + (8 * 86400 + 59 * 60))
        ((windowEnv (8 * 86400 + 59 * 60)).ReduceBondTime pinned.BlockNumber 10) <
          7 * day + 2 * day) :=
  getReduceableMinipools_within_window (windowEnv (8 * 86400 + 59 * 60)) 1 (7 * day)
    (2 * day) (requestTime + (8 * 86400 + 59 * 60)) (windowState sixteenEth) pinned
    [stakingMinipool 10 sixteenEth] [queriedBinding (windowEnv (8 * 86400 + 59 * 60)) pinned 10]
    (by set_option maxRecDepth 100000 in decide) (stakingMinipool 10 sixteenEth)
    (by decide)

/-- The four instants of the window example (`windowStart = 7d`,
`windowLength = 2d`, request at `T`): the minipool is not returned at
`T + 6d23h59m59s`, not returned at `T + 7d`, returned at `T + 8d59m`, and not
returned at `T + 9d`. -/
theorem window_example_instants :
    (getReduceableMinipools (windowEnv (7 * 86400 - 1)) 1 (7 * day) (2 * day)
      (requestTime + (7 * 86400 - 1)) (windowState sixteenEth) pinned).1 = .ok ([], []) ∧
    (getReduceableMinipools (windowEnv (7 * 86400)) 1 (7 * day) (2 * day)
      (requestTime + 7 * 86400) (windowState sixteenEth) pinned).1 = .ok ([], []) ∧
    (getReduceableMinipools (windowEnv (8 * 86400 + 59 * 60)) 1 (7 * day) (2 * day)
      (requestTime + (8 * 86400 + 59 * 60)) (windowState sixteenEth) pinned).1 =
      .ok ([stakingMinipool 10 sixteenEth],
        [queriedBinding (windowEnv (8 * 86400 + 59 * 60)) pinned 10]) ∧
    (getReduceableMinipools (windowEnv (9 * 86400)) 1 (7 * day) (2 * day)
      (requestTime + 9 * 86400) (windowState sixteenEth) pinned).1 = .ok ([], []) := by
  set_option maxRecDepth 100000 in decide

/-- On a node whose minipools all have a v3 binding, once the batched query
succeeds, `getReduceableMinipools` returns normally, and every minipool with
`windowStart < e < windowStart + windowLength`, not cancelled, staking and with
a deposit of 16 ETH is returned, paired with the v3 binding of its own
address. -/
theorem getReduceableMinipools_open_window (env : Env) (node : Address)
    (ws wl now : Int) (state : NetworkState) (opts : CallOpts)
    (hv3 : ∀ m ∈ state.MinipoolDetailsByNode node,
      env.bindingIsV3 m.MinipoolAddress m.Version = .ok true)
    (hq : env.BatchQuery (state.MinipoolDetailsByNode node).length opts = none)
    (mpd : NativeMinipoolDetails) (hm : mpd ∈ state.MinipoolDetailsByNode node)
    (h1 : ws < timeSub now (env.ReduceBondTime opts.BlockNumber mpd.MinipoolAddress))
    (h2 : timeSub now (env.ReduceBondTime opts.BlockNumber mpd.MinipoolAddress) <
      durAdd ws wl)
    (hc : env.IsBondReduceCancelled opts.BlockNumber mpd.MinipoolAddress = false)
    (hs : mpd.Status = MinipoolStatus.Staking)
    (hd : mpd.NodeDepositBalance = 16 * 10 ^ 18) :
    ∃ ms bs, (getReduceableMinipools env node ws wl now state opts).1 = .ok (ms, bs) ∧
      ms.length = bs.length ∧
      (mpd, queriedBinding env opts mpd.MinipoolAddress) ∈ ms.zip bs := by
  obtain ⟨ms, bs, hok, hmem⟩ :=
    getReduceableMinipools_complete env node ws wl now state opts hv3 hq
  refine ⟨ms, bs, hok,
    (getReduceableMinipools_sound env node ws wl now state opts ms bs hok).1, ?_⟩
  apply hmem mpd hm
  rw [isReduceable_iff]
  refine ⟨?_, ?_, ?_, hs, ?_⟩
  · rw [hd]; exact weiToEth_sixteen
  · simpa [queriedBinding] using h2
  · simpa [queriedBinding] using hc
  · simpa [queriedBinding] using h1

theorem getReduceableMinipools_open_window_witness :
    ∃ ms bs, (getReduceableMinipools (windowEnv (8 * 86400 + 59 * 60)) 1 (7 * day)
        (2 * day) (requestTime + (8 * 86400 + 59 * 60)) (windowState sixteenEth)
        pinned).1 = .ok (ms, bs) ∧
      ms.length = bs.length ∧
      (stakingMinipool 10 sixteenEth,
        queriedBinding (windowEnv (8 * 86400 + 59 * 60)) pinned
          (stakingMinipool 10 sixteenEth).MinipoolAddress) ∈ ms.zip bs :=
  getReduceableMinipools_open_window (windowEnv (8 * 86400 + 59 * 60)) 1 (7 * day)
    (2 * day) (requestTime + (8 * 86400 + 59 * 60)) (windowState sixteenEth) pinned
    (by decide) (by decide) (stakingMinipool 10 sixteenEth) (by decide) (by decide)
    (by decide) (by decide) (by decide) (by decide)

/-- C3: a minipool in the open window is not returned when the node also owns a
minipool without a v3 binding. In the snapshot with the version 2 minipool at
address 10, the minipool at address 11 is one of the node, has a v3 binding,
`windowStart < e < windowStart + windowLength` (`e = 8d`, `windowStart = 7d`,
`windowLength = 2d`), is not cancelled, is staking and holds 16 ETH; every
binding is made and the batched query succeeds; and the call ends in the panic
of a nil-pointer dereference, so that nothing is returned. The same call
without the minipool at address 10 returns minipool 11 with its binding. -/
theorem open_window_minipool_not_returned :
    stakingMinipool 11 sixteenEth ∈ mixedVersions.MinipoolDetailsByNode 1 ∧
    NewMinipoolFromVersion approveEnv 11 3 = .ok (.v3 11) ∧
    7 * day < timeSub (requestTime + 8 * 86400)
      (approveEnv.ReduceBondTime pinned.BlockNumber 11) ∧
    timeSub (requestTime + 8 * 86400) (approveEnv.ReduceBondTime pinned.BlockNumber 11) <
      7 * day + 2 * day ∧
    approveEnv.IsBondReduceCancelled pinned.BlockNumber 11 = false ∧
    (stakingMinipool 11 sixteenEth).Status = MinipoolStatus.Staking ∧
    (stakingMinipool 11 sixteenEth).NodeDepositBalance = 16 * 10 ^ 18 ∧
    (∀ m ∈ mixedVersions.MinipoolDetailsByNode 1,
      ∃ mp, NewMinipoolFromVersion approveEnv m.MinipoolAddress m.Version = .ok mp) ∧
    approveEnv.BatchQuery 1 pinned = none ∧
    getReduceableMinipools approveEnv 1 (7 * day) (2 * day) (requestTime + 8 * 86400)
        mixedVersions pinned =
      (.error .nilPointer, [.batchQuery 1 (some 500)]) ∧
    (getReduceableMinipools approveEnv 1 (7 * day) (2 * day) (requestTime + 8 * 86400)
        (snapshot (7 * day) (2 * day) [stakingMinipool 11 sixteenEth]) pinned).1 =
      .ok ([stakingMinipool 11 sixteenEth], [queriedBinding approveEnv pinned 11]) := by
  refine ⟨by decide, by decide, by decide, by decide, by decide, by decide, by decide,
    ?_, by decide, by set_option maxRecDepth 100000 in decide,
    by set_option maxRecDepth 100000 in decide⟩
  intro m hm
  simp only [mixedVersions, snapshot, if_true, List.mem_cons, List.mem_singleton,
    List.not_mem_nil, or_false] at hm
  rcases hm with e | e <;> subst e
  · exact ⟨.v2 10, rfl⟩
  · exact ⟨.v3 11, rfl⟩

/-- C4: a minipool whose bond reduction is cancelled on chain is never among
the minipools that `getReduceableMinipools` returns, and no returned binding
carries the cancelled flag, whatever the times, the window, the status and the
deposit. -/
theorem getReduceableMinipools_not_cancelled (env : Env) (node : Address)
    (ws wl now : Int) (state : NetworkState) (opts : CallOpts)
    (ms : List NativeMinipoolDetails) (bs : List MinipoolV3)
    (h : (getReduceableMinipools env node ws wl now state opts).1 = .ok (ms, bs)) :
    (∀ mpd : NativeMinipoolDetails,
      env.IsBondReduceCancelled opts.BlockNumber mpd.MinipoolAddress = true → mpd ∉ ms) ∧
    (∀ mpd b, (mpd, b) ∈ ms.zip bs → b.IsBondReduceCancelled = false) := by
  constructor
  · intro mpd hc hm
    have hr := (getReduceableMinipools_mem env node ws wl now state opts ms bs h mpd hm).2
    rw [isReduceable_iff] at hr
    have := hr.2.2.1
    simp only [queriedBinding] at this
    rw [hc] at this
    exact Bool.noConfusion this
  · intro mpd b hm
    have hr := ((getReduceableMinipools_sound env node ws wl now state opts ms bs h).2
      mpd b hm).2.2
    rw [isReduceable_iff] at hr
    exact hr.2.2.1

theorem getReduceableMinipools_not_cancelled_witness :
    (∀ mpd : NativeMinipoolDetails,
      cancelledEnv.IsBondReduceCancelled pinned.BlockNumber mpd.MinipoolAddress = true →
        mpd ∉ [stakingMinipool 11 sixteenEth]) ∧
    (∀ mpd b, (mpd, b) ∈ [stakingMinipool 11 sixteenEth].zip
        [queriedBinding cancelledEnv pinned 11] →
      b.IsBondReduceCancelled = false) :=
  getReduceableMinipools_not_cancelled cancelledEnv 1 (7 * day) (2 * day)
    (requestTime + 8 * 86400) twoMinipools pinned
    [stakingMinipool 11 sixteenEth] [queriedBinding cancelledEnv pinned 11]
    (by set_option maxRecDepth 100000 in decide)

/-- C5, counterexample: a staking minipool with a deposit of `16 * 10^18 + 1`
wei, one day into the open window, is returned. -/
theorem deposit_near_sixteen_returned :
    (stakingMinipool 10 (sixteenEth + 1)).NodeDepositBalance ≠ 16 * 10 ^ 18 ∧
    (getReduceableMinipools (windowEnv (8 * 86400)) 1 (7 * day) (2 * day)
      (requestTime + 8 * 86400) (windowState (sixteenEth + 1)) pinned).1 =
      .ok ([stakingMinipool 10 (sixteenEth + 1)],
        [queriedBinding (windowEnv (8 * 86400)) pinned 10]) := by
  set_option maxRecDepth 100000 in decide

/-- C5, as amended: every minipool that `getReduceableMinipools` returns has
status Staking and a node deposit balance that `eth.WeiToEth` converts to the
`float64` 16; a minipool with another status, or whose converted deposit is not
16, is never returned, whatever its timer. -/
theorem getReduceableMinipools_staking_sixteen (env : Env) (node : Address)
    (ws wl now : Int) (state : NetworkState) (opts : CallOpts)
    (ms : List NativeMinipoolDetails) (bs : List MinipoolV3)
    (h : (getReduceableMinipools env node ws wl now state opts).1 = .ok (ms, bs))
    (mpd : NativeMinipoolDetails) (hm : mpd ∈ ms) :
    mpd.Status = MinipoolStatus.Staking ∧
    F64.eq (WeiToEth mpd.NodeDepositBalance) (F64.ofNat 16) = true := by
  have hr := (getReduceableMinipools_mem env node ws wl now state opts ms bs h mpd hm).2
  rw [isReduceable_iff] at hr
  exact ⟨hr.2.2.2.1, hr.1⟩

theorem getReduceableMinipools_staking_sixteen_witness :
    (stakingMinipool 10 sixteenEth).Status = MinipoolStatus.Staking ∧
    F64.eq (WeiToEth (stakingMinipool 10 sixteenEth).NodeDepositBalance) (F64.ofNat 16) =
      true :=
  getReduceableMinipools_staking_sixteen (windowEnv (8 * 86400)) 1 (7 * day) (2 * day)
    (requestTime + 8 * 86400) (windowState sixteenEth) pinned
    [stakingMinipool 10 sixteenEth] [queriedBinding (windowEnv (8 * 86400)) pinned 10]
    (by set_option maxRecDepth 100000 in decide) (stakingMinipool 10 sixteenEth)
    (by decide)

/-- C6, counterexample: no reduction was requested (the reduce-bond time is the
zero timestamp), the latest block is eight days after the Unix epoch, the
window is `7d` to `9d`: the minipool is returned. -/
theorem not_requested_returned :
    notRequestedEnv.ReduceBondTime pinned.BlockNumber 10 = 0 ∧
    (getReduceableMinipools notRequestedEnv 1 (7 * day) (2 * day) (8 * 86400)
      (windowState sixteenEth) pinned).1 =
      .ok ([stakingMinipool 10 sixteenEth], [queriedBinding notRequestedEnv pinned 10]) := by
  set_option maxRecDepth 100000 in decide

/-- C6, as amended: a minipool without a reduction request (reduce-bond time
zero) is not returned whenever the end of the window, `windowStart +
windowLength`, is a duration no longer than the time from the Unix epoch to the
latest block. -/
theorem getReduceableMinipools_not_requested (env : Env) (node : Address)
    (ws wl now : Int) (state : NetworkState) (opts : CallOpts)
    (ms : List NativeMinipoolDetails) (bs : List MinipoolV3)
    (h : (getReduceableMinipools env node ws wl now state opts).1 = .ok (ms, bs))
    (mpd : NativeMinipoolDetails)
    (hz : env.ReduceBondTime opts.BlockNumber mpd.MinipoolAddress = 0)
    (h0 : minDuration ≤ ws + wl) (h1 : ws + wl ≤ maxDuration)
    (h2 : ws + wl ≤ now * Second) :
    mpd ∉ ms := by
  intro hm
  have hr := (getReduceableMinipools_mem env node ws wl now state opts ms bs h mpd hm).2
  rw [isReduceable_iff] at hr
  have h3 := hr.2.1
  simp only [queriedBinding, hz] at h3
  unfold minDuration at h0
  unfold maxDuration at h1
  rw [durAdd, wrap64_of_fits _ h0 h1] at h3
  unfold timeSub at h3
  simp only [sub_zero] at h3
  unfold maxDuration minDuration at h3
  split at h3
  · omega
  · split at h3 <;> omega

theorem getReduceableMinipools_not_requested_witness :
    stakingMinipool 10 sixteenEth ∉ [stakingMinipool 11 sixteenEth] :=
  getReduceableMinipools_not_requested unrequestedEnv 1 (7 * day) (2 * day) requestTime
    twoMinipools pinned [stakingMinipool 11 sixteenEth]
    [queriedBinding unrequestedEnv pinned 11]
    (by set_option maxRecDepth 100000 in decide) (stakingMinipool 10 sixteenEth)
    (by decide) (by decide) (by decide) (by decide)

/-! ## Lemmas on the calls of each step -/

theorem getReduceableMinipools_stage (env : Env) (node : Address) (ws wl now : Int)
    (state : NetworkState) (opts : CallOpts) :
    ∀ ev ∈ (getReduceableMinipools env node ws wl now state opts).2,
      ev.stage = Stage.select := by
  intro ev hev
  obtain ⟨n, hn⟩ := getReduceableMinipools_trace env node ws wl now state opts ev hev
  subst hn
  rfl

theorem getMaxFee_stage (env : Env) (site : FeeSite) :
    ∀ ev ∈ (getMaxFee env site).2, ev = Event.getMaxFeeWeiForDaemon site := by
  intro ev hev
  unfold getMaxFee at hev
  repeat' split at hev
  all_goals simp at hev
  all_goals exact hev

theorem createReduceBondTx_stage (env : Env) (mpd : NativeMinipoolDetails) :
    ∀ ev ∈ (createReduceBondTx env mpd).2, ev.stage = Stage.prepare := by
  intro ev hev
  unfold createReduceBondTx at hev
  repeat' split at hev
  all_goals simp at hev
  all_goals subst hev
  all_goals rfl

theorem createReduceBondTxs_stage (env : Env) :
    ∀ (l : List NativeMinipoolDetails),
      ∀ ev ∈ (createReduceBondTxs env l).2, ev.stage = Stage.prepare := by
  intro l
  induction l with
  | nil => intro ev hev; simp [createReduceBondTxs] at hev
  | cons x rest ih =>
    intro ev hev
    simp only [createReduceBondTxs] at hev
    have hx := createReduceBondTx_stage env x
    split at hev
    · rename_i f tr heq
      rw [heq] at hx
      exact hx ev hev
    · rename_i sub tr heq
      rw [heq] at hx
      split at hev
      · rename_i f tr2 heq2
        rw [heq2] at ih
        rcases List.mem_append.mp hev with h | h
        · exact hx ev h
        · exact ih ev h
      · rename_i subs tr2 heq2
        rw [heq2] at ih
        rcases List.mem_append.mp hev with h | h
        · exact hx ev h
        · exact ih ev h

theorem readDistributor_stage (env : Env) (a : Address) :
    ∀ ev ∈ (readDistributor env a).2, ev.stage = Stage.feeDistribution := by
  intro ev hev
  unfold readDistributor at hev
  simp only at hev
  split at hev
  all_goals simp only [List.mem_cons, List.mem_singleton, List.not_mem_nil, or_false] at hev
  all_goals rcases hev with h | h <;> subst h <;> rfl

theorem reduceBonds_stage (env : Env) (subs : List TransactionSubmission)
    (mps : List MinipoolV3) (wd now : Int) :
    ∀ ev ∈ (reduceBonds env subs mps wd now).2, ev.stage = Stage.reduce := by
  intro ev hev
  unfold reduceBonds at hev
  have hfee := getMaxFee_stage env FeeSite.bondReduction
  split at hev
  · simp at hev
  · split at hev
    · rename_i f tr heq
      rw [heq] at hfee
      rw [hfee ev hev]; rfl
    · rename_i fee tr heq
      rw [heq] at hfee
      simp only at hev
      split at hev
      · rcases List.mem_append.mp hev with h | h
        · rw [hfee ev h]; rfl
        · simp only [List.mem_singleton] at h; subst h; rfl
      · split at hev
        all_goals
          rcases List.mem_append.mp hev with h | h
          · rw [hfee ev h]; rfl
          · simp only [List.mem_cons, List.mem_singleton, List.not_mem_nil, or_false] at h
            rcases h with h | h <;> subst h <;> rfl

theorem reduceBonds_rejected (env : Env) (subs : List TransactionSubmission)
    (mps : List MinipoolV3) (wd now : Int)
    (subs1 : List TransactionSubmission) (thr : F64) (fee : Nat)
    (hev : Event.gasCheckBatch subs1 thr fee false ∈ (reduceBonds env subs mps wd now).2) :
    (reduceBonds env subs mps wd now).1 = .ok () ∧
    ∀ ev ∈ (reduceBonds env subs mps wd now).2, ev.isSubmission = false := by
  unfold reduceBonds at hev ⊢
  have hfee := getMaxFee_stage env FeeSite.bondReduction
  cases hT : env.GetTransactor with
  | error e => simp [hT] at hev
  | ok opts0 =>
    simp only [hT] at hev ⊢
    rcases hF : getMaxFee env FeeSite.bondReduction with ⟨r, tr⟩
    rw [hF] at hfee
    cases r with
    | error f =>
      simp only [hF] at hev
      have := hfee _ hev
      simp at this
    | ok fee1 =>
      simp only [hF] at hev ⊢
      cases hG : env.PrintAndCheckGasInfoForBatch subs true env.AutoTxGasThreshold fee1 with
      | false =>
        simp only [hG, Bool.not_false, if_true]
        refine ⟨trivial, ?_⟩
        intro ev h
        rcases List.mem_append.mp h with h | h
        · rw [hfee ev h]; rfl
        · simp only [List.mem_singleton] at h; subst h; rfl
      | true =>
        simp only [hG, Bool.not_true, Bool.false_eq_true, if_false] at hev
        exfalso
        split at hev
        all_goals
          rcases List.mem_append.mp hev with h | h
          · have := hfee _ h
            simp at this
          · simp at h

theorem reduceBonds_submitted (env : Env) (subs : List TransactionSubmission)
    (mps : List MinipoolV3) (wd now : Int)
    (subs1 : List TransactionSubmission) (cbs : List Callback) (o : TransactOpts)
    (hev : Event.submitBatch subs1 cbs o ∈ (reduceBonds env subs mps wd now).2) :
    subs1 = subs ∧ cbs = makeCallbacks env mps := by
  unfold reduceBonds at hev
  have hfee := getMaxFee_stage env FeeSite.bondReduction
  split at hev
  · simp at hev
  · split at hev
    · rename_i f tr heq
      rw [heq] at hfee
      have := hfee _ hev
      simp at this
    · rename_i fee1 tr heq
      rw [heq] at hfee
      simp only at hev
      split at hev
      · rcases List.mem_append.mp hev with h | h
        · have := hfee _ h
          simp at this
        · simp at h
      · split at hev
        all_goals
          rcases List.mem_append.mp hev with h | h
          · have := hfee _ h
            simp at this
          · simp only [List.mem_cons, List.mem_singleton, List.not_mem_nil, or_false] at h
            rcases h with h | h
            · simp at h
            · simp only [Event.submitBatch.injEq] at h
              exact ⟨h.1, h.2.1⟩

/-- What `forceFeeDistribution` does, case by case: every call belongs to the
fee distribution; and when its gas check rejects, it returns `(false, nil)`
and submits nothing. -/
theorem forceFeeDistribution_calls (env : Env) (state : NetworkState) :
    (∀ ev ∈ (forceFeeDistribution env state).2, ev.stage = Stage.feeDistribution) ∧
    (∀ sim thr fee lim,
      Event.gasCheck sim thr fee lim false ∈ (forceFeeDistribution env state).2 →
      (forceFeeDistribution env state).1 = .ok false ∧
      ∀ ev ∈ (forceFeeDistribution env state).2, ev.isSubmission = false) := by
  unfold forceFeeDistribution
  cases hN : state.NodeDetailsByAddress env.nodeAddress with
  | none => simp
  | some nd =>
    simp only
    cases hD : env.NewNodeDistributor env.nodeAddress nd.FeeDistributorAddress with
    | some e => simp
    | none =>
      simp only
      have hrd := readDistributor_stage env nd.FeeDistributorAddress
      rcases hR : readDistributor env nd.FeeDistributorAddress with ⟨r, tr⟩
      rw [hR] at hrd
      simp only at hrd
      have hrd2 : ∀ sim thr fee lim b, Event.gasCheck sim thr fee lim b ∉ tr := by
        intro sim thr fee lim b hm
        unfold readDistributor at hR
        simp only at hR
        split at hR
        all_goals
          simp only [Prod.mk.injEq] at hR
          obtain ⟨_, h2⟩ := hR
          subst h2
          simp at hm
      have hrd3 : ∀ ev ∈ tr, ev.isSubmission = false := by
        intro ev hm
        unfold readDistributor at hR
        simp only at hR
        split at hR
        all_goals
          simp only [Prod.mk.injEq] at hR
          obtain ⟨_, h2⟩ := hR
          subst h2
          simp only [List.mem_cons, List.mem_singleton, List.not_mem_nil, or_false] at hm
          rcases hm with h | h <;> subst h <;> rfl
      cases r with
      | error f =>
        refine ⟨hrd, ?_⟩
        intro sim thr fee lim hm
        exact absurd hm (hrd2 sim thr fee lim false)
      | ok pr =>
        obtain ⟨balanceRaw, share⟩ := pr
        simp only
        by_cases hB : F64.eq (WeiToEth balanceRaw) (F64.ofNat 0) = true
        · simp only [hB, if_true]
          refine ⟨hrd, ?_⟩
          intro sim thr fee lim hm
          exact absurd hm (hrd2 sim thr fee lim false)
        · simp only [hB, Bool.false_eq_true, if_false]
          cases hT : env.GetTransactor with
          | error e =>
            refine ⟨hrd, ?_⟩
            intro sim thr fee lim hm
            exact absurd hm (hrd2 sim thr fee lim false)
          | ok opts0 =>
            simp only
            cases hDi : env.Distribute nd.FeeDistributorAddress opts0 with
            | error e =>
              constructor
              · intro ev hm
                rcases List.mem_append.mp hm with h | h
                · exact hrd ev h
                · simp only [List.mem_singleton] at h; subst h; rfl
              · intro sim thr fee lim hm
                rcases List.mem_append.mp hm with h | h
                · exact absurd h (hrd2 sim thr fee lim false)
                · simp at h
            | ok txInfo =>
              simp only
              by_cases hS : txInfo.SimulationResult.SimulationError ≠ ""
              · rw [if_pos hS]
                constructor
                · intro ev hm
                  rcases List.mem_append.mp hm with h | h
                  · exact hrd ev h
                  · simp only [List.mem_singleton] at h; subst h; rfl
                · intro sim thr fee lim hm
                  rcases List.mem_append.mp hm with h | h
                  · exact absurd h (hrd2 sim thr fee lim false)
                  · simp at h
              · rw [if_neg hS]
                have hfee := getMaxFee_stage env FeeSite.feeDistribution
                rcases hF : getMaxFee env FeeSite.feeDistribution with ⟨r2, tr2⟩
                rw [hF] at hfee
                simp only at hfee
                have hpre : ∀ ev ∈ tr ++ [Event.simulateDistribute nd.FeeDistributorAddress] ++ tr2,
                    ev.stage = Stage.feeDistribution ∧ ev.isSubmission = false ∧
                    ∀ sim thr fee lim b, ev ≠ Event.gasCheck sim thr fee lim b := by
                  intro ev hm
                  simp only [List.mem_append, List.mem_singleton] at hm
                  rcases hm with (h | h) | h
                  · refine ⟨hrd ev h, hrd3 ev h, ?_⟩
                    intro sim thr fee lim b hc
                    subst hc
                    exact hrd2 _ _ _ _ _ h
                  · subst h
                    exact ⟨rfl, rfl, by intro _ _ _ _ _ hc; cases hc⟩
                  · rw [hfee ev h]
                    exact ⟨rfl, rfl, by intro _ _ _ _ _ hc; cases hc⟩
                cases r2 with
                | error f =>
                  simp only
                  refine ⟨fun ev hm => (hpre ev hm).1, ?_⟩
                  intro sim thr fee lim hm
                  exact absurd rfl ((hpre _ hm).2.2 sim thr fee lim false)
                | ok maxFee =>
                  simp only
                  cases hG : env.PrintAndCheckGasInfo txInfo.SimulationResult true
                      env.AutoTxGasThreshold maxFee txInfo.SimulationResult.SafeGasLimit with
                  | false =>
                    simp only [Bool.not_false, if_true]
                    constructor
                    · intro ev hm
                      rcases List.mem_append.mp hm with h | h
                      · exact (hpre ev h).1
                      · simp only [List.mem_singleton] at h; subst h; rfl
                    · intro sim thr fee lim _
                      refine ⟨trivial, ?_⟩
                      intro ev hm
                      rcases List.mem_append.mp hm with h | h
                      · exact (hpre ev h).2.1
                      · simp only [List.mem_singleton] at h; subst h; rfl
                  | true =>
                    simp only [Bool.not_true, Bool.false_eq_true, if_false]
                    have hall : ∀ ev ∈ tr ++ [Event.simulateDistribute nd.FeeDistributorAddress] ++ tr2 ++
                        [Event.gasCheck txInfo.SimulationResult env.AutoTxGasThreshold maxFee
                            txInfo.SimulationResult.SafeGasLimit true,
                          Event.submitTx txInfo
                            { GasFeeCap := some maxFee, GasTipCap := env.maxPriorityFee,
                              GasLimit := txInfo.SimulationResult.SafeGasLimit }],
                        ev.stage = Stage.feeDistribution ∧
                        ∀ sim thr fee lim, ev ≠ Event.gasCheck sim thr fee lim false := by
                      intro ev hm
                      rcases List.mem_append.mp hm with h | h
                      · exact ⟨(hpre ev h).1, fun a b c d => (hpre ev h).2.2 a b c d false⟩
                      · simp only [List.mem_cons, List.mem_singleton, List.not_mem_nil,
                          or_false] at h
                        rcases h with h | h <;> subst h
                        · exact ⟨rfl, by intro _ _ _ _ hc; cases hc⟩
                        · exact ⟨rfl, by intro _ _ _ _ hc; cases hc⟩
                    cases hW : env.PrintAndWaitForTransaction txInfo
                        { GasFeeCap := some maxFee, GasTipCap := env.maxPriorityFee,
                          GasLimit := txInfo.SimulationResult.SafeGasLimit } with
                    | some e =>
                      simp only
                      refine ⟨fun ev hm => (hall ev hm).1, ?_⟩
                      intro sim thr fee lim hm
                      exact absurd rfl ((hall _ hm).2 sim thr fee lim)
                    | none =>
                      simp only
                      refine ⟨fun ev hm => (hall ev hm).1, ?_⟩
                      intro sim thr fee lim hm
                      exact absurd rfl ((hall _ hm).2 sim thr fee lim)

/-! ## Lemmas on the preparation of submissions -/

theorem createReduceBondTx_ok (env : Env) (mpd : NativeMinipoolDetails)
    (sub : TransactionSubmission) (h : (createReduceBondTx env mpd).1 = .ok sub) :
    sub.TxInfo.SimulationResult.SimulationError = "" ∧
    ∃ opts, env.GetTransactor = .ok opts ∧
      env.ReduceBondAmount mpd.MinipoolAddress opts = .ok sub.TxInfo := by
  unfold createReduceBondTx at h
  cases hT : env.GetTransactor with
  | error e => simp [hT] at h
  | ok opts =>
    simp only [hT] at h
    cases hN : NewMinipoolFromVersion env mpd.MinipoolAddress mpd.Version with
    | error e => simp [hN] at h
    | ok mp =>
      simp only [hN] at h
      cases hG : GetMinipoolAsV3 mp with
      | none => simp [hG] at h
      | some a =>
        have ha := getMinipoolAsV3_binding env _ _ mp a hN hG
        subst ha
        simp only [hG] at h
        cases hR : env.ReduceBondAmount mpd.MinipoolAddress opts with
        | error e => simp [hR] at h
        | ok txInfo =>
          simp only [hR] at h
          by_cases hS : txInfo.SimulationResult.SimulationError ≠ ""
          · rw [if_pos hS] at h
            simp at h
          · rw [if_neg hS] at h
            simp only [CreateTxSubmissionFromInfo, Except.ok.injEq] at h
            subst h
            exact ⟨not_not.mp hS, opts, rfl, hR⟩

theorem createReduceBondTx_reverted (env : Env) (mpd : NativeMinipoolDetails)
    (opts : TransactOpts) (txInfo : TransactionInfo)
    (hT : env.GetTransactor = .ok opts)
    (hR : env.ReduceBondAmount mpd.MinipoolAddress opts = .ok txInfo)
    (hS : txInfo.SimulationResult.SimulationError ≠ "") :
    ∀ sub, (createReduceBondTx env mpd).1 ≠ .ok sub := by
  intro sub h
  obtain ⟨h1, opts1, h2, h3⟩ := createReduceBondTx_ok env mpd sub h
  rw [hT] at h2
  simp only [Except.ok.injEq] at h2
  subst h2
  rw [hR] at h3
  simp only [Except.ok.injEq] at h3
  subst h3
  exact hS h1

theorem createReduceBondTx_simulated (env : Env) (mpd : NativeMinipoolDetails)
    (a : Address) (h : Event.simulateReduceBond a ∈ (createReduceBondTx env mpd).2) :
    a = mpd.MinipoolAddress := by
  unfold createReduceBondTx at h
  cases hT : env.GetTransactor with
  | error e => simp [hT] at h
  | ok opts =>
    simp only [hT] at h
    cases hN : NewMinipoolFromVersion env mpd.MinipoolAddress mpd.Version with
    | error e => simp [hN] at h
    | ok mp =>
      simp only [hN] at h
      cases hG : GetMinipoolAsV3 mp with
      | none => simp [hG] at h
      | some a1 =>
        have ha := getMinipoolAsV3_binding env _ _ mp a1 hN hG
        subst ha
        simp only [hG] at h
        repeat' split at h
        all_goals simpa using h

theorem createReduceBondTxs_ok (env : Env) :
    ∀ (l : List NativeMinipoolDetails) (subs : List TransactionSubmission),
      (createReduceBondTxs env l).1 = .ok subs →
      List.Forall₂ (fun mpd sub => (createReduceBondTx env mpd).1 = .ok sub) l subs := by
  intro l
  induction l with
  | nil =>
    intro subs h
    simp only [createReduceBondTxs, Except.ok.injEq] at h
    subst h
    exact List.Forall₂.nil
  | cons x rest ih =>
    intro subs h
    simp only [createReduceBondTxs] at h
    rcases hx : createReduceBondTx env x with ⟨r, tr⟩
    cases r with
    | error f => simp [hx] at h
    | ok sub =>
      simp only [hx] at h
      rcases hr : createReduceBondTxs env rest with ⟨r2, tr2⟩
      cases r2 with
      | error f => simp [hr] at h
      | ok subs2 =>
        simp only [hr, Except.ok.injEq] at h
        subst h
        refine List.Forall₂.cons ?_ (ih subs2 (by rw [hr]))
        rw [hx]

theorem createReduceBondTxs_reverted (env : Env) (opts : TransactOpts)
    (hT : env.GetTransactor = .ok opts) (a : Address) (txInfo : TransactionInfo)
    (hR : env.ReduceBondAmount a opts = .ok txInfo)
    (hS : txInfo.SimulationResult.SimulationError ≠ "") :
    ∀ (l : List NativeMinipoolDetails),
      Event.simulateReduceBond a ∈ (createReduceBondTxs env l).2 →
      ∃ f, (createReduceBondTxs env l).1 = .error f := by
  intro l
  induction l with
  | nil => intro h; simp [createReduceBondTxs] at h
  | cons x rest ih =>
    intro h
    simp only [createReduceBondTxs] at h ⊢
    have hsim := createReduceBondTx_simulated env x a
    have hrev := createReduceBondTx_reverted env x opts txInfo hT
    rcases hx : createReduceBondTx env x with ⟨r, tr⟩
    rw [hx] at hsim hrev
    cases r with
    | error f => exact ⟨f, rfl⟩
    | ok sub =>
      simp only [hx] at h ⊢
      rcases hr : createReduceBondTxs env rest with ⟨r2, tr2⟩
      rw [hr] at ih
      cases r2 with
      | error f => exact ⟨f, rfl⟩
      | ok subs2 =>
        exfalso
        simp only [hr] at h
        rcases List.mem_append.mp h with h | h
        · have ha := hsim h
          subst ha
          exact hrev hR hS sub rfl
        · obtain ⟨f, hf⟩ := ih h
          simp at hf

/-! ## Lemmas on `Run` -/

theorem stage_ne_of_mem_append (tr1 tr2 : List Event) (st1 st2 st : Stage)
    (h1 : ∀ ev ∈ tr1, ev.stage = st1) (h2 : ∀ ev ∈ tr2, ev.stage = st2)
    (n1 : st1 ≠ st) (n2 : st2 ≠ st) : ∀ ev ∈ tr1 ++ tr2, ev.stage ≠ st := by
  intro ev hev
  rcases List.mem_append.mp hev with h | h
  · rw [h1 ev h]; exact n1
  · rw [h2 ev h]; exact n2

/-- A call of `reduceBonds` in the run: the minipools were selected, every
submission was prepared, and the run ends as `reduceBonds` does. -/
theorem runSelected_reduce (env : Env) (state : NetworkState) (opts : CallOpts)
    (now : Int) (ev : Event) (hev : ev ∈ (runSelected env state opts now).2)
    (hst : ev.stage = Stage.reduce) :
    ∃ ms bs subs,
      (getReduceableMinipools env env.nodeAddress state.BondReductionWindowStart
        state.BondReductionWindowLength now state opts).1 = .ok (ms, bs) ∧
      (createReduceBondTxs env ms).1 = .ok subs ∧
      ev ∈ (reduceBonds env subs bs (durAdd state.BondReductionWindowStart
        state.BondReductionWindowLength) now).2 ∧
      ((reduceBonds env subs bs (durAdd state.BondReductionWindowStart
        state.BondReductionWindowLength) now).1 = .ok () →
        (runSelected env state opts now).1 = .ok ()) ∧
      (∀ ev2 ∈ (runSelected env state opts now).2, ev2.stage = Stage.reduce →
        ev2 ∈ (reduceBonds env subs bs (durAdd state.BondReductionWindowStart
          state.BondReductionWindowLength) now).2) := by
  have h1 := getReduceableMinipools_stage env env.nodeAddress
    state.BondReductionWindowStart state.BondReductionWindowLength now state opts
  have h2 := (forceFeeDistribution_calls env state).1
  have hev0 := hev
  simp only [runSelected] at hev
  rcases hS : getReduceableMinipools env env.nodeAddress state.BondReductionWindowStart
    state.BondReductionWindowLength now state opts with ⟨r1, tr1⟩
  rw [hS] at h1
  simp only [hS] at hev
  cases r1 with
  | error f =>
    exfalso
    have := h1 ev hev
    rw [hst] at this
    cases this
  | ok p =>
    obtain ⟨ms, bs⟩ := p
    simp only at h1 hev
    by_cases hlen : ms.length = 0
    · exfalso
      rw [if_pos hlen] at hev
      have := h1 ev hev
      rw [hst] at this
      cases this
    · rw [if_neg hlen] at hev
      rcases hF : forceFeeDistribution env state with ⟨r2, tr2⟩
      rw [hF] at h2
      simp only at h2
      simp only [hF] at hev
      have h12 := stage_ne_of_mem_append tr1 tr2 _ _ Stage.reduce h1 h2
        (by decide) (by decide)
      cases r2 with
      | error f => exact absurd hst (h12 ev hev)
      | ok b =>
        cases b with
        | false => exact absurd hst (h12 ev hev)
        | true =>
          simp only at hev
          have h3 := createReduceBondTxs_stage env ms
          rcases hC : createReduceBondTxs env ms with ⟨r3, tr3⟩
          rw [hC] at h3
          simp only at h3
          simp only [hC] at hev
          have h123 : ∀ ev ∈ tr1 ++ tr2 ++ tr3, ev.stage ≠ Stage.reduce := by
            intro ev hm
            rcases List.mem_append.mp hm with h | h
            · exact h12 ev h
            · rw [h3 ev h]; decide
          cases r3 with
          | error f => exact absurd hst (h123 ev hev)
          | ok subs =>
            simp only at hev
            rcases hRB : reduceBonds env subs bs (durAdd state.BondReductionWindowStart
              state.BondReductionWindowLength) now with ⟨r4, tr4⟩
            simp only [hRB] at hev
            have key : ∀ ev2 ∈ tr1 ++ tr2 ++ tr3 ++ tr4, ev2.stage = Stage.reduce →
                ev2 ∈ tr4 := by
              intro ev2 hm hs
              rcases List.mem_append.mp hm with h | h
              · exact absurd hs (h123 ev2 h)
              · exact h
            have hshape : (runSelected env state opts now).2 = tr1 ++ tr2 ++ tr3 ++ tr4 ∧
                (r4 = .ok () → (runSelected env state opts now).1 = .ok ()) := by
              simp only [runSelected, hS, hlen, if_false, hF, hC, hRB]
              cases r4 with
              | error f => cases f <;> simp
              | ok u => simp
            rw [hshape.1] at hev0
            refine ⟨ms, bs, subs, rfl, by rw [hC], ?_, ?_, ?_⟩
            · rw [hRB]
              exact key ev hev0 hst
            · rw [hRB]
              exact hshape.2
            · intro ev2 hm hs
              rw [hshape.1] at hm
              rw [hRB]
              exact key ev2 hm hs

/-- The ways `runSelected` can go, with the result and the calls of each. -/
theorem runSelected_shape (env : Env) (state : NetworkState) (opts : CallOpts)
    (now : Int) :
    (∃ f tr1,
      getReduceableMinipools env env.nodeAddress state.BondReductionWindowStart
        state.BondReductionWindowLength now state opts = (.error f, tr1) ∧
      runSelected env state opts now = (.error f, tr1)) ∨
    (∃ ms bs tr1,
      getReduceableMinipools env env.nodeAddress state.BondReductionWindowStart
        state.BondReductionWindowLength now state opts = (.ok (ms, bs), tr1) ∧
      ((ms.length = 0 ∧ runSelected env state opts now = (.ok (), tr1)) ∨
       (ms.length ≠ 0 ∧ ∃ tr2,
        ((∃ f, forceFeeDistribution env state = (.error f, tr2) ∧
            runSelected env state opts now = (.error f, tr1 ++ tr2)) ∨
         (forceFeeDistribution env state = (.ok false, tr2) ∧
            runSelected env state opts now = (.ok (), tr1 ++ tr2)) ∨
         (forceFeeDistribution env state = (.ok true, tr2) ∧ ∃ tr3,
            ((∃ f, createReduceBondTxs env ms = (.error f, tr3) ∧
                runSelected env state opts now = (.error f, tr1 ++ tr2 ++ tr3)) ∨
             (∃ subs r4 tr4, createReduceBondTxs env ms = (.ok subs, tr3) ∧
                reduceBonds env subs bs (durAdd state.BondReductionWindowStart
                  state.BondReductionWindowLength) now = (r4, tr4) ∧
                (runSelected env state opts now).2 = tr1 ++ tr2 ++ tr3 ++ tr4 ∧
                (r4 = .ok () → (runSelected env state opts now).1 = .ok ()) ∧
                (∀ f, r4 = .error f →
                  ∃ g, (runSelected env state opts now).1 = .error g)))))))) := by
  rcases hS : getReduceableMinipools env env.nodeAddress state.BondReductionWindowStart
    state.BondReductionWindowLength now state opts with ⟨r1, tr1⟩
  cases r1 with
  | error f =>
    left
    exact ⟨f, tr1, rfl, by simp only [runSelected, hS]⟩
  | ok p =>
    obtain ⟨ms, bs⟩ := p
    right
    refine ⟨ms, bs, tr1, rfl, ?_⟩
    by_cases hlen : ms.length = 0
    · left
      exact ⟨hlen, by simp only [runSelected, hS, hlen, if_true]⟩
    · right
      refine ⟨hlen, ?_⟩
      rcases hF : forceFeeDistribution env state with ⟨r2, tr2⟩
      refine ⟨tr2, ?_⟩
      cases r2 with
      | error f =>
        left
        exact ⟨f, rfl, by simp only [runSelected, hS, hlen, if_false, hF]⟩
      | ok b =>
        cases b with
        | false =>
          right; left
          exact ⟨rfl, by simp only [runSelected, hS, hlen, if_false, hF]⟩
        | true =>
          right; right
          refine ⟨rfl, ?_⟩
          rcases hC : createReduceBondTxs env ms with ⟨r3, tr3⟩
          refine ⟨tr3, ?_⟩
          cases r3 with
          | error f =>
            left
            exact ⟨f, rfl, by simp only [runSelected, hS, hlen, if_false, hF, hC]⟩
          | ok subs =>
            right
            rcases hRB : reduceBonds env subs bs (durAdd state.BondReductionWindowStart
              state.BondReductionWindowLength) now with ⟨r4, tr4⟩
            refine ⟨subs, r4, tr4, rfl, hRB, ?_⟩
            simp only [runSelected, hS, hlen, if_false, hF, hC, hRB]
            cases r4 with
            | error f => cases f <;> simp
            | ok u => simp

/-- The ways `Run` can go before the minipools are selected. -/
theorem Run_shape (env : Env) (state : NetworkState) :
    Run env state = (.ok (), []) ∨
    (∃ f, Run env state = (.error f, [Event.headerByNumber (some state.ElBlockNumber)])) ∨
    (∃ time, env.HeaderByNumber (some state.ElBlockNumber) = .ok time ∧
      Run env state = after [Event.headerByNumber (some state.ElBlockNumber)]
        (runSelected env state { BlockNumber := some state.ElBlockNumber } (wrap64 time))) := by
  unfold Run
  by_cases hthr : F64.eq env.AutoTxGasThreshold (F64.ofNat 0) = true
  · left
    rw [if_pos hthr]
  · right
    rw [if_neg hthr]
    simp only
    cases hH : env.HeaderByNumber (some state.ElBlockNumber) with
    | error e => left; exact ⟨_, rfl⟩
    | ok time =>
      cases hM : env.NewMinipoolManager with
      | some e => left; exact ⟨_, rfl⟩
      | none => right; exact ⟨time, rfl, rfl⟩

/-- A call of a later step in the trace of `Run` is a call of `runSelected`,
and `Run` ends as `runSelected` does. -/
theorem Run_selected (env : Env) (state : NetworkState) (ev : Event)
    (hev : ev ∈ (Run env state).2) (hst : ev.stage ≠ Stage.header) :
    ∃ time, env.HeaderByNumber (some state.ElBlockNumber) = .ok time ∧
      (Run env state).1 =
        (runSelected env state { BlockNumber := some state.ElBlockNumber } (wrap64 time)).1 ∧
      (Run env state).2 = Event.headerByNumber (some state.ElBlockNumber) ::
        (runSelected env state { BlockNumber := some state.ElBlockNumber } (wrap64 time)).2 ∧
      ev ∈ (runSelected env state { BlockNumber := some state.ElBlockNumber }
        (wrap64 time)).2 := by
  rcases Run_shape env state with h | ⟨f, h⟩ | ⟨time, hH, h⟩
  · rw [h] at hev; simp at hev
  · rw [h] at hev
    simp only [List.mem_singleton] at hev
    subst hev
    exact absurd rfl hst
  · refine ⟨time, hH, by rw [h]; rfl, by rw [h]; rfl, ?_⟩
    rw [h] at hev
    simp only [after, List.singleton_append, List.mem_cons] at hev
    rcases hev with hev | hev
    · subst hev
      exact absurd rfl hst
    · exact hev

theorem createReduceBondTxs_no_error (env : Env) (ms : List NativeMinipoolDetails)
    (subs : List TransactionSubmission)
    (hall : List.Forall₂
      (fun mpd sub => (createReduceBondTx env mpd).1 = .ok sub) ms subs) :
    ∀ sub ∈ subs, sub.TxInfo.SimulationResult.SimulationError = "" := by
  induction hall with
  | nil => intro sub hsub; simp at hsub
  | cons hhead _ ih =>
    intro sub hsub
    rcases List.mem_cons.mp hsub with e | hm
    · subst e
      exact (createReduceBondTx_ok env _ _ hhead).1
    · exact ih sub hm

/-- A call of `forceFeeDistribution` in the run; when that function returns
`false`, the run ends with `nil` and without a submission. -/
theorem runSelected_feeDistribution (env : Env) (state : NetworkState) (opts : CallOpts)
    (now : Int) (ev : Event) (hev : ev ∈ (runSelected env state opts now).2)
    (hst : ev.stage = Stage.feeDistribution) :
    ev ∈ (forceFeeDistribution env state).2 ∧
    ((forceFeeDistribution env state).1 = .ok false →
      (∀ ev2 ∈ (forceFeeDistribution env state).2, ev2.isSubmission = false) →
      (runSelected env state opts now).1 = .ok () ∧
      ∀ ev2 ∈ (runSelected env state opts now).2, ev2.isSubmission = false) := by
  have hs1 := getReduceableMinipools_trace env env.nodeAddress
    state.BondReductionWindowStart state.BondReductionWindowLength now state opts
  have hsel : ∀ (tr1 : List Event),
      (∀ ev ∈ tr1, ∃ n, ev = Event.batchQuery n opts.BlockNumber) → ev ∉ tr1 := by
    intro tr1 g hm
    obtain ⟨n, hn⟩ := g ev hm
    subst hn
    simp [Event.stage] at hst
  rcases runSelected_shape env state opts now with
    ⟨f, tr1, hS1, hrun⟩ | ⟨ms, bs, tr1, hS1, hrest⟩
  · rw [hS1] at hs1
    rw [hrun] at hev
    exact absurd hev (hsel tr1 hs1)
  · rw [hS1] at hs1
    simp only at hs1
    rcases hrest with ⟨_, hrun⟩ | ⟨_, tr2, hrest⟩
    · rw [hrun] at hev
      exact absurd hev (hsel tr1 hs1)
    · rcases hrest with ⟨f, hF, hrun⟩ | ⟨hF, hrun⟩ | ⟨hF, tr3, hrest⟩
      · rw [hrun] at hev
        rw [hF]
        rcases List.mem_append.mp hev with h | h
        · exact absurd h (hsel tr1 hs1)
        · exact ⟨h, by intro hc; simp at hc⟩
      · rw [hrun] at hev
        rw [hF, hrun]
        rcases List.mem_append.mp hev with h | h
        · exact absurd h (hsel tr1 hs1)
        · refine ⟨h, ?_⟩
          intro _ hno
          refine ⟨rfl, ?_⟩
          intro ev2 hm
          rcases List.mem_append.mp hm with h2 | h2
          · obtain ⟨n, hn⟩ := hs1 ev2 h2
            subst hn
            rfl
          · exact hno ev2 h2
      · rw [hF]
        have hs3 := createReduceBondTxs_stage env ms
        have hin : ev ∈ tr1 ++ tr2 ++ tr3 → ev ∈ tr2 := by
          intro hm
          rcases List.mem_append.mp hm with h | h
          · rcases List.mem_append.mp h with h | h
            · exact absurd h (hsel tr1 hs1)
            · exact h
          · exfalso
            rcases hrest with ⟨f, hC, _⟩ | ⟨subs, r4, tr4, hC, _, _, _, _⟩
            all_goals
              rw [hC] at hs3
              have := hs3 ev h
              rw [hst] at this
              cases this
        rcases hrest with ⟨f, hC, hrun⟩ | ⟨subs, r4, tr4, hC, hRB, htr, _, _⟩
        · rw [hrun] at hev
          exact ⟨hin hev, by intro hc; simp at hc⟩
        · rw [htr] at hev
          have hs4 := reduceBonds_stage env subs bs (durAdd state.BondReductionWindowStart
            state.BondReductionWindowLength) now
          rw [hRB] at hs4
          rcases List.mem_append.mp hev with h | h
          · exact ⟨hin h, by intro hc; simp at hc⟩
          · have := hs4 ev h
            rw [hst] at this
            cases this

/-! ## The gas threshold, reverts and deferral in `Run` -/

/-- C7: when the configured automatic-transaction gas threshold is `0` (Go's
`t.gasThreshold == 0`), `Run` returns `nil` at once and makes no call at all:
it reads no header, queries no minipool, estimates no gas and submits
nothing, whatever the network state. -/
theorem Run_disabled (env : Env) (state : NetworkState)
    (h : F64.eq env.AutoTxGasThreshold (F64.ofNat 0) = true) :
    Run env state = (.ok (), []) := by
  unfold Run
  rw [if_pos h]

theorem Run_disabled_witness : Run disabledEnv twoMinipools = (.ok (), []) :=
  Run_disabled disabledEnv twoMinipools (by decide)

/-- C8: a candidate whose simulation reports a revert is never submitted.
When `createReduceBondTx` gets a transaction info with a non-empty
`SimulationError` it returns no submission (it returns an error); every
submission it does return has an empty `SimulationError`; and every batch that
`Run` hands to `PrintAndWaitForTransactionBatch` consists, one by one, of
submissions that `createReduceBondTx` returned for a minipool, none of them
with a `SimulationError`. -/
theorem reverted_never_submitted (env : Env) (state : NetworkState) :
    (∀ mpd opts txInfo, env.GetTransactor = .ok opts →
      env.ReduceBondAmount mpd.MinipoolAddress opts = .ok txInfo →
      txInfo.SimulationResult.SimulationError ≠ "" →
      ∃ f, (createReduceBondTx env mpd).1 = .error f) ∧
    (∀ mpd sub, (createReduceBondTx env mpd).1 = .ok sub →
      sub.TxInfo.SimulationResult.SimulationError = "") ∧
    (∀ subs cbs o, Event.submitBatch subs cbs o ∈ (Run env state).2 →
      (∃ ms, List.Forall₂
        (fun mpd sub => (createReduceBondTx env mpd).1 = .ok sub) ms subs) ∧
      ∀ sub ∈ subs, sub.TxInfo.SimulationResult.SimulationError = "") := by
  refine ⟨?_, ?_, ?_⟩
  · intro mpd opts txInfo hT hR hS
    have hne := createReduceBondTx_reverted env mpd opts txInfo hT hR hS
    cases hc : (createReduceBondTx env mpd).1 with
    | error f => exact ⟨f, rfl⟩
    | ok sub => exact absurd hc (hne sub)
  · intro mpd sub h
    exact (createReduceBondTx_ok env mpd sub h).1
  · intro subs cbs o hev
    obtain ⟨time, _, _, _, hsel⟩ := Run_selected env state _ hev (by simp [Event.stage])
    obtain ⟨ms, bs, subs1, _, hC, hrb, _, _⟩ :=
      runSelected_reduce env state _ _ _ hsel rfl
    have heq := (reduceBonds_submitted env subs1 bs _ _ subs cbs o hrb).1
    subst heq
    have hall := createReduceBondTxs_ok env ms subs hC
    exact ⟨⟨ms, hall⟩, createReduceBondTxs_no_error env ms subs hall⟩

theorem reverted_never_submitted_witness :
    (∃ f, (createReduceBondTx revertEnv (stakingMinipool 11 sixteenEth)).1 = .error f) ∧
    ∀ ev ∈ (Run revertEnv twoMinipools).2, ev.isSubmission = false :=
  ⟨(reverted_never_submitted revertEnv twoMinipools).1 (stakingMinipool 11 sixteenEth)
      { GasFeeCap := none, GasTipCap := none, GasLimit := 0 }
      { To := 11, SimulationResult :=
          { okSimulation with SimulationError := "execution reverted" } }
      (by decide) (by decide) (by decide),
    by set_option maxRecDepth 100000 in decide⟩

/-- C9, counterexample: both minipools are selected, the simulation of the
first succeeds and the one of the second reverts, the gas checks would
approve; `Run` returns the error of the second and makes no further call:
the first candidate is not submitted either. -/
theorem revert_aborts_run :
    (∃ sub, (createReduceBondTx revertEnv (stakingMinipool 10 sixteenEth)).1 = .ok sub) ∧
    Run revertEnv twoMinipools =
      (.error (.error
        "simulating reduce bond TX for minipool 0xb failed: execution reverted"),
        [Event.headerByNumber (some 500), Event.batchQuery 2 (some 500),
          Event.balanceAt 77 none, Event.queryNodeShare 77 none,
          Event.simulateReduceBond 10, Event.simulateReduceBond 11]) := by
  refine ⟨⟨_, rfl⟩, ?_⟩
  set_option maxRecDepth 100000 in decide

/-- C9, as amended: a simulation revert of one candidate ends the run. When
`Run` simulates the bond reduction of a minipool and the simulation reports a
revert, `Run` returns an error and never reaches `reduceBonds`: no gas check
of the batch and no submission, for the reverting candidate and for the
others alike. -/
theorem Run_aborts_on_revert (env : Env) (state : NetworkState) (a : Address)
    (opts : TransactOpts) (txInfo : TransactionInfo)
    (hsim : Event.simulateReduceBond a ∈ (Run env state).2)
    (hT : env.GetTransactor = .ok opts)
    (hR : env.ReduceBondAmount a opts = .ok txInfo)
    (hS : txInfo.SimulationResult.SimulationError ≠ "") :
    (∃ f, (Run env state).1 = .error f) ∧
    ∀ ev ∈ (Run env state).2, ev.stage ≠ Stage.reduce := by
  obtain ⟨time, _, h1, h2, hsel⟩ := Run_selected env state _ hsim (by simp [Event.stage])
  rw [h1, h2]
  have hrev := createReduceBondTxs_reverted env opts hT a txInfo hR hS
  have hs1 := getReduceableMinipools_stage env env.nodeAddress
    state.BondReductionWindowStart state.BondReductionWindowLength (wrap64 time) state
    { BlockNumber := some state.ElBlockNumber }
  have hs2 := (forceFeeDistribution_calls env state).1
  have hnot : ∀ (tr1 tr2 : List Event), (∀ ev ∈ tr1, ev.stage = Stage.select) →
      (∀ ev ∈ tr2, ev.stage = Stage.feeDistribution) →
      Event.simulateReduceBond a ∉ tr1 ++ tr2 := by
    intro tr1 tr2 g1 g2 hm
    have := stage_ne_of_mem_append tr1 tr2 _ _ Stage.prepare g1 g2 (by decide) (by decide)
      _ hm
    exact this rfl
  rcases runSelected_shape env state { BlockNumber := some state.ElBlockNumber }
    (wrap64 time) with ⟨f, tr1, hS1, hrun⟩ | ⟨ms, bs, tr1, hS1, hrest⟩
  · rw [hS1] at hs1
    rw [hrun] at hsel
    have := hs1 _ hsel
    simp [Event.stage] at this
  · rw [hS1] at hs1
    simp only at hs1
    rcases hrest with ⟨_, hrun⟩ | ⟨_, tr2, hrest⟩
    · rw [hrun] at hsel
      have := hs1 _ hsel
      simp [Event.stage] at this
    · rcases hrest with ⟨f, hF, hrun⟩ | ⟨hF, hrun⟩ | ⟨hF, tr3, hrest⟩
      · rw [hF] at hs2
        rw [hrun] at hsel
        exact absurd hsel (hnot tr1 tr2 hs1 hs2)
      · rw [hF] at hs2
        rw [hrun] at hsel
        exact absurd hsel (hnot tr1 tr2 hs1 hs2)
      · rw [hF] at hs2
        simp only at hs2
        have hs3 := createReduceBondTxs_stage env ms
        rcases hrest with ⟨f, hC, hrun⟩ | ⟨subs, r4, tr4, hC, hRB, htr, _, _⟩
        · rw [hC] at hs3
          simp only at hs3
          rw [hrun]
          refine ⟨⟨f, rfl⟩, ?_⟩
          intro ev hm
          rcases List.mem_cons.mp hm with e | hm
          · subst e; simp [Event.stage]
          · rcases List.mem_append.mp hm with h | h
            · exact stage_ne_of_mem_append tr1 tr2 _ _ Stage.reduce hs1 hs2
                (by decide) (by decide) ev h
            · rw [hs3 ev h]; decide
        · exfalso
          have hrev := hrev ms
          rw [hC] at hs3 hrev
          simp only at hs3 hrev
          rw [htr] at hsel
          have hs4 := reduceBonds_stage env subs bs (durAdd state.BondReductionWindowStart
            state.BondReductionWindowLength) (wrap64 time)
          rw [hRB] at hs4
          simp only at hs4
          rcases List.mem_append.mp hsel with h | h
          · rcases List.mem_append.mp h with h | h
            · exact hnot tr1 tr2 hs1 hs2 h
            · obtain ⟨f, hf⟩ := hrev h
              simp at hf
          · have := hs4 _ h
            simp [Event.stage] at this

theorem Run_aborts_on_revert_witness :
    (∃ f, (Run revertEnv twoMinipools).1 = .error f) ∧
    ∀ ev ∈ (Run revertEnv twoMinipools).2, ev.stage ≠ Stage.reduce :=
  Run_aborts_on_revert revertEnv twoMinipools 11
    { GasFeeCap := none, GasTipCap := none, GasLimit := 0 }
    { To := 11, SimulationResult :=
        { okSimulation with SimulationError := "execution reverted" } }
    (by set_option maxRecDepth 100000 in decide) (by decide) (by decide) (by decide)

/-- C10: deferral by the gas threshold is not an error. If the gas check of the
batch rejects, `reduceBonds` returns `nil` and submits nothing (no callback is
built: callbacks exist only in a submitted batch), and `Run` returns `nil`
without submitting a batch. If the gas check of the fee distribution rejects,
`forceFeeDistribution` returns `(false, nil)` without submitting, and `Run`
returns `nil` without submitting anything. -/
theorem gas_deferral_is_not_an_error (env : Env) (state : NetworkState) :
    (∀ subs mps wd now subs1 thr fee,
      Event.gasCheckBatch subs1 thr fee false ∈ (reduceBonds env subs mps wd now).2 →
      (reduceBonds env subs mps wd now).1 = .ok () ∧
      ∀ ev ∈ (reduceBonds env subs mps wd now).2, ev.isSubmission = false) ∧
    (∀ subs1 thr fee,
      Event.gasCheckBatch subs1 thr fee false ∈ (Run env state).2 →
      (Run env state).1 = .ok () ∧
      ∀ subs cbs o, Event.submitBatch subs cbs o ∉ (Run env state).2) ∧
    (∀ sim thr fee lim,
      Event.gasCheck sim thr fee lim false ∈ (forceFeeDistribution env state).2 →
      (forceFeeDistribution env state).1 = .ok false ∧
      ∀ ev ∈ (forceFeeDistribution env state).2, ev.isSubmission = false) ∧
    (∀ sim thr fee lim,
      Event.gasCheck sim thr fee lim false ∈ (Run env state).2 →
      (Run env state).1 = .ok () ∧
      ∀ ev ∈ (Run env state).2, ev.isSubmission = false) := by
  refine ⟨?_, ?_, (forceFeeDistribution_calls env state).2, ?_⟩
  · intro subs mps wd now subs1 thr fee hev
    exact reduceBonds_rejected env subs mps wd now subs1 thr fee hev
  · intro subs1 thr fee hev
    obtain ⟨time, _, h1, h2, hsel⟩ := Run_selected env state _ hev (by simp [Event.stage])
    obtain ⟨ms, bs, subs, _, _, hrb, hok, hall⟩ :=
      runSelected_reduce env state _ _ _ hsel rfl
    have hrej := reduceBonds_rejected env subs bs _ _ subs1 thr fee hrb
    refine ⟨by rw [h1]; exact hok hrej.1, ?_⟩
    intro subs2 cbs o hm
    rw [h2] at hm
    rcases List.mem_cons.mp hm with e | hm
    · cases e
    · have := hrej.2 _ (hall _ hm rfl)
      simp [Event.isSubmission] at this
  · intro sim thr fee lim hev
    obtain ⟨time, _, h1, h2, hsel⟩ := Run_selected env state _ hev (by simp [Event.stage])
    obtain ⟨hin, hrun⟩ := runSelected_feeDistribution env state _ _ _ hsel rfl
    obtain ⟨hfalse, hno⟩ := (forceFeeDistribution_calls env state).2 sim thr fee lim hin
    obtain ⟨hres, hsub⟩ := hrun hfalse hno
    refine ⟨by rw [h1]; exact hres, ?_⟩
    intro ev hm
    rw [h2] at hm
    rcases List.mem_cons.mp hm with e | hm
    · subst e; rfl
    · exact hsub ev hm

theorem gas_deferral_is_not_an_error_witness :
    ((Run (deferEnv 0) twoMinipools).1 = .ok () ∧
      ∀ subs cbs o, Event.submitBatch subs cbs o ∉ (Run (deferEnv 0) twoMinipools).2) ∧
    ((Run (deferEnv 5) twoMinipools).1 = .ok () ∧
      ∀ ev ∈ (Run (deferEnv 5) twoMinipools).2, ev.isSubmission = false) :=
  ⟨(gas_deferral_is_not_an_error (deferEnv 0) twoMinipools).2.1
      [{ TxInfo := { To := 10, SimulationResult := okSimulation }, GasLimit := 150000 },
        { TxInfo := { To := 11, SimulationResult := okSimulation }, GasLimit := 150000 }]
      (F64.ofNat 100) 20000000000 (by set_option maxRecDepth 100000 in decide),
    (gas_deferral_is_not_an_error (deferEnv 5) twoMinipools).2.2.2
      okSimulation (F64.ofNat 100) 20000000000 150000
      (by set_option maxRecDepth 100000 in decide)⟩

/-! ## The state filter of the proposal list -/

theorem splitChars_ne_nil (sep : Char) : ∀ s : List Char, splitChars sep s ≠ [] := by
  intro s
  induction s with
  | nil => simp [splitChars]
  | cons c cs ih =>
    simp only [splitChars]
    split
    · simp
    · split <;> simp

/-- Joining the parts with the separator gives the string back. -/
theorem splitChars_intercalate (sep : Char) :
    ∀ s : List Char, List.intercalate [sep] (splitChars sep s) = s := by
  intro s
  induction s with
  | nil => simp [splitChars, List.intercalate]
  | cons c cs ih =>
    simp only [splitChars]
    by_cases hc : c = sep
    · subst hc
      simp only [if_true]
      cases hs : splitChars c cs with
      | nil => exact absurd hs (splitChars_ne_nil c cs)
      | cons p ps =>
        rw [hs] at ih
        simp only [List.intercalate, List.intersperse] at ih ⊢
        simp [ih]
    · simp only [hc, if_false]
      cases hs : splitChars sep cs with
      | nil => exact absurd hs (splitChars_ne_nil sep cs)
      | cons p ps =>
        rw [hs] at ih
        simp only
        cases ps with
        | nil =>
          simp only [List.intercalate, List.intersperse] at ih ⊢
          rw [← ih]
          simp
        | cons p2 ps2 =>
          simp only [List.intercalate, List.intersperse] at ih ⊢
          rw [← ih]
          simp

/-- No part contains the separator. -/
theorem splitChars_no_sep (sep : Char) :
    ∀ (s : List Char), ∀ p ∈ splitChars sep s, sep ∉ p := by
  intro s
  induction s with
  | nil => intro p hp; simp [splitChars] at hp; subst hp; simp
  | cons c cs ih =>
    intro p hp
    simp only [splitChars] at hp
    by_cases hc : c = sep
    · simp only [hc, if_true, List.mem_cons] at hp
      rcases hp with h | h
      · subst h; simp
      · exact ih p h
    · simp only [hc, if_false] at hp
      cases hs : splitChars sep cs with
      | nil => exact absurd hs (splitChars_ne_nil sep cs)
      | cons q qs =>
        rw [hs] at hp ih
        simp only [List.mem_cons] at hp
        rcases hp with h | h
        · subst h
          intro hm
          rcases List.mem_cons.mp hm with e | e
          · exact hc e.symm
          · exact ih q (List.mem_cons_self _ _) e
        · exact ih p (List.mem_cons_of_mem _ h)

theorem filterStatesLoop_eq_false (state : String) :
    ∀ parts : List String, filterStatesLoop state parts = false ↔ state ∈ parts := by
  intro parts
  induction parts with
  | nil => simp [filterStatesLoop]
  | cons fs rest ih =>
    simp only [filterStatesLoop, List.mem_cons]
    by_cases h : fs = state
    · simp [h]
    · simp only [h, if_false, ih]
      constructor
      · intro hm; exact Or.inr hm
      · intro hm
        rcases hm with e | hm
        · exact absurd e.symm h
        · exact hm

theorem printedSections_all_filtered (allProposals : List ProtocolDaoProposalDetails)
    (stateFilter : String) :
    ∀ pairs : List (String × String),
      (∀ p ∈ pairs, filterProposalState p.2 stateFilter = true) →
      printedSections allProposals stateFilter pairs = [] := by
  intro pairs
  induction pairs with
  | nil => intro _; rfl
  | cons p rest ih =>
    intro h
    obtain ⟨stateName, input⟩ := p
    have h1 : filterProposalState input stateFilter = true := h _ (List.mem_cons_self _ _)
    have h2 := ih (fun q hq => h q (List.mem_cons_of_mem _ hq))
    simp only [printedSections, h1, if_true, h2]
    split <;> rfl

/-- C19: `filterProposalState` returns `false` (keep) exactly when the filter is
empty or the state equals one of the parts of the filter between its commas,
and `true` in every other case. The empty filter keeps every state, and the
parts are compared as they are: a blank in front or another case does not
match. -/
theorem filterProposalState_keeps_iff (state stateFilter : String) :
    (filterProposalState state stateFilter = false ↔
      stateFilter = "" ∨ state ∈ Split stateFilter ',') ∧
    (filterProposalState state stateFilter = true ↔
      ¬(stateFilter = "" ∨ state ∈ Split stateFilter ',')) ∧
    filterProposalState state "" = false ∧
    filterProposalState "pending" "active,pending" = false ∧
    filterProposalState "pending" "active, pending" = true ∧
    filterProposalState "pending" "Pending" = true := by
  have key : filterProposalState state stateFilter = false ↔
      stateFilter = "" ∨ state ∈ Split stateFilter ',' := by
    unfold filterProposalState
    by_cases h : stateFilter = ""
    · simp [h]
    · simp only [h, if_false, false_or]
      exact filterStatesLoop_eq_false state _
  refine ⟨key, ?_, by simp [filterProposalState], by decide, by decide, by decide⟩
  rw [← key]
  cases filterProposalState state stateFilter <;> simp

/-- The parts that `Split` returns are the filter cut at its commas: joined
with commas they give the filter back, and none of them contains a comma. -/
theorem Split_comma_parts (s : String) :
    List.intercalate [','] ((Split s ',').map String.data) = s.data ∧
    ∀ p ∈ Split s ',', ',' ∉ p.data := by
  constructor
  · have : (Split s ',').map String.data = splitChars ',' s.data := by
      simp [Split, List.map_map, Function.comp_def]
    rw [this]
    exact splitChars_intercalate ',' s.data
  · intro p hp
    simp only [Split, List.mem_map] at hp
    obtain ⟨q, hq, rfl⟩ := hp
    exact splitChars_no_sep ',' s.data q hq

/-- C13, at the failing inputs: `active` and `cancelled` are documented by the
`--states` flag, yet `filterProposalState` rejects every displayed state for
either of them, so `getProposals` prints no section, whatever the proposals
are. The other five documented names are each accepted for one displayed
state. -/
theorem documented_states_not_recognised :
    "active" ∈ documentedStates ∧ "cancelled" ∈ documentedStates ∧
    (∀ input ∈ proposalStateInputs, filterProposalState input "active" = true) ∧
    (∀ input ∈ proposalStateInputs, filterProposalState input "cancelled" = true) ∧
    (∀ allProposals, getProposals allProposals "active" = ([], 0)) ∧
    (∀ allProposals, getProposals allProposals "cancelled" = ([], 0)) ∧
    (∀ n ∈ ["pending", "succeeded", "executed", "defeated", "expired"],
      ∃ input ∈ proposalStateInputs, filterProposalState input n = false) := by
  have ha : ∀ input ∈ proposalStateInputs, filterProposalState input "active" = true := by
    decide
  have hc : ∀ input ∈ proposalStateInputs, filterProposalState input "cancelled" = true := by
    decide
  have hzip : ∀ (f : String), (∀ input ∈ proposalStateInputs, filterProposalState input f = true) →
      ∀ p ∈ proposalStates.zip proposalStateInputs, filterProposalState p.2 f = true := by
    intro f h p hp
    exact h p.2 (List.of_mem_zip hp).2
  refine ⟨by decide, by decide, ha, hc, ?_, ?_, by decide⟩
  · intro allProposals
    simp only [getProposals]
    rw [printedSections_all_filtered allProposals "active" _ (hzip _ ha)]
    rfl
  · intro allProposals
    simp only [getProposals]
    rw [printedSections_all_filtered allProposals "cancelled" _ (hzip _ hc)]
    rfl

/-! ## The Beacon collector -/

theorem countSlot_eq (validatorIndices : List String) (bc : BeaconClient) (slot count : Nat)
    (hc : count < 2 ^ 53) :
    countSlot validatorIndices bc slot count =
      count + if proposedByNode validatorIndices bc slot then 1 else 0 := by
  unfold countSlot proposedByNode
  cases h : bc.GetBeaconBlockHeader slot with
  | error e => simp
  | ok o =>
    cases o with
    | none => simp
    | some block =>
      by_cases hm : block.ProposerIndex ∈ validatorIndices
      · simp only [hm, if_true, decide_True]
        simp only [f64Add, f64OfNat]
        rw [if_pos (by omega)]
      · simp [hm]

theorem proposedBlockLoop_spec (validatorIndices : List String) (bc : BeaconClient)
    (bound : Nat) :
    ∀ (k count : Nat), count + k ≤ 2 ^ 53 →
      proposedBlockLoop validatorIndices bc bound (bound + k) count =
        (count + ((List.range' (bound + 1) k).filter (proposedByNode validatorIndices bc)).length,
          (List.range' (bound + 1) k).reverse) := by
  intro k
  induction k with
  | zero =>
    intro count _
    cases bound with
    | zero => simp [proposedBlockLoop]
    | succ b => simp [proposedBlockLoop]
  | succ k ih =>
    intro count hc
    have hslot : bound + (k + 1) = (bound + k) + 1 := by omega
    rw [hslot]
    simp only [proposedBlockLoop]
    rw [if_pos (by omega)]
    rw [countSlot_eq validatorIndices bc _ count (by omega)]
    rw [ih _ (by split <;> omega)]
    rw [List.range'_concat]
    have hs : bound + 1 + 1 * k = bound + k + 1 := by ring
    rw [hs]
    cases hm : proposedByNode validatorIndices bc (bound + k + 1)
    · simp [List.filter_cons, hm]
    · simp [List.filter_cons, hm]
      omega

/-- From the first finalized epoch on, `getProposedBlockCount` examines each
slot of the epoch once, from the last to the first, and returns the number of
those slots whose header names one of the validators as proposer. -/
theorem getProposedBlockCount_later_epochs (validatorIndices : List String)
    (bc : BeaconClient) (n E : Nat) (hE : 1 ≤ E) (hn : 1 ≤ n) (hn53 : n ≤ 2 ^ 53)
    (hfit : E * n + n - 1 < 2 ^ 64) (hhead : bc.GetBeaconHead = .ok ⟨E⟩) :
    getProposedBlockCount validatorIndices bc n =
      (.ok ((List.range' (E * n) n).filter (proposedByNode validatorIndices bc)).length,
        (List.range' (E * n) n).reverse) := by
  have hEn : n ≤ E * n := Nat.le_mul_of_pos_left n hE
  have h1 : E * n % 2 ^ 64 = E * n := Nat.mod_eq_of_lt (by omega)
  have h2 : (n + 2 ^ 64 - 1) % 2 ^ 64 = n - 1 := by omega
  have h3 : (E * n + (n - 1)) % 2 ^ 64 = E * n + (n - 1) := Nat.mod_eq_of_lt (by omega)
  have h4 : (E * n + (n - 1) + 2 ^ 64 - n) % 2 ^ 64 = E * n - 1 := by omega
  simp only [getProposedBlockCount, hhead, h1, h2, h3, h4]
  have hslot : E * n + (n - 1) = (E * n - 1) + n := by omega
  rw [hslot, proposedBlockLoop_spec validatorIndices bc (E * n - 1) n 0 (by omega)]
  have hb : E * n - 1 + 1 = E * n := by omega
  simp only [hb, Nat.zero_add]

/-- C14, at the failing input: when the finalized epoch is `0`, the bound of the
loop, `latestSlot - slotsPerEpoch`, wraps to `2^64 - 1`, the loop body never
runs, and `getProposedBlockCount` returns `0` without asking for a single
header, for every `slotsPerEpoch` from `1` on and whatever the blocks of epoch
`0` are. -/
theorem getProposedBlockCount_epoch_zero (validatorIndices : List String)
    (bc : BeaconClient) (n : Nat) (hn : 1 ≤ n) (hfit : n < 2 ^ 64)
    (hhead : bc.GetBeaconHead = .ok ⟨0⟩) :
    getProposedBlockCount validatorIndices bc n = (.ok 0, []) := by
  have h2 : (n + 2 ^ 64 - 1) % 2 ^ 64 = n - 1 := by omega
  have h3 : (0 + (n - 1)) % 2 ^ 64 = n - 1 := by omega
  have h4 : (n - 1 + 2 ^ 64 - n) % 2 ^ 64 = 2 ^ 64 - 1 := by omega
  simp only [getProposedBlockCount, hhead, Nat.zero_mul, Nat.zero_mod, h2, h3, h4]
  cases hk : n - 1 with
  | zero => simp [proposedBlockLoop]
  | succ s =>
    simp only [proposedBlockLoop]
    rw [if_neg (by omega)]

theorem getProposedBlockCount_no_error (validatorIndices : List String) (bc : BeaconClient)
    (n : Nat) : ∃ count, (getProposedBlockCount validatorIndices bc n).1 = .ok count := by
  unfold getProposedBlockCount
  cases bc.GetBeaconHead with
  | error e => exact ⟨0, rfl⟩
  | ok head => exact ⟨_, rfl⟩

/-- C15: `Collect` is all-or-nothing. Whatever the state and the answers of the
Beacon client, it sends either no metric or exactly the four metrics active
sync committee, upcoming sync committee, upcoming proposals and recent
proposals, in that order. It sends none when the cached state is nil, and none
when the node has existing validators and one of the three duty queries
returns an error; it sends all four when those three queries succeed, and four
zero-valued metrics when the node has no existing validator. -/
theorem Collect_all_or_nothing (bc : BeaconClient) (nodeAddress : Address)
    (hasNodeAddress : Bool) :
    (∀ state, (Collect state bc nodeAddress hasNodeAddress).getD [] = [] ∨
      ∃ a b c d, Collect state bc nodeAddress hasNodeAddress =
        some [⟨.activeSyncCommittee, a⟩, ⟨.upcomingSyncCommittee, b⟩,
          ⟨.upcomingProposals, c⟩, ⟨.recentProposals, d⟩]) ∧
    Collect none bc nodeAddress hasNodeAddress = some [] ∧
    (∀ state : CollectorState, state.SlotsPerEpoch ≠ 0 →
      existingValidatorIndices state nodeAddress hasNodeAddress ≠ [] →
      ((∃ e, bc.GetValidatorSyncDuties
          (existingValidatorIndices state nodeAddress hasNodeAddress)
          (state.BeaconSlotNumber / state.SlotsPerEpoch) = .error e) ∨
        (∃ e, bc.GetValidatorSyncDuties
          (existingValidatorIndices state nodeAddress hasNodeAddress)
          ((state.BeaconSlotNumber / state.SlotsPerEpoch +
            state.EpochsPerSyncCommitteePeriod) % 2 ^ 64) = .error e) ∨
        (∃ e, bc.GetValidatorProposerDuties
          (existingValidatorIndices state nodeAddress hasNodeAddress)
          (state.BeaconSlotNumber / state.SlotsPerEpoch) = .error e)) →
      Collect (some state) bc nodeAddress hasNodeAddress = some []) ∧
    (∀ (state : CollectorState) active upcoming proposals, state.SlotsPerEpoch ≠ 0 →
      existingValidatorIndices state nodeAddress hasNodeAddress ≠ [] →
      bc.GetValidatorSyncDuties
          (existingValidatorIndices state nodeAddress hasNodeAddress)
          (state.BeaconSlotNumber / state.SlotsPerEpoch) = .ok active →
      bc.GetValidatorSyncDuties
          (existingValidatorIndices state nodeAddress hasNodeAddress)
          ((state.BeaconSlotNumber / state.SlotsPerEpoch +
            state.EpochsPerSyncCommitteePeriod) % 2 ^ 64) = .ok upcoming →
      bc.GetValidatorProposerDuties
          (existingValidatorIndices state nodeAddress hasNodeAddress)
          (state.BeaconSlotNumber / state.SlotsPerEpoch) = .ok proposals →
      ∃ d, Collect (some state) bc nodeAddress hasNodeAddress =
        some [⟨.activeSyncCommittee, countDuties active⟩,
          ⟨.upcomingSyncCommittee, countDuties upcoming⟩,
          ⟨.upcomingProposals, sumDuties proposals⟩, ⟨.recentProposals, d⟩]) ∧
    (∀ state : CollectorState, state.SlotsPerEpoch ≠ 0 →
      existingValidatorIndices state nodeAddress hasNodeAddress = [] →
      Collect (some state) bc nodeAddress hasNodeAddress =
        some [⟨.activeSyncCommittee, 0⟩, ⟨.upcomingSyncCommittee, 0⟩,
          ⟨.upcomingProposals, 0⟩, ⟨.recentProposals, 0⟩]) := by
  refine ⟨?_, rfl, ?_, ?_, ?_⟩
  · intro state
    cases state with
    | none => left; rfl
    | some state =>
      simp only [Collect]
      by_cases h0 : state.SlotsPerEpoch = 0
      · left; simp [h0]
      · simp only [h0, if_false]
        by_cases hv : 0 < (existingValidatorIndices state nodeAddress hasNodeAddress).length
        · simp only [hv, if_true]
          split
          · right; exact ⟨_, _, _, _, rfl⟩
          · left; rfl
        · simp only [hv, if_false]
          right; exact ⟨_, _, _, _, rfl⟩
  · intro state h0 hv herr
    have hv1 : 0 < (existingValidatorIndices state nodeAddress hasNodeAddress).length :=
      List.length_pos.mpr hv
    simp only [Collect, h0, if_false, hv1, if_true]
    split
    · rename_i h1 h2 h3 _
      rcases herr with ⟨e, he⟩ | ⟨e, he⟩ | ⟨e, he⟩
      · rw [he] at h1; cases h1
      · rw [he] at h2; cases h2
      · rw [he] at h3; cases h3
    · rfl
  · intro state active upcoming proposals h0 hv h1 h2 h3
    have hv1 : 0 < (existingValidatorIndices state nodeAddress hasNodeAddress).length :=
      List.length_pos.mpr hv
    obtain ⟨d, hd⟩ := getProposedBlockCount_no_error
      (existingValidatorIndices state nodeAddress hasNodeAddress) bc state.SlotsPerEpoch
    exact ⟨d, by simp only [Collect, h0, if_false, hv1, if_true, h1, h2, h3, hd]⟩
  · intro state h0 hv
    simp only [Collect, h0, if_false, hv, List.length_nil, Nat.lt_irrefl]

/-! ## The lot details of the auction status -/

/-- The binding and the bid that the callback stores for lot `j`. -/
theorem queryLoop_loadLot (chain : AuctionChain) :
    ∀ (n i : Nat) (st st1 : List (Option AuctionLot) × List (Option Int)),
      queryLoop (loadLot chain) n i st = .ok st1 →
      st1.1.length = st.1.length ∧ st1.2.length = st.2.length ∧
      (∀ j, i ≤ j → j < i + n → chain.NewAuctionLot j = none) ∧
      (∀ j, i ≤ j → j < i + n → j < st.1.length →
        st1.1[j]? = some (some
          { Index := j
            Details :=
              { IsCleared := chain.LotIsCleared j
                RemainingRplAmount := chain.LotRemainingRplAmount j
                RplRecovered := chain.LotRplRecovered j } })) ∧
      (∀ j, i ≤ j → j < i + n → j < st.2.length →
        st1.2[j]? = some (some (chain.LotAddressBidAmount j chain.nodeAddress))) ∧
      (∀ j, j < i → st1.1[j]? = st.1[j]? ∧ st1.2[j]? = st.2[j]?) := by
  intro n
  induction n with
  | zero =>
    intro i st st1 h
    simp only [queryLoop, Except.ok.injEq] at h
    subst h
    refine ⟨rfl, rfl, ?_, ?_, ?_, ?_⟩
    · intro j h1 h2; omega
    · intro j h1 h2; omega
    · intro j h1 h2; omega
    · intro j _; exact ⟨rfl, rfl⟩
  | succ n ih =>
    intro i st st1 h
    simp only [queryLoop] at h
    cases hq : loadLot chain i st with
    | error e => simp [hq] at h
    | ok st2 =>
      simp only [hq] at h
      unfold loadLot at hq
      cases hN : chain.NewAuctionLot i with
      | some e => simp [hN] at hq
      | none =>
        simp only [hN, Except.ok.injEq] at hq
        obtain ⟨l1, l2, hnew, hlots, hbids, hold⟩ := ih (i + 1) st2 st1 h
        subst hq
        simp only [List.length_set] at l1 l2 hlots hbids
        refine ⟨l1, l2, ?_, ?_, ?_, ?_⟩
        · intro j h1 h2
          by_cases hj : j = i
          · subst hj; exact hN
          · exact hnew j (by omega) (by omega)
        · intro j h1 h2 h3
          by_cases hj : j = i
          · subst hj
            rw [(hold j (by omega)).1]
            simp [List.getElem?_set, h3]
          · exact hlots j (by omega) (by omega) h3
        · intro j h1 h2 h3
          by_cases hj : j = i
          · subst hj
            rw [(hold j (by omega)).2]
            simp [List.getElem?_set, h3]
          · exact hbids j (by omega) (by omega) h3
        · intro j hj
          have := hold j (by omega)
          rw [this.1, this.2]
          simp only [List.getElem?_set]
          constructor <;> (split <;> first | omega | rfl)

theorem queryLoop_loadLot_total (chain : AuctionChain) :
    ∀ (n i : Nat) (st : List (Option AuctionLot) × List (Option Int)),
      (∀ j, i ≤ j → j < i + n → chain.NewAuctionLot j = none) →
      ∃ st1, queryLoop (loadLot chain) n i st = .ok st1 := by
  intro n
  induction n with
  | zero => intro i st _; exact ⟨st, rfl⟩
  | succ n ih =>
    intro i st h
    have hi := h i (le_refl _) (by omega)
    simp only [queryLoop, loadLot, hi]
    exact ih (i + 1) _ (fun j h1 h2 => h j (by omega) (by omega))

theorem queryLoop_loadLot_fails (chain : AuctionChain) :
    ∀ (n i : Nat) (st : List (Option AuctionLot) × List (Option Int)),
      (∃ j, i ≤ j ∧ j < i + n ∧ chain.NewAuctionLot j ≠ none) →
      ∃ e, queryLoop (loadLot chain) n i st = .error e := by
  intro n i st h
  cases hq : queryLoop (loadLot chain) n i st with
  | error e => exact ⟨e, rfl⟩
  | ok st1 =>
    obtain ⟨j, h1, h2, h3⟩ := h
    exact absurd ((queryLoop_loadLot chain n i st st1 hq).2.2.1 j h1 h2) h3

theorem fillDetails_spec (chain : AuctionChain) (lots : List (Option AuctionLot))
    (addressBids : List (Option Int)) :
    ∀ (n i : Nat) (details : List lotCountDetails),
      i + n ≤ details.length →
      (∀ j, i ≤ j → j < i + n →
        lots[j]? = some (some
          { Index := j
            Details :=
              { IsCleared := chain.LotIsCleared j
                RemainingRplAmount := chain.LotRemainingRplAmount j
                RplRecovered := chain.LotRplRecovered j } }) ∧
        addressBids[j]? = some (some (chain.LotAddressBidAmount j chain.nodeAddress))) →
      ∃ details1, fillDetails lots addressBids n i details = .ok details1 ∧
        details1.length = details.length ∧
        (∀ j, i ≤ j → j < i + n → details1[j]? = some (lotDetailsOf chain j)) ∧
        (∀ j, j < i → details1[j]? = details[j]?) := by
  intro n
  induction n with
  | zero =>
    intro i details _ _
    refine ⟨details, rfl, rfl, ?_, fun j _ => rfl⟩
    intro j h1 h2; omega
  | succ n ih =>
    intro i details hlen h
    obtain ⟨hl, hb⟩ := h i (le_refl _) (by omega)
    simp only [fillDetails, List.getD_eq_getElem?_getD, hl, hb, Option.getD_some]
    obtain ⟨d1, hok, hlen1, hin, hout⟩ := ih (i + 1) (details.set i
      { AddressHasBid := decide (0 < chain.LotAddressBidAmount i chain.nodeAddress)
        Cleared := chain.LotIsCleared i
        HasRemainingRpl := decide (0 < chain.LotRemainingRplAmount i)
        RplRecovered := chain.LotRplRecovered i })
      (by simp only [List.length_set]; omega)
      (fun j h1 h2 => h j (by omega) (by omega))
    refine ⟨d1, hok, by simpa using hlen1, ?_, ?_⟩
    · intro j h1 h2
      by_cases hj : j = i
      · subst hj
        rw [hout j (by omega)]
        have : j < details.length := by omega
        simp [List.getElem?_set, this, lotDetailsOf]
      · exact hin j (by omega) (by omega)
    · intro j hj
      rw [hout j (by omega)]
      simp only [List.getElem?_set]
      split <;> first | omega | rfl

/-- A batched query succeeds exactly when every callback does and, unless there
is no index at all, the reads are carried out. -/
theorem BatchQuery_ok {σ : Type} (count : Nat) (query : Nat → σ → Except String σ)
    (execute : Option String) (init st : σ) :
    BatchQuery count query execute init = .ok st ↔
      queryLoop query count 0 init = .ok st ∧ (0 < count → execute = none) := by
  unfold BatchQuery
  cases hq : queryLoop query count 0 init with
  | error e => simp
  | ok st1 =>
    by_cases h0 : count = 0
    · simp [h0]
    · have hpos : 0 < count := Nat.pos_of_ne_zero h0
      cases he : execute with
      | none => simp [h0]
      | some e => simp [h0, hpos]

/-- A batched query fails when a callback fails, and when there is an index and
the reads cannot be carried out. -/
theorem BatchQuery_fails {σ : Type} (count : Nat) (query : Nat → σ → Except String σ)
    (execute : Option String) (init : σ)
    (h : (∃ e, queryLoop query count 0 init = .error e) ∨ (0 < count ∧ execute ≠ none)) :
    ∃ e, BatchQuery count query execute init = .error e := by
  cases hB : BatchQuery count query execute init with
  | error e => exact ⟨e, rfl⟩
  | ok st =>
    obtain ⟨hq, hexec⟩ := (BatchQuery_ok count query execute init st).mp hB
    rcases h with ⟨e, he⟩ | ⟨hpos, hne⟩
    · rw [hq] at he
      cases he
    · exact absurd (hexec hpos) hne

/-- C16: `getAllLotCountDetails` keeps order and length. For a `lotCount` that
can be the length of a slice: when every lot binding can be made and the
batched reads are carried out (for `lotCount = 0` there are none to carry out),
it returns exactly `lotCount` entries, entry `i` being the details of lot `i`
alone (bid of the node on lot `i` above zero, remaining RPL of lot `i` above
zero, `Cleared` and `RplRecovered` of lot `i`); every result it returns has that
form; when the batched query fails, by a lot binding that cannot be made or by
reads that cannot be carried out, it returns an error and no details; and for
`lotCount = 0` it returns the empty slice. -/
theorem getAllLotCountDetails_order_and_length (chain : AuctionChain) (lotCount : Nat)
    (hcount : lotCount < 2 ^ 63) :
    ((∀ i, i < lotCount → chain.NewAuctionLot i = none) →
      (0 < lotCount → chain.execute = none) →
      getAllLotCountDetails chain lotCount =
        .ok ((List.range lotCount).map (lotDetailsOf chain))) ∧
    (∀ details, getAllLotCountDetails chain lotCount = .ok details →
      details.length = lotCount ∧
      ∀ i, i < lotCount → details[i]? = some (lotDetailsOf chain i)) ∧
    ((∃ i, i < lotCount ∧ chain.NewAuctionLot i ≠ none) ∨
        (0 < lotCount ∧ chain.execute ≠ none) →
      ∃ msg, getAllLotCountDetails chain lotCount = .error (.error msg)) ∧
    (lotCount = 0 → getAllLotCountDetails chain lotCount = .ok []) := by
  have hnot : ¬(2 ^ 63 ≤ lotCount) := by omega
  have hok : ∀ details, getAllLotCountDetails chain lotCount = .ok details →
      details.length = lotCount ∧
      ∀ i, i < lotCount → details[i]? = some (lotDetailsOf chain i) := by
    intro details h
    simp only [getAllLotCountDetails, hnot, if_false] at h
    cases hB : BatchQuery lotCount (loadLot chain) chain.execute
        (List.replicate lotCount none, List.replicate lotCount none) with
    | error e => simp [hB] at h
    | ok st1 =>
      simp only [hB] at h
      have hq := ((BatchQuery_ok _ _ _ _ _).mp hB).1
      obtain ⟨l1, l2, _, hlots, hbids, _⟩ := queryLoop_loadLot chain lotCount 0 _ st1 hq
      simp only [List.length_replicate] at l1 l2 hlots hbids
      obtain ⟨d1, hfill, hlen, hin, _⟩ := fillDetails_spec chain st1.1 st1.2 lotCount 0
        (List.replicate lotCount ⟨false, false, false, false⟩)
        (by simp)
        (fun j h1 h2 => ⟨hlots j h1 h2 (by omega), hbids j h1 h2 (by omega)⟩)
      rw [hfill] at h
      simp only [Except.ok.injEq] at h
      subst h
      refine ⟨by simpa using hlen, ?_⟩
      intro i hi
      exact hin i (Nat.zero_le _) (by omega)
  have hall : (∀ i, i < lotCount → chain.NewAuctionLot i = none) →
      (0 < lotCount → chain.execute = none) →
      getAllLotCountDetails chain lotCount =
        .ok ((List.range lotCount).map (lotDetailsOf chain)) := by
    intro hlot hexec
    obtain ⟨st1, hq⟩ := queryLoop_loadLot_total chain lotCount 0
      (List.replicate lotCount none, List.replicate lotCount none)
      (fun j _ h2 => hlot j (by omega))
    have hB := (BatchQuery_ok lotCount (loadLot chain) chain.execute _ st1).mpr ⟨hq, hexec⟩
    obtain ⟨l1, l2, _, hlots, hbids, _⟩ := queryLoop_loadLot chain lotCount 0 _ st1 hq
    simp only [List.length_replicate] at l1 l2 hlots hbids
    obtain ⟨d1, hfill, hlen, hin, _⟩ := fillDetails_spec chain st1.1 st1.2 lotCount 0
      (List.replicate lotCount ⟨false, false, false, false⟩)
      (by simp)
      (fun j h1 h2 => ⟨hlots j h1 h2 (by omega), hbids j h1 h2 (by omega)⟩)
    have hres : getAllLotCountDetails chain lotCount = .ok d1 := by
      simp only [getAllLotCountDetails, hnot, if_false, hB]
      exact hfill
    rw [hres]
    congr 1
    apply List.ext_getElem?
    intro i
    by_cases hi : i < lotCount
    · rw [hin i (Nat.zero_le _) (by omega)]
      simp [List.getElem?_map, List.getElem?_range, hi]
    · have h1 : d1.length ≤ i := by
        simp only [List.length_replicate] at hlen
        omega
      rw [List.getElem?_eq_none h1, List.getElem?_eq_none (by simp; omega)]
  refine ⟨hall, hok, ?_, ?_⟩
  · intro hfail
    have hq : (∃ e, queryLoop (loadLot chain) lotCount 0
          (List.replicate lotCount none, List.replicate lotCount none) = .error e) ∨
        (0 < lotCount ∧ chain.execute ≠ none) := by
      rcases hfail with hlot | hexec
      · left
        exact queryLoop_loadLot_fails chain lotCount 0
          (List.replicate lotCount none, List.replicate lotCount none)
          (by obtain ⟨i, h1, h2⟩ := hlot; exact ⟨i, Nat.zero_le _, by omega, h2⟩)
      · right
        exact hexec
    obtain ⟨e, he⟩ := BatchQuery_fails lotCount (loadLot chain) chain.execute _ hq
    simp only [getAllLotCountDetails, hnot, if_false, he]
    exact ⟨_, rfl⟩
  · intro h0
    rw [hall (fun i hi => by omega) (fun hpos => by omega)]
    subst h0
    rfl

/-- Truncated division of a non-negative by a positive integer is the floor of
the exact quotient. -/
theorem tdiv_eq_floor (a p : Int) (ha : 0 ≤ a) (hp : 0 < p) :
    a.tdiv p = ⌊(a : ℚ) / (p : ℚ)⌋ := by
  rw [Int.tdiv_eq_ediv ha hp.le]
  obtain ⟨d, rfl⟩ := Int.eq_ofNat_of_zero_le hp.le
  have := Rat.floor_intCast_div_natCast a d
  rw [← this]
  simp

/-- C20: in `PrepareData`, for a non-negative `LotMinimumEthValue`, any
`RemainingRplBalance` and a positive `RplPrice`, once the lot details were
fetched, the call returns `nil`, `data.CanCreateLot` is `true` exactly when
`RemainingRplBalance ≥ floor(LotMinimumEthValue * 10^18 / RplPrice)` (the exact
quotient), and the three balances are copied to `data` as they are. -/
theorem PrepareData_can_create_lot (chain : AuctionChain) (c : AuctionDetails)
    (data : AuctionStatusData) (details : List lotCountDetails)
    (hmin : 0 ≤ c.LotMinimumEthValue) (hprice : 0 < c.RplPrice)
    (hlots : getAllLotCountDetails chain c.LotCount = .ok details) :
    ∃ data1, PrepareData chain c data = .ok data1 ∧
      (data1.CanCreateLot = true ↔
        ⌊((c.LotMinimumEthValue * 10 ^ 18 : Int) : ℚ) / (c.RplPrice : ℚ)⌋ ≤
          c.RemainingRplBalance) ∧
      data1.TotalRplBalance = some c.TotalRplBalance ∧
      data1.AllottedRplBalance = some c.AllottedRplBalance ∧
      data1.RemainingRplBalance = some c.RemainingRplBalance := by
  have hne : c.RplPrice ≠ 0 := by omega
  refine ⟨{ TotalRplBalance := some c.TotalRplBalance,
             AllottedRplBalance := some c.AllottedRplBalance,
             RemainingRplBalance := some c.RemainingRplBalance,
             CanCreateLot := decide
               ((c.LotMinimumEthValue * oneEthInWei).tdiv c.RplPrice ≤ c.RemainingRplBalance),
             LotCounts := countLots details data.LotCounts },
    by simp only [PrepareData, hne, if_false, hlots], ?_, rfl, rfl, rfl⟩
  simp only [decide_eq_true_eq, oneEthInWei]
  rw [tdiv_eq_floor _ _ (by positivity) hprice]

/-! ## The voting snapshot ID -/

/-- C17: `GetVotingSnapshotID` returns the bytes of `SnapshotID` as they are, not
a hash of them. The result has 32 bytes; byte `i` is byte `i` of `SnapshotID`
for `i < min(len(SnapshotID), 32)` and `0` for every other `i`; and the result
is the same for every configuration. -/
theorem GetVotingSnapshotID_plain_bytes (SnapshotID : List UInt8) (cfg : SmartNodeConfig) :
    (GetVotingSnapshotID SnapshotID cfg).length = 32 ∧
    (∀ i, i < min SnapshotID.length 32 →
      (GetVotingSnapshotID SnapshotID cfg)[i]? = SnapshotID[i]?) ∧
    (∀ i, min SnapshotID.length 32 ≤ i → i < 32 →
      (GetVotingSnapshotID SnapshotID cfg)[i]? = some 0) ∧
    (∀ cfg2, GetVotingSnapshotID SnapshotID cfg2 = GetVotingSnapshotID SnapshotID cfg) := by
  refine ⟨?_, ?_, ?_, fun _ => rfl⟩
  · simp only [GetVotingSnapshotID, copy, List.length_append, List.length_take,
      List.length_drop, List.length_replicate]
    omega
  · intro i hi
    simp only [GetVotingSnapshotID, copy, List.length_replicate]
    rw [List.getElem?_append_left (by simp only [List.length_take]; omega)]
    rw [List.getElem?_take_of_lt (by omega)]
  · intro i h1 h2
    simp only [GetVotingSnapshotID, copy, List.length_replicate]
    rw [List.getElem?_append_right (by simp only [List.length_take]; omega)]
    simp only [List.length_take, List.drop_replicate, List.getElem?_replicate]
    rw [if_pos (by omega)]

/-! ## Fee settings, read heights and callbacks of a run -/

theorem readDistributor_trace_eq (env : Env) (a : Address) :
    (readDistributor env a).2 = [Event.balanceAt a none, Event.queryNodeShare a none] := by
  unfold readDistributor
  simp only
  split <;> rfl

theorem forceFeeDistribution_events (env : Env) (state : NetworkState) :
    ∀ ev ∈ (forceFeeDistribution env state).2,
      usesFeeSettings env ev ∧ readsAtHeight state ev := by
  unfold forceFeeDistribution
  cases hN : state.NodeDetailsByAddress env.nodeAddress with
  | none => simp
  | some nd =>
    simp only
    cases hD : env.NewNodeDistributor env.nodeAddress nd.FeeDistributorAddress with
    | some e => simp
    | none =>
      simp only
      have htr := readDistributor_trace_eq env nd.FeeDistributorAddress
      rcases hR : readDistributor env nd.FeeDistributorAddress with ⟨r, tr⟩
      rw [hR] at htr
      simp only at htr
      have hread : ∀ ev ∈ tr, usesFeeSettings env ev ∧ readsAtHeight state ev := by
        intro ev hm
        rw [htr] at hm
        simp only [List.mem_cons, List.mem_singleton, List.not_mem_nil, or_false] at hm
        rcases hm with h | h <;> subst h <;> exact ⟨trivial, rfl⟩
      cases r with
      | error f => exact hread
      | ok pr =>
        obtain ⟨balanceRaw, share⟩ := pr
        simp only
        by_cases hB : F64.eq (WeiToEth balanceRaw) (F64.ofNat 0) = true
        · simp only [hB, if_true]
          exact hread
        · simp only [hB, Bool.false_eq_true, if_false]
          cases hT : env.GetTransactor with
          | error e => exact hread
          | ok opts0 =>
            simp only
            have hsim : ∀ ev ∈ tr ++ [Event.simulateDistribute nd.FeeDistributorAddress],
                usesFeeSettings env ev ∧ readsAtHeight state ev := by
              intro ev hm
              rcases List.mem_append.mp hm with h | h
              · exact hread ev h
              · simp only [List.mem_singleton] at h
                subst h
                exact ⟨trivial, trivial⟩
            cases hDi : env.Distribute nd.FeeDistributorAddress opts0 with
            | error e => exact hsim
            | ok txInfo =>
              simp only
              by_cases hS : txInfo.SimulationResult.SimulationError ≠ ""
              · rw [if_pos hS]
                exact hsim
              · rw [if_neg hS]
                have hfee := getMaxFee_stage env FeeSite.feeDistribution
                rcases hF : getMaxFee env FeeSite.feeDistribution with ⟨r2, tr2⟩
                rw [hF] at hfee
                simp only at hfee
                have hpre : ∀ ev ∈ tr ++ [Event.simulateDistribute nd.FeeDistributorAddress] ++ tr2,
                    usesFeeSettings env ev ∧ readsAtHeight state ev := by
                  intro ev hm
                  rcases List.mem_append.mp hm with h | h
                  · exact hsim ev h
                  · rw [hfee ev h]
                    exact ⟨trivial, trivial⟩
                cases r2 with
                | error f => exact hpre
                | ok maxFee =>
                  simp only
                  cases hG : env.PrintAndCheckGasInfo txInfo.SimulationResult true
                      env.AutoTxGasThreshold maxFee txInfo.SimulationResult.SafeGasLimit with
                  | false =>
                    simp only [Bool.not_false, if_true]
                    intro ev hm
                    rcases List.mem_append.mp hm with h | h
                    · exact hpre ev h
                    · simp only [List.mem_singleton] at h
                      subst h
                      exact ⟨⟨rfl, by rw [hF]⟩, trivial⟩
                  | true =>
                    simp only [Bool.not_true, Bool.false_eq_true, if_false]
                    have hall : ∀ ev ∈ tr ++ [Event.simulateDistribute nd.FeeDistributorAddress] ++ tr2 ++
                        [Event.gasCheck txInfo.SimulationResult env.AutoTxGasThreshold maxFee
                            txInfo.SimulationResult.SafeGasLimit true,
                          Event.submitTx txInfo
                            { GasFeeCap := some maxFee, GasTipCap := env.maxPriorityFee,
                              GasLimit := txInfo.SimulationResult.SafeGasLimit }],
                        usesFeeSettings env ev ∧ readsAtHeight state ev := by
                      intro ev hm
                      rcases List.mem_append.mp hm with h | h
                      · exact hpre ev h
                      · simp only [List.mem_cons, List.mem_singleton, List.not_mem_nil,
                          or_false] at h
                        rcases h with h | h <;> subst h
                        · exact ⟨⟨rfl, by rw [hF]⟩, trivial⟩
                        · exact ⟨⟨rfl, maxFee, by rw [hF], rfl⟩, trivial⟩
                    cases hW : env.PrintAndWaitForTransaction txInfo
                        { GasFeeCap := some maxFee, GasTipCap := env.maxPriorityFee,
                          GasLimit := txInfo.SimulationResult.SafeGasLimit } with
                    | some e => exact hall
                    | none => exact hall

theorem reduceBonds_events (env : Env) (state : NetworkState)
    (subs : List TransactionSubmission) (mps : List MinipoolV3) (wd now : Int) :
    ∀ ev ∈ (reduceBonds env subs mps wd now).2,
      usesFeeSettings env ev ∧ readsAtHeight state ev := by
  unfold reduceBonds
  cases hT : env.GetTransactor with
  | error e => simp
  | ok opts0 =>
    simp only
    have hfee := getMaxFee_stage env FeeSite.bondReduction
    rcases hF : getMaxFee env FeeSite.bondReduction with ⟨r, tr⟩
    rw [hF] at hfee
    simp only at hfee
    have hpre : ∀ ev ∈ tr, usesFeeSettings env ev ∧ readsAtHeight state ev := by
      intro ev hm
      rw [hfee ev hm]
      exact ⟨trivial, trivial⟩
    cases r with
    | error f => exact hpre
    | ok maxFee =>
      simp only
      cases hG : env.PrintAndCheckGasInfoForBatch subs true env.AutoTxGasThreshold maxFee with
      | false =>
        simp only [Bool.not_false, if_true]
        intro ev hm
        rcases List.mem_append.mp hm with h | h
        · exact hpre ev h
        · simp only [List.mem_singleton] at h
          subst h
          exact ⟨⟨rfl, by rw [hF]⟩, trivial⟩
      | true =>
        simp only [Bool.not_true, Bool.false_eq_true, if_false]
        have hall : ∀ ev ∈ tr ++
            [Event.gasCheckBatch subs env.AutoTxGasThreshold maxFee true,
              Event.submitBatch subs (makeCallbacks env mps)
                { GasFeeCap := some maxFee, GasTipCap := env.maxPriorityFee,
                  GasLimit := opts0.GasLimit }],
            usesFeeSettings env ev ∧ readsAtHeight state ev := by
          intro ev hm
          rcases List.mem_append.mp hm with h | h
          · exact hpre ev h
          · simp only [List.mem_cons, List.mem_singleton, List.not_mem_nil, or_false] at h
            rcases h with h | h <;> subst h
            · exact ⟨⟨rfl, by rw [hF]⟩, trivial⟩
            · exact ⟨⟨rfl, maxFee, by rw [hF], rfl⟩, trivial⟩
        cases hW : env.PrintAndWaitForTransactionBatch subs (makeCallbacks env mps)
            { GasFeeCap := some maxFee, GasTipCap := env.maxPriorityFee,
              GasLimit := opts0.GasLimit } with
        | some e => exact hall
        | none => exact hall

theorem reduceBonds_approved (env : Env) (subs : List TransactionSubmission)
    (mps : List MinipoolV3) (wd now : Int)
    (subs1 : List TransactionSubmission) (thr : F64) (fee : Nat)
    (hev : Event.gasCheckBatch subs1 thr fee true ∈ (reduceBonds env subs mps wd now).2) :
    ∃ o, Event.submitBatch subs (makeCallbacks env mps) o ∈
      (reduceBonds env subs mps wd now).2 := by
  unfold reduceBonds at hev ⊢
  have hfee := getMaxFee_stage env FeeSite.bondReduction
  cases hT : env.GetTransactor with
  | error e => simp [hT] at hev
  | ok opts0 =>
    simp only [hT] at hev ⊢
    rcases hF : getMaxFee env FeeSite.bondReduction with ⟨r, tr⟩
    rw [hF] at hfee
    cases r with
    | error f =>
      simp only [hF] at hev
      have := hfee _ hev
      simp at this
    | ok fee1 =>
      simp only [hF] at hev ⊢
      cases hG : env.PrintAndCheckGasInfoForBatch subs true env.AutoTxGasThreshold fee1 with
      | false =>
        simp only [hG, Bool.not_false, if_true] at hev
        exfalso
        rcases List.mem_append.mp hev with h | h
        · have := hfee _ h
          simp at this
        · simp at h
      | true =>
        simp only [Bool.not_true, Bool.false_eq_true, if_false]
        refine ⟨{ GasFeeCap := some fee1, GasTipCap := env.maxPriorityFee,
                  GasLimit := opts0.GasLimit }, ?_⟩
        split <;> simp

/-- Every call of a run uses the fee settings of its function and reads at the
height that `readsAtHeight` names. -/
theorem Run_events (env : Env) (state : NetworkState) :
    ∀ ev ∈ (Run env state).2, usesFeeSettings env ev ∧ readsAtHeight state ev := by
  intro ev hev
  rcases Run_shape env state with h | ⟨f, h⟩ | ⟨time, _, h⟩
  · rw [h] at hev; simp at hev
  · rw [h] at hev
    simp only [List.mem_singleton] at hev
    subst hev
    exact ⟨trivial, rfl⟩
  · rw [h] at hev
    simp only [after, List.singleton_append, List.mem_cons] at hev
    rcases hev with hev | hev
    · subst hev
      exact ⟨trivial, rfl⟩
    · have hs1 : ∀ ev ∈ (getReduceableMinipools env env.nodeAddress
          state.BondReductionWindowStart state.BondReductionWindowLength (wrap64 time) state
          { BlockNumber := some state.ElBlockNumber }).2,
          usesFeeSettings env ev ∧ readsAtHeight state ev := by
        intro ev hm
        obtain ⟨n, hn⟩ := getReduceableMinipools_trace env _ _ _ _ _ _ ev hm
        subst hn
        exact ⟨trivial, rfl⟩
      have hs2 := forceFeeDistribution_events env state
      have hs3 : ∀ ms, ∀ ev ∈ (createReduceBondTxs env ms).2,
          usesFeeSettings env ev ∧ readsAtHeight state ev := by
        intro ms ev hm
        have := createReduceBondTxs_stage env ms ev hm
        cases ev <;> first | exact ⟨trivial, trivial⟩ | simp [Event.stage] at this
      have hs4 := reduceBonds_events env state
      rcases runSelected_shape env state { BlockNumber := some state.ElBlockNumber }
        (wrap64 time) with ⟨f, tr1, hS1, hrun⟩ | ⟨ms, bs, tr1, hS1, hrest⟩
      · rw [hS1] at hs1
        rw [hrun] at hev
        exact hs1 ev hev
      · rw [hS1] at hs1
        simp only at hs1
        rcases hrest with ⟨_, hrun⟩ | ⟨_, tr2, hrest⟩
        · rw [hrun] at hev
          exact hs1 ev hev
        · have hmem12 : (forceFeeDistribution env state).2 = tr2 →
              ∀ ev ∈ tr1 ++ tr2, usesFeeSettings env ev ∧ readsAtHeight state ev := by
            intro htr ev hm
            rcases List.mem_append.mp hm with h | h
            · exact hs1 ev h
            · exact hs2 ev (by rw [htr]; exact h)
          rcases hrest with ⟨f, hF, hrun⟩ | ⟨hF, hrun⟩ | ⟨hF, tr3, hrest⟩
          · rw [hrun] at hev
            exact hmem12 (by rw [hF]) ev hev
          · rw [hrun] at hev
            exact hmem12 (by rw [hF]) ev hev
          · have hmem123 : (createReduceBondTxs env ms).2 = tr3 →
                ∀ ev ∈ tr1 ++ tr2 ++ tr3, usesFeeSettings env ev ∧ readsAtHeight state ev := by
              intro htr ev hm
              rcases List.mem_append.mp hm with h | h
              · exact hmem12 (by rw [hF]) ev h
              · exact hs3 ms ev (by rw [htr]; exact h)
            rcases hrest with ⟨f, hC, hrun⟩ | ⟨subs, r4, tr4, hC, hRB, htr, _, _⟩
            · rw [hrun] at hev
              exact hmem123 (by rw [hC]) ev hev
            · rw [htr] at hev
              rcases List.mem_append.mp hev with h | h
              · exact hmem123 (by rw [hC]) ev h
              · exact hs4 subs bs _ _ ev (by rw [hRB]; exact h)

theorem makeCallbacks_length (env : Env) (mps : List MinipoolV3) :
    (makeCallbacks env mps).length = mps.length := by
  unfold makeCallbacks
  split <;> simp

theorem makeCallbacks_per_iteration (env : Env) (hloop : env.loopVarPerIteration = true)
    (mps : List MinipoolV3) :
    List.Forall₂ (fun mp cb => ∀ e, Callback.invoke cb e = ⟨mp.Address, e.isNone⟩)
      mps (makeCallbacks env mps) := by
  unfold makeCallbacks
  rw [if_pos hloop, List.forall₂_map_right_iff]
  exact List.forall₂_same.mpr (fun mp _ e => rfl)

/-- With one loop variable for the whole loop, every callback reads the last
minipool of the batch. -/
theorem makeCallbacks_shared_variable (env : Env) (hloop : env.loopVarPerIteration = false)
    (mps : List MinipoolV3) :
    ∀ cb ∈ makeCallbacks env mps, ∀ e, Callback.invoke cb e =
      ⟨(mps.getLast?.map (fun mp => mp.Address)).getD 0, e.isNone⟩ := by
  intro cb hcb e
  unfold makeCallbacks at hcb
  rw [hloop] at hcb
  simp only [Bool.false_eq_true, if_false, List.mem_map] at hcb
  obtain ⟨_, _, rfl⟩ := hcb
  rfl

/-- With one loop variable for the whole loop and two minipools in the batch,
both callbacks raise the alert for the second minipool. -/
theorem shared_variable_example :
    Event.submitBatch
      [{ TxInfo := { To := 10, SimulationResult := okSimulation }, GasLimit := 150000 },
        { TxInfo := { To := 11, SimulationResult := okSimulation }, GasLimit := 150000 }]
      [{ address := 11 }, { address := 11 }]
      { GasFeeCap := some 20000000000, GasTipCap := some 2000000000, GasLimit := 0 } ∈
      (Run sharedLoopEnv twoMinipools).2 := by
  set_option maxRecDepth 100000 in decide

theorem selected_bindings_aligned (env : Env) (node : Address) (ws wl now : Int)
    (state : NetworkState) (opts : CallOpts)
    (ms : List NativeMinipoolDetails) (bs : List MinipoolV3)
    (h : (getReduceableMinipools env node ws wl now state opts).1 = .ok (ms, bs)) :
    List.Forall₂ (fun mpd b => b.Address = mpd.MinipoolAddress) ms bs := by
  obtain ⟨hlen, hall⟩ := getReduceableMinipools_sound env node ws wl now state opts ms bs h
  rw [List.forall₂_iff_zip]
  refine ⟨hlen, ?_⟩
  intro mpd b hm
  rw [(hall mpd b hm).2.1]
  rfl

theorem callbacks_for_selected (env : Env) (hloop : env.loopVarPerIteration = true)
    (ms : List NativeMinipoolDetails) (bs : List MinipoolV3)
    (hbs : List.Forall₂ (fun mpd b => b.Address = mpd.MinipoolAddress) ms bs) :
    List.Forall₂
      (fun mpd cb => ∀ e, Callback.invoke cb e = ⟨mpd.MinipoolAddress, e.isNone⟩)
      ms (makeCallbacks env bs) := by
  unfold makeCallbacks
  rw [if_pos hloop, List.forall₂_map_right_iff]
  refine hbs.imp ?_
  intro mpd b h e
  simp [Callback.invoke, h]

/-- With a loop variable per iteration (Go 1.22 and later), an approved
batch gets exactly one completion callback per minipool, aligned by index with
the minipools and the submissions. An approving gas check is followed by the
submission of the batch with its callbacks; in `reduceBonds` the submitted
batch is the one passed in and callback `i`, invoked with the error `e`, raises
the alert for the address of binding `i` with success `e == nil`; in `Run`
submission `i` is the one `createReduceBondTx` built for selected minipool `i`
and callback `i` raises the alert for the address of that minipool. -/
theorem reduceBonds_one_callback_per_minipool (env : Env) (state : NetworkState)
    (hloop : env.loopVarPerIteration = true) :
    (∀ subs mps wd now subs1 thr fee,
      Event.gasCheckBatch subs1 thr fee true ∈ (reduceBonds env subs mps wd now).2 →
      ∃ o, Event.submitBatch subs (makeCallbacks env mps) o ∈
        (reduceBonds env subs mps wd now).2) ∧
    (∀ subs mps wd now subs1 cbs o,
      Event.submitBatch subs1 cbs o ∈ (reduceBonds env subs mps wd now).2 →
      subs1 = subs ∧ cbs.length = mps.length ∧
      List.Forall₂ (fun mp cb => ∀ e, Callback.invoke cb e = ⟨mp.Address, e.isNone⟩)
        mps cbs) ∧
    (∀ subs cbs o, Event.submitBatch subs cbs o ∈ (Run env state).2 →
      ∃ ms : List NativeMinipoolDetails,
        subs.length = ms.length ∧ cbs.length = ms.length ∧
        List.Forall₂ (fun mpd sub => (createReduceBondTx env mpd).1 = .ok sub) ms subs ∧
        List.Forall₂
          (fun mpd cb => ∀ e, Callback.invoke cb e = ⟨mpd.MinipoolAddress, e.isNone⟩)
          ms cbs) := by
  refine ⟨?_, ?_, ?_⟩
  · intro subs mps wd now subs1 thr fee hev
    exact reduceBonds_approved env subs mps wd now subs1 thr fee hev
  · intro subs mps wd now subs1 cbs o hev
    obtain ⟨h1, h2⟩ := reduceBonds_submitted env subs mps wd now subs1 cbs o hev
    subst h2
    exact ⟨h1, makeCallbacks_length env mps, makeCallbacks_per_iteration env hloop mps⟩
  · intro subs cbs o hev
    obtain ⟨time, _, _, _, hsel⟩ := Run_selected env state _ hev (by simp [Event.stage])
    obtain ⟨ms, bs, subs1, hS, hC, hrb, _, _⟩ :=
      runSelected_reduce env state _ _ _ hsel rfl
    obtain ⟨h1, h2⟩ := reduceBonds_submitted env subs1 bs _ _ subs cbs o hrb
    subst h1
    subst h2
    have hsubs := createReduceBondTxs_ok env ms subs hC
    have hbs := selected_bindings_aligned env _ _ _ _ _ _ ms bs hS
    have hmc := callbacks_for_selected env hloop ms bs hbs
    exact ⟨ms, hsubs.length_eq.symm,
      by rw [makeCallbacks_length]; exact hbs.length_eq.symm, hsubs, hmc⟩

theorem reduceBonds_one_callback_per_minipool_witness :
    ∃ ms : List NativeMinipoolDetails,
      [({ TxInfo := { To := 10, SimulationResult := okSimulation }, GasLimit := 150000 } :
          TransactionSubmission),
        { TxInfo := { To := 11, SimulationResult := okSimulation },
          GasLimit := 150000 }].length = ms.length ∧
      [({ address := 10 } : Callback), { address := 11 }].length = ms.length ∧
      List.Forall₂ (fun mpd sub => (createReduceBondTx approveEnv mpd).1 = .ok sub) ms
        [{ TxInfo := { To := 10, SimulationResult := okSimulation }, GasLimit := 150000 },
          { TxInfo := { To := 11, SimulationResult := okSimulation }, GasLimit := 150000 }] ∧
      List.Forall₂
        (fun mpd cb => ∀ e, Callback.invoke cb e = ⟨mpd.MinipoolAddress, e.isNone⟩)
        ms [{ address := 10 }, { address := 11 }] :=
  (reduceBonds_one_callback_per_minipool approveEnv twoMinipools (by decide)).2.2
    [{ TxInfo := { To := 10, SimulationResult := okSimulation }, GasLimit := 150000 },
      { TxInfo := { To := 11, SimulationResult := okSimulation }, GasLimit := 150000 }]
    [{ address := 10 }, { address := 11 }]
    { GasFeeCap := some 20000000000, GasTipCap := some 2000000000, GasLimit := 0 }
    (by set_option maxRecDepth 100000 in decide)

/-- C11: with one loop variable for the whole loop (Go before 1.22), callback 0
of an approved batch raises the alert for another minipool. The minipools at
addresses 10 and 11 are selected with their bindings, the submissions are built
for 10 and 11 in this order, the gas check approves, and the batch is submitted
with two callbacks: one per minipool and aligned by index, but each closure
reads the one variable `mp`, which holds the last minipool once the loop is
over. Invoked with `nil` or with an error, callback 0 raises the alert for
address 11 with success `e == nil`, and no callback raises one for address 10. -/
theorem callbacks_alert_last_minipool :
    sharedLoopEnv.loopVarPerIteration = false ∧
    (getReduceableMinipools sharedLoopEnv 1 (7 * day) (2 * day) (requestTime + 8 * 86400)
        twoMinipools pinned).1 =
      .ok ([stakingMinipool 10 sixteenEth, stakingMinipool 11 sixteenEth],
        [queriedBinding sharedLoopEnv pinned 10, queriedBinding sharedLoopEnv pinned 11]) ∧
    makeCallbacks sharedLoopEnv
        [queriedBinding sharedLoopEnv pinned 10, queriedBinding sharedLoopEnv pinned 11] =
      [{ address := 11 }, { address := 11 }] ∧
    Event.gasCheckBatch
      [{ TxInfo := { To := 10, SimulationResult := okSimulation }, GasLimit := 150000 },
        { TxInfo := { To := 11, SimulationResult := okSimulation }, GasLimit := 150000 }]
      (F64.ofNat 100) 20000000000 true ∈ (Run sharedLoopEnv twoMinipools).2 ∧
    Event.submitBatch
      [{ TxInfo := { To := 10, SimulationResult := okSimulation }, GasLimit := 150000 },
        { TxInfo := { To := 11, SimulationResult := okSimulation }, GasLimit := 150000 }]
      [{ address := 11 }, { address := 11 }]
      { GasFeeCap := some 20000000000, GasTipCap := some 2000000000, GasLimit := 0 } ∈
      (Run sharedLoopEnv twoMinipools).2 ∧
    Callback.invoke { address := 11 } none = { address := 11, success := true } ∧
    Callback.invoke { address := 11 } (some "timeout") =
      { address := 11, success := false } := by
  set_option maxRecDepth 100000 in decide

/-- C12, counterexample: no max fee is configured and the network's max fee
changes between the two questions; the fee distribution is submitted with a fee
cap of 30 gwei and the bond-reduction batch of the same run with 40 gwei. -/
theorem fee_caps_differ_within_run :
    feeDriftEnv.maxFee = none ∧
    Event.submitTx { To := 77, SimulationResult := okSimulation }
      { GasFeeCap := some 30000000000, GasTipCap := some 2000000000, GasLimit := 150000 } ∈
      (Run feeDriftEnv twoMinipools).2 ∧
    Event.submitBatch
      [{ TxInfo := { To := 10, SimulationResult := okSimulation }, GasLimit := 150000 },
        { TxInfo := { To := 11, SimulationResult := okSimulation }, GasLimit := 150000 }]
      [{ address := 10 }, { address := 11 }]
      { GasFeeCap := some 40000000000, GasTipCap := some 2000000000, GasLimit := 0 } ∈
      (Run feeDriftEnv twoMinipools).2 := by
  set_option maxRecDepth 100000 in decide

theorem getMaxFee_configured (env : Env) (site : FeeSite) (f : Nat)
    (h : env.maxFee = some f) (hf : f % 2 ^ 64 ≠ 0) : getMaxFee env site = (.ok f, []) := by
  unfold getMaxFee
  rw [h]
  simp only
  rw [if_neg hf]

theorem getMaxFee_from_network (env : Env) (site : FeeSite) (fee : Nat)
    (h : env.maxFee = none ∨ ∃ f, env.maxFee = some f ∧ f % 2 ^ 64 = 0) :
    (getMaxFee env site).1 = .ok fee ↔ env.GetMaxFeeWeiForDaemon site = .ok fee := by
  unfold getMaxFee
  rcases h with h | ⟨f, h, hf⟩
  · rw [h]
    simp only
    cases env.GetMaxFeeWeiForDaemon site <;> simp
  · rw [h]
    simp only
    rw [if_pos hf]
    cases env.GetMaxFeeWeiForDaemon site <;> simp

/-- C12, as amended: the threshold and the priority fee are the same for the
fee distribution and for the bond-reduction batch of a run, and a batch has one
fee cap and one priority fee for all its submissions. Each of the two steps
determines its fee cap on its own: with a configured max fee whose `Uint64()`
is not zero both get that value; without one, each gets what the network
answered to its own question. -/
theorem Run_fee_settings (env : Env) (state : NetworkState) :
    (∀ ev ∈ (Run env state).2, usesFeeSettings env ev) ∧
    (∀ txInfo o1 subs cbs o2, Event.submitTx txInfo o1 ∈ (Run env state).2 →
      Event.submitBatch subs cbs o2 ∈ (Run env state).2 →
      o1.GasTipCap = o2.GasTipCap ∧
      (∀ f, env.maxFee = some f → f % 2 ^ 64 ≠ 0 →
        o1.GasFeeCap = some f ∧ o2.GasFeeCap = some f)) ∧
    (∀ sim thr1 fee1 lim b1 subs thr2 fee2 b2,
      Event.gasCheck sim thr1 fee1 lim b1 ∈ (Run env state).2 →
      Event.gasCheckBatch subs thr2 fee2 b2 ∈ (Run env state).2 → thr1 = thr2) ∧
    (∀ site f, env.maxFee = some f → f % 2 ^ 64 ≠ 0 → getMaxFee env site = (.ok f, [])) ∧
    (∀ site fee, (env.maxFee = none ∨ ∃ f, env.maxFee = some f ∧ f % 2 ^ 64 = 0) →
      ((getMaxFee env site).1 = .ok fee ↔ env.GetMaxFeeWeiForDaemon site = .ok fee)) := by
  have hev := Run_events env state
  refine ⟨fun ev h => (hev ev h).1, ?_, ?_, ?_, ?_⟩
  · intro txInfo o1 subs cbs o2 h1 h2
    obtain ⟨ht1, fee1, hf1, hc1⟩ := (hev _ h1).1
    obtain ⟨ht2, fee2, hf2, hc2⟩ := (hev _ h2).1
    refine ⟨by rw [ht1, ht2], ?_⟩
    intro f hm hf
    rw [getMaxFee_configured env _ f hm hf] at hf1 hf2
    simp only [Except.ok.injEq] at hf1 hf2
    subst hf1
    subst hf2
    exact ⟨hc1, hc2⟩
  · intro sim thr1 fee1 lim b1 subs thr2 fee2 b2 h1 h2
    rw [((hev _ h1).1).1, ((hev _ h2).1).1]
  · intro site f hm hf
    exact getMaxFee_configured env site f hm hf
  · intro site fee h
    exact getMaxFee_from_network env site fee h

/-- C18, counterexample: the snapshot is pinned to block 500, and the run reads
the balance and the node share of the fee distributor at `nil`, the latest
block. -/
theorem distributor_read_at_latest_block :
    (windowState sixteenEth).ElBlockNumber = 500 ∧
    Event.headerByNumber (some 500) ∈
      (Run (windowEnv (8 * 86400)) (windowState sixteenEth)).2 ∧
    Event.balanceAt 77 none ∈ (Run (windowEnv (8 * 86400)) (windowState sixteenEth)).2 ∧
    Event.queryNodeShare 77 none ∈
      (Run (windowEnv (8 * 86400)) (windowState sixteenEth)).2 := by
  set_option maxRecDepth 100000 in decide

/-- C18, as amended: within one run the block header used as "now" and the
batched query of the reduce-bond time and the cancelled flag of the minipools
are evaluated at the block of the snapshot, `state.ElBlockNumber`; the balance
and the node share of the fee distributor are read with nil options, at the
latest block. -/
theorem Run_read_heights (env : Env) (state : NetworkState) :
    (∀ block, Event.headerByNumber block ∈ (Run env state).2 →
      block = some state.ElBlockNumber) ∧
    (∀ count block, Event.batchQuery count block ∈ (Run env state).2 →
      block = some state.ElBlockNumber) ∧
    (∀ a block, Event.balanceAt a block ∈ (Run env state).2 → block = none) ∧
    (∀ a block, Event.queryNodeShare a block ∈ (Run env state).2 → block = none) := by
  have hev := Run_events env state
  exact ⟨fun _ h => (hev _ h).2, fun _ _ h => (hev _ h).2, fun _ _ h => (hev _ h).2,
    fun _ _ h => (hev _ h).2⟩

/-! ## The claims on concrete inputs -/

theorem getProposedBlockCount_epoch_zero_witness :
    (∀ slot ∈ List.range 32, proposedByNode ["7"] genesisBeacon slot = true) ∧
    getProposedBlockCount ["7"] genesisBeacon 32 = (.ok 0, []) :=
  ⟨by decide,
    getProposedBlockCount_epoch_zero ["7"] genesisBeacon 32 (by decide) (by decide) rfl⟩

/-- One epoch later the same chain gives the 32 proposals of epoch `1`, and the
collector sends its four metrics; it sends none when a duty query fails, and
four zeros for a node without validators. -/
theorem collector_examples :
    (getProposedBlockCount ["7"] laterBeacon 32).1 = .ok 32 ∧
    Collect (some collectorState) laterBeacon 1 true =
      some [⟨.activeSyncCommittee, 1⟩, ⟨.upcomingSyncCommittee, 1⟩,
        ⟨.upcomingProposals, 1⟩, ⟨.recentProposals, 32⟩] ∧
    Collect (some collectorState) failingBeacon 1 true = some [] ∧
    Collect (some collectorState) laterBeacon 2 true =
      some [⟨.activeSyncCommittee, 0⟩, ⟨.upcomingSyncCommittee, 0⟩,
        ⟨.upcomingProposals, 0⟩, ⟨.recentProposals, 0⟩] := by
  set_option maxRecDepth 100000 in decide

theorem getAllLotCountDetails_order_and_length_witness :
    getAllLotCountDetails exampleAuction 3 =
      .ok ((List.range 3).map (lotDetailsOf exampleAuction)) :=
  (getAllLotCountDetails_order_and_length exampleAuction 3 (by decide)).1
    (fun _ _ => rfl) (fun _ => rfl)

theorem PrepareData_can_create_lot_witness :
    ∃ data1, PrepareData exampleAuction exampleAuctionDetails emptyAuctionData = .ok data1 ∧
      (data1.CanCreateLot = true ↔
        ⌊((exampleAuctionDetails.LotMinimumEthValue * 10 ^ 18 : Int) : ℚ) /
            (exampleAuctionDetails.RplPrice : ℚ)⌋ ≤
          exampleAuctionDetails.RemainingRplBalance) ∧
      data1.TotalRplBalance = some exampleAuctionDetails.TotalRplBalance ∧
      data1.AllottedRplBalance = some exampleAuctionDetails.AllottedRplBalance ∧
      data1.RemainingRplBalance = some exampleAuctionDetails.RemainingRplBalance :=
  PrepareData_can_create_lot exampleAuction exampleAuctionDetails emptyAuctionData
    [⟨false, true, false, false⟩, ⟨true, false, true, false⟩, ⟨false, false, true, false⟩]
    (by decide) (by decide) (by decide)

/-- Without lots no batch is started: the reads that could not be carried out
are never asked for, and the result is the empty slice. -/
theorem no_lots_no_batch :
    getAllLotCountDetails { exampleAuction with execute := some "connection refused" } 0 =
      .ok [] ∧
    getAllLotCountDetails { exampleAuction with execute := some "connection refused" } 3 =
      .error (.error "error getting lot count details: connection refused") := by
  decide

/-- The voting snapshot ID for the bytes of `rocketpool-dao.eth`: the 18 bytes
of the name, then 14 zero bytes. -/
theorem GetVotingSnapshotID_example :
    GetVotingSnapshotID ("rocketpool-dao.eth".data.map Char.toUInt8)
        { UserDataPath := "", Network := "" } =
      [114, 111, 99, 107, 101, 116, 112, 111, 111, 108, 45, 100, 97, 111, 46, 101, 116,
        104, 0, 0, 0, 0, 0, 0, 0, 0, 0, 0, 0, 0, 0, 0] := by
  decide

/-! ## The lot counters of the auction status -/

/-- The counting loop adds to each counter the number of lots that meet its
condition, as long as no counter leaves the range of a 64-bit `int`. -/
theorem countLots_exact : ∀ (details : List lotCountDetails) (counts : LotCounts),
    -(2 ^ 63) ≤ counts.ClaimAvailable → -(2 ^ 63) ≤ counts.BiddingAvailable →
    -(2 ^ 63) ≤ counts.RplRecoveryAvailable →
    counts.ClaimAvailable + details.countP (fun d => d.AddressHasBid && d.Cleared) ≤
      2 ^ 63 - 1 →
    counts.BiddingAvailable + details.countP (fun d => !d.Cleared && d.HasRemainingRpl) ≤
      2 ^ 63 - 1 →
    counts.RplRecoveryAvailable +
        details.countP (fun d => d.Cleared && d.HasRemainingRpl && !d.RplRecovered) ≤
      2 ^ 63 - 1 →
    countLots details counts =
      { ClaimAvailable :=
          counts.ClaimAvailable + details.countP (fun d => d.AddressHasBid && d.Cleared)
        BiddingAvailable :=
          counts.BiddingAvailable +
            details.countP (fun d => !d.Cleared && d.HasRemainingRpl)
        RplRecoveryAvailable :=
          counts.RplRecoveryAvailable +
            details.countP (fun d => d.Cleared && d.HasRemainingRpl && !d.RplRecovered) } := by
  intro details
  induction details with
  | nil => intro counts _ _ _ _ _ _; simp [countLots]
  | cons d rest ih =>
    intro counts l1 l2 l3 h1 h2 h3
    obtain ⟨bid, cleared, remaining, recovered⟩ := d
    obtain ⟨c, b, r⟩ := counts
    simp only [List.countP_cons] at h1 h2 h3 ⊢
    simp only at l1 l2 l3 h1 h2 h3
    cases bid <;> cases cleared <;> cases remaining <;> cases recovered <;>
      simp only [countLots, Bool.and_true, Bool.and_false, Bool.true_and, Bool.false_and,
        Bool.not_true, Bool.not_false, if_true, if_false, Bool.false_eq_true, Nat.cast_add,
        Nat.cast_one, Nat.cast_zero, add_zero] at h1 h2 h3 ⊢ <;>
      (try rw [wrap64_of_fits (c + 1) (by omega) (by omega)]) <;>
      (try rw [wrap64_of_fits (b + 1) (by omega) (by omega)]) <;>
      (try rw [wrap64_of_fits (r + 1) (by omega) (by omega)]) <;>
      (rw [ih] <;> first
        | rfl
        | (simp only [LotCounts.mk.injEq, true_and, and_true]; omega))

/-- The counting loop in the arithmetic of a 64-bit `int`: each counter is the
`int` sum of its start value and the number of lots that meet its condition. -/
theorem countLots_wrap : ∀ (details : List lotCountDetails) (counts : LotCounts),
    fitsInt64 counts.ClaimAvailable → fitsInt64 counts.BiddingAvailable →
    fitsInt64 counts.RplRecoveryAvailable →
    countLots details counts =
      { ClaimAvailable :=
          wrap64 (counts.ClaimAvailable +
            details.countP (fun d => d.AddressHasBid && d.Cleared))
        BiddingAvailable :=
          wrap64 (counts.BiddingAvailable +
            details.countP (fun d => !d.Cleared && d.HasRemainingRpl))
        RplRecoveryAvailable :=
          wrap64 (counts.RplRecoveryAvailable +
            details.countP (fun d => d.Cleared && d.HasRemainingRpl && !d.RplRecovered)) } := by
  intro details
  induction details with
  | nil =>
    intro counts h1 h2 h3
    unfold fitsInt64 at h1 h2 h3
    simp only [countLots, List.countP_nil, Nat.cast_zero, add_zero]
    rw [wrap64_of_fits _ h1.1 h1.2, wrap64_of_fits _ h2.1 h2.2, wrap64_of_fits _ h3.1 h3.2]
  | cons d rest ih =>
    intro counts h1 h2 h3
    obtain ⟨bid, cleared, remaining, recovered⟩ := d
    obtain ⟨c, b, r⟩ := counts
    unfold fitsInt64 at h1 h2 h3
    simp only [List.countP_cons]
    simp only at h1 h2 h3
    cases bid <;> cases cleared <;> cases remaining <;> cases recovered <;>
      simp only [countLots, Bool.and_true, Bool.and_false, Bool.true_and, Bool.false_and,
        Bool.not_true, Bool.not_false, if_true, if_false, Bool.false_eq_true, Nat.cast_add,
        Nat.cast_one, Nat.cast_zero, add_zero] <;>
      (rw [ih] <;> first
        | rfl
        | (simp only [LotCounts.mk.injEq, true_and, and_true, wrap64, fitsInt64]; omega))

/-- At the largest value of an `int` the increment wraps around: one more
claimable lot turns the counter into the smallest value. -/
theorem countLots_wraps_at_max :
    (countLots [⟨true, true, false, false⟩]
        { ClaimAvailable := 2 ^ 63 - 1, BiddingAvailable := 0, RplRecoveryAvailable := 0 }).ClaimAvailable
      = -(2 ^ 63) := by
  decide

/-- No lot is open for bidding and awaiting the recovery of its RPL at once, so
the two kinds of lots together are no more than the lots. -/
theorem bidding_recovery_le_length : ∀ details : List lotCountDetails,
    details.countP (fun d => !d.Cleared && d.HasRemainingRpl) +
        details.countP (fun d => d.Cleared && d.HasRemainingRpl && !d.RplRecovered) ≤
      details.length := by
  intro details
  induction details with
  | nil => simp
  | cons d rest ih =>
    obtain ⟨bid, cleared, remaining, recovered⟩ := d
    simp only [List.countP_cons, List.length_cons]
    cases cleared <;> cases remaining <;> cases recovered <;> simp <;> omega

/-- A result of `getAllLotCountDetails` has `lotCount` entries, and `lotCount` is
the length of a slice. -/
theorem getAllLotCountDetails_length (chain : AuctionChain) (lotCount : Nat)
    (details : List lotCountDetails)
    (h : getAllLotCountDetails chain lotCount = .ok details) :
    details.length = lotCount ∧ lotCount < 2 ^ 63 := by
  by_cases hbig : 2 ^ 63 ≤ lotCount
  · rw [getAllLotCountDetails, if_pos hbig] at h
    cases h
  · refine ⟨?_, by omega⟩
    simp only [getAllLotCountDetails, hbig, if_false] at h
    cases hB : BatchQuery lotCount (loadLot chain) chain.execute
        (List.replicate lotCount none, List.replicate lotCount none) with
    | error e => simp [hB] at h
    | ok st1 =>
      simp only [hB] at h
      have hq := ((BatchQuery_ok _ _ _ _ _).mp hB).1
      obtain ⟨l1, l2, _, hlots, hbids, _⟩ := queryLoop_loadLot chain lotCount 0 _ st1 hq
      simp only [List.length_replicate] at l1 l2 hlots hbids
      obtain ⟨d1, hfill, hlen, _, _⟩ := fillDetails_spec chain st1.1 st1.2 lotCount 0
        (List.replicate lotCount ⟨false, false, false, false⟩)
        (by simp)
        (fun j h1 h2 => ⟨hlots j h1 h2 (by omega), hbids j h1 h2 (by omega)⟩)
      rw [hfill] at h
      simp only [Except.ok.injEq] at h
      subst h
      simpa using hlen

/-- C21: the lot counters of `PrepareData`. Once the lot details were fetched,
the call returns `nil` and each counter of `data` has grown by exactly its number
of lots: `ClaimAvailable` by the lots with `AddressHasBid` and `Cleared`,
`BiddingAvailable` by the lots not `Cleared` with `HasRemainingRpl`,
`RplRecoveryAvailable` by the lots `Cleared` with `HasRemainingRpl` and not
`RplRecovered`. The growth is that of a 64-bit `int` for every start value of
the counters, and the sum of the integers whenever that sum is an `int`. No lot
meets the conditions of both `BiddingAvailable` and `RplRecoveryAvailable`; and
from zero counters the three counters are those numbers and the sum of these two
is at most the number of lots. -/
theorem PrepareData_lot_counts (chain : AuctionChain) (c : AuctionDetails)
    (data : AuctionStatusData) (details : List lotCountDetails)
    (hprice : c.RplPrice ≠ 0)
    (hlots : getAllLotCountDetails chain c.LotCount = .ok details) :
    ∃ data1, PrepareData chain c data = .ok data1 ∧
      (fitsInt64 data.LotCounts.ClaimAvailable → fitsInt64 data.LotCounts.BiddingAvailable →
        fitsInt64 data.LotCounts.RplRecoveryAvailable →
        (data1.LotCounts.ClaimAvailable =
            wrap64 (data.LotCounts.ClaimAvailable +
              details.countP (fun d => d.AddressHasBid && d.Cleared)) ∧
          data1.LotCounts.BiddingAvailable =
            wrap64 (data.LotCounts.BiddingAvailable +
              details.countP (fun d => !d.Cleared && d.HasRemainingRpl)) ∧
          data1.LotCounts.RplRecoveryAvailable =
            wrap64 (data.LotCounts.RplRecoveryAvailable +
              details.countP
                (fun d => d.Cleared && d.HasRemainingRpl && !d.RplRecovered))) ∧
        (fitsInt64 (data.LotCounts.ClaimAvailable +
            details.countP (fun d => d.AddressHasBid && d.Cleared)) →
          fitsInt64 (data.LotCounts.BiddingAvailable +
            details.countP (fun d => !d.Cleared && d.HasRemainingRpl)) →
          fitsInt64 (data.LotCounts.RplRecoveryAvailable +
            details.countP (fun d => d.Cleared && d.HasRemainingRpl && !d.RplRecovered)) →
          data1.LotCounts.ClaimAvailable =
            data.LotCounts.ClaimAvailable +
              details.countP (fun d => d.AddressHasBid && d.Cleared) ∧
          data1.LotCounts.BiddingAvailable =
            data.LotCounts.BiddingAvailable +
              details.countP (fun d => !d.Cleared && d.HasRemainingRpl) ∧
          data1.LotCounts.RplRecoveryAvailable =
            data.LotCounts.RplRecoveryAvailable +
              details.countP
                (fun d => d.Cleared && d.HasRemainingRpl && !d.RplRecovered))) ∧
      (∀ d ∈ details, ¬((!d.Cleared && d.HasRemainingRpl) = true ∧
        (d.Cleared && d.HasRemainingRpl && !d.RplRecovered) = true)) ∧
      (data.LotCounts = ⟨0, 0, 0⟩ →
        data1.LotCounts.ClaimAvailable =
          details.countP (fun d => d.AddressHasBid && d.Cleared) ∧
        data1.LotCounts.BiddingAvailable =
          details.countP (fun d => !d.Cleared && d.HasRemainingRpl) ∧
        data1.LotCounts.RplRecoveryAvailable =
          details.countP (fun d => d.Cleared && d.HasRemainingRpl && !d.RplRecovered) ∧
        data1.LotCounts.BiddingAvailable + data1.LotCounts.RplRecoveryAvailable ≤
          details.length) := by
  refine ⟨{ TotalRplBalance := some c.TotalRplBalance,
             AllottedRplBalance := some c.AllottedRplBalance,
             RemainingRplBalance := some c.RemainingRplBalance,
             CanCreateLot := decide
               ((c.LotMinimumEthValue * oneEthInWei).tdiv c.RplPrice ≤ c.RemainingRplBalance),
             LotCounts := countLots details data.LotCounts },
    by simp only [PrepareData, hprice, if_false, hlots], ?_, ?_, ?_⟩
  · intro f1 f2 f3
    refine ⟨?_, ?_⟩
    · simp only
      rw [countLots_wrap details data.LotCounts f1 f2 f3]
      exact ⟨rfl, rfl, rfl⟩
    · intro g1 g2 g3
      simp only
      rw [countLots_exact details data.LotCounts f1.1 f2.1 f3.1 g1.2 g2.2 g3.2]
      exact ⟨rfl, rfl, rfl⟩
  · intro d _
    obtain ⟨bid, cleared, remaining, recovered⟩ := d
    cases cleared <;> simp
  · intro hzero
    obtain ⟨hlen, hcount⟩ := getAllLotCountDetails_length chain c.LotCount details hlots
    have k1 : details.countP (fun d => d.AddressHasBid && d.Cleared) ≤ details.length :=
      List.countP_le_length _
    have k2 : details.countP (fun d => !d.Cleared && d.HasRemainingRpl) ≤ details.length :=
      List.countP_le_length _
    have k3 : details.countP (fun d => d.Cleared && d.HasRemainingRpl && !d.RplRecovered) ≤
        details.length :=
      List.countP_le_length _
    have ksum := bidding_recovery_le_length details
    simp only
    rw [hzero, countLots_exact details ⟨0, 0, 0⟩ (by simp) (by simp) (by simp)
      (by simp only; omega) (by simp only; omega) (by simp only; omega)]
    simp only [zero_add, true_and]
    exact_mod_cast ksum

theorem PrepareData_lot_counts_witness :
    ∃ data1, PrepareData exampleAuction exampleAuctionDetails emptyAuctionData = .ok data1 ∧
      data1.LotCounts =
        { ClaimAvailable := 0, BiddingAvailable := 2, RplRecoveryAvailable := 0 } := by
  obtain ⟨data1, hrun, _, _, hzero⟩ :=
    PrepareData_lot_counts exampleAuction exampleAuctionDetails emptyAuctionData
      [⟨false, true, false, false⟩, ⟨true, false, true, false⟩, ⟨false, false, true, false⟩]
      (by decide) (by decide)
  refine ⟨data1, hrun, ?_⟩
  obtain ⟨h1, h2, h3, _⟩ := hzero rfl
  obtain ⟨t, a, r, cl, ⟨x, y, z⟩⟩ := data1
  simp only at h1 h2 h3
  subst h1
  subst h2
  subst h3
  simp only
  decide

/-! ## Minipools without a v3 binding -/

/-- The first loop returns an entry for every minipool when every binding can
be made. -/
theorem bindMinipools_total (env : Env) (opts : CallOpts) :
    ∀ (l : List NativeMinipoolDetails),
      (∀ m ∈ l, ∃ v3, env.bindingIsV3 m.MinipoolAddress m.Version = .ok v3) →
      ∃ es, bindMinipools env opts l = .ok es := by
  intro l
  induction l with
  | nil => intro _; exact ⟨[], rfl⟩
  | cons x rest ih =>
    intro h
    obtain ⟨v3, hx⟩ := h x (List.mem_cons_self _ _)
    obtain ⟨es, hes⟩ := ih (fun m hm => h m (List.mem_cons_of_mem _ hm))
    cases v3 <;> simp [bindMinipools, NewMinipoolFromVersion, hx, hes]

/-- The filter loop reads a field of the nil entry that the first loop left for
a minipool without a v3 binding. -/
theorem filterMinipools_skipped (env : Env) (opts : CallOpts) (ws wl now : Int) :
    ∀ (l : List NativeMinipoolDetails) (es : List (Option MinipoolV3)),
      bindMinipools env opts l = .ok es →
      (∃ m ∈ l, env.bindingIsV3 m.MinipoolAddress m.Version = .ok false) →
      filterMinipools ws wl now (l.zip es) = .error .nilPointer := by
  intro l
  induction l with
  | nil => intro es _ h; simp at h
  | cons x rest ih =>
    intro es h hskip
    simp only [bindMinipools, NewMinipoolFromVersion] at h
    cases hx : env.bindingIsV3 x.MinipoolAddress x.Version with
    | error e => simp [hx] at h
    | ok v3 =>
      cases hrest : bindMinipools env opts rest with
      | error f => cases v3 <;> simp [hx, hrest] at h
      | ok bs =>
        cases v3 with
        | false =>
          simp only [hx, hrest, GetMinipoolAsV3, Option.map_none, Except.ok.injEq] at h
          subst h
          rfl
        | true =>
          simp only [hx, hrest, GetMinipoolAsV3, Option.map_some, Except.ok.injEq] at h
          subst h
          obtain ⟨m, hm, hv⟩ := hskip
          rcases List.mem_cons.mp hm with e | hm
          · subst e
            rw [hx] at hv
            cases hv
          · have := ih bs hrest ⟨m, hm, hv⟩
            show filterMinipools ws wl now
              ((x, some (queriedBinding env opts x.MinipoolAddress)) :: rest.zip bs) = _
            rw [filterMinipools, this]

/-- C22: `getReduceableMinipools` dereferences the missing binding. In every
snapshot in which the node owns a minipool whose binding is not a v3 minipool,
once all bindings were made and the batched query succeeded, the filter loop
ends in the panic of a nil-pointer dereference: nothing is returned and no
minipool of the node is filtered. -/
theorem getReduceableMinipools_skipped_binding (env : Env) (node : Address)
    (ws wl now : Int) (state : NetworkState) (opts : CallOpts)
    (hbind : ∀ m ∈ state.MinipoolDetailsByNode node,
      ∃ v3, env.bindingIsV3 m.MinipoolAddress m.Version = .ok v3)
    (hskip : ∃ m ∈ state.MinipoolDetailsByNode node,
      env.bindingIsV3 m.MinipoolAddress m.Version = .ok false)
    (hquery : ∀ n, env.BatchQuery n opts = none) :
    (getReduceableMinipools env node ws wl now state opts).1 = .error .nilPointer := by
  obtain ⟨es, hes⟩ := bindMinipools_total env opts _ hbind
  simp only [getReduceableMinipools, hes, hquery]
  exact filterMinipools_skipped env opts ws wl now _ es hes hskip

theorem getReduceableMinipools_skipped_binding_witness :
    (getReduceableMinipools approveEnv 1 (7 * day) (2 * day) (requestTime + 8 * 86400)
      mixedVersions pinned).1 = .error .nilPointer :=
  getReduceableMinipools_skipped_binding approveEnv 1 (7 * day) (2 * day)
    (requestTime + 8 * 86400) mixedVersions pinned
    (by
      intro m hm
      simp only [mixedVersions, snapshot, if_true, List.mem_cons, List.mem_singleton,
        List.not_mem_nil, or_false] at hm
      rcases hm with e | e <;> subst e
      · exact ⟨false, rfl⟩
      · exact ⟨true, rfl⟩)
    ⟨{ stakingMinipool 10 sixteenEth with Version := 2 }, by decide, rfl⟩
    (fun _ => rfl)

/-- The run on the snapshot with the version 2 minipool: the binding of minipool
10 is a v2 binding, the batched query covers the one v3 binding, and the run
ends in the panic; without minipool 10 the minipool at address 11 is returned. -/
theorem skipped_binding_example :
    NewMinipoolFromVersion approveEnv 10 2 = .ok (.v2 10) ∧
    GetMinipoolAsV3 (.v2 10) = none ∧
    getReduceableMinipools approveEnv 1 (7 * day) (2 * day) (requestTime + 8 * 86400)
        mixedVersions pinned =
      (.error .nilPointer, [.batchQuery 1 (some 500)]) ∧
    Run approveEnv mixedVersions =
      (.error .nilPointer, [.headerByNumber (some 500), .batchQuery 1 (some 500)]) ∧
    (getReduceableMinipools approveEnv 1 (7 * day) (2 * day) (requestTime + 8 * 86400)
        (snapshot (7 * day) (2 * day) [stakingMinipool 11 sixteenEth]) pinned).1 =
      .ok ([stakingMinipool 11 sixteenEth], [queriedBinding approveEnv pinned 11]) := by
  set_option maxRecDepth 100000 in decide

end Smartnode
